import Mathlib

/-!
Verification of the Chiron chess engine core against its specification.

The definitions in this file are shallow embeddings of the C++ sources:
machine integers (`std::uint64_t`, `int`, `int16_t`, `std::uint8_t`) are
modelled as `Nat`/`Int` with explicit wrapping where the code can wrap,
`double` values are modelled as exact rationals, and enumerator values
(`Color`, `PieceType`, mailbox codes) are modelled by their underlying
integer codes, matching how the C++ code indexes arrays with them.
The file is organised as definitions first, then the theorems.
-/

namespace Chiron

/-- `kMateValue` from search.cpp. -/
def kMateValue : Int := 32000

/-- `kMateScoreThreshold = kMateValue - 512` from search.cpp. -/
def kMateScoreThreshold : Int := kMateValue - 512

/-- `to_tt_score` from search.cpp: mate scores become distance-from-node. -/
def to_tt_score (score ply : Int) : Int :=
  if score > kMateScoreThreshold then score + ply
  else if score < -kMateScoreThreshold then score - ply
  else score

/-- `from_tt_score` from search.cpp: inverse adjustment applied on probe. -/
def from_tt_score (score ply : Int) : Int :=
  if score > kMateScoreThreshold then score - ply
  else if score < -kMateScoreThreshold then score + ply
  else score

/-- Result of `static_cast<int16_t>` on an `int`: wrap into `[-2^15, 2^15)`. -/
def toInt16 (x : Int) : Int := (x + 32768) % 65536 - 32768

/-- `x` is representable as an `int16_t`. -/
def FitsInt16 (x : Int) : Prop := -32768 ≤ x ∧ x < 32768

instance (x : Int) : Decidable (FitsInt16 x) := by
  unfold FitsInt16; infer_instance

/-- A transposition-table entry (`Search::TTEntry` from search.h).
`key` is the full 64-bit Zobrist key, `depth` and `score` are the stored
`int16_t` fields, `flag` and `age` the `std::uint8_t` fields. -/
structure TTEntry where
  key : Nat := 0
  depth : Int := -1
  score : Int := 0
  moveFrom : Nat := 0
  moveTo : Nat := 0
  movePromotion : Nat := 6
  moveFlags : Nat := 0
  flag : Nat := 0
  age : Nat := 0
  deriving DecidableEq, Repr

/-- The transposition table: a flat array of `capacity` entries (modelled as a
function from slot index to entry) plus the rolling generation counter. -/
structure TTable where
  capacity : Nat
  entries : Nat → TTEntry
  generation : Nat

/-- `Search::entry_for_key`: the slot for a key is `key % capacity`. -/
def TTable.entry_for_key (t : TTable) (key : Nat) : TTEntry :=
  t.entries (key % t.capacity)

/-- `Search::store_tt` from search.cpp.  The slot is overwritten when it is
Empty (`flag = 0`), when the stored depth is `≤` the new depth, or when the
stored generation differs from the current one; `depth` and the ply-adjusted
score are narrowed to `int16_t` and the generation to `uint8_t`. -/
def TTable.store_tt (t : TTable) (key : Nat) (depth score : Int)
    (moveFrom moveTo movePromotion moveFlags : Nat) (flag : Nat) (ply : Int) :
    TTable :=
  if (t.entry_for_key key).flag = 0 ∨ (t.entry_for_key key).depth ≤ depth ∨
      (t.entry_for_key key).age ≠ t.generation then
    { t with entries := fun i =>
        if i = key % t.capacity then
          { key := key, depth := toInt16 depth,
            score := toInt16 (to_tt_score score ply),
            moveFrom := moveFrom, moveTo := moveTo,
            movePromotion := movePromotion, moveFlags := moveFlags,
            flag := flag, age := t.generation % 256 }
        else t.entries i }
  else t

/-- `Search::probe_tt` from search.cpp: succeeds when the slot is non-Empty
and the full key matches; the returned score is un-adjusted by `ply`. -/
def TTable.probe_tt (t : TTable) (key : Nat) (ply : Int) : Option TTEntry :=
  let e := t.entry_for_key key
  if e.flag ≠ 0 ∧ e.key = key then
    some { e with score := toInt16 (from_tt_score e.score ply) }
  else none

/-- `TimeHeuristicConfig` from time_manager.h; the `double` fields are
modelled as exact rationals (`0.04` as `1/25`, `0.5` as `1/2`). -/
structure TimeHeuristicConfig where
  base_allocation : ℚ := 1/25
  increment_bonus : ℚ := 1/2
  min_time_ms : Int := 10
  max_time_ms : Int := 2000

/-- `static_cast<int>` applied to a real value: truncation toward zero. -/
def castToInt (q : ℚ) : Int := if q < 0 then -⌊-q⌋ else ⌊q⌋

/-- `std::clamp(v, lo, hi)`. -/
def clampQ (v lo hi : ℚ) : ℚ := if v < lo then lo else if hi < v then hi else v

/-- `TimeManager::allocate_time_ms` from tuning.cpp, with the `double`
arithmetic modelled exactly over `ℚ`. -/
def allocate_time_ms (cfg : TimeHeuristicConfig)
    (remaining_ms increment_ms move_number moves_to_go : Int) : Int :=
  if remaining_ms ≤ 0 then cfg.min_time_ms
  else
    let mtg : Int := if moves_to_go ≤ 0 then 30 else moves_to_go
    let remaining : ℚ := remaining_ms
    let increment : ℚ := increment_ms
    let phase_boost : ℚ :=
      if move_number < 20 then 6/5 else if move_number > 60 then 4/5 else 1
    let allocation :=
      remaining * cfg.base_allocation * phase_boost + increment * cfg.increment_bonus
    let per_move_cap := remaining / (mtg : ℚ)
    castToInt (clampQ (min allocation per_move_cap)
      (cfg.min_time_ms : ℚ) (cfg.max_time_ms : ℚ))

/-- The phase boost exactly as both the code and the claim describe it. -/
def phase_boost_of (move_number : Int) : ℚ :=
  if move_number < 20 then 6/5 else if move_number > 60 then 4/5 else 1

/-- The allocation formula exactly as claim C5 words it: the per-move cap is
`remaining / max(moves_to_go, 30)`.  Written from the claim for comparison
with `allocate_time_ms`. -/
def claim_allocation (cfg : TimeHeuristicConfig)
    (remaining_ms increment_ms move_number moves_to_go : Int) : Int :=
  castToInt (clampQ
    (min ((remaining_ms : ℚ) * cfg.base_allocation * phase_boost_of move_number +
            (increment_ms : ℚ) * cfg.increment_bonus)
         ((remaining_ms : ℚ) / (max moves_to_go 30 : Int)))
    (cfg.min_time_ms : ℚ) (cfg.max_time_ms : ℚ))

/-- The amended allocation formula: identical to the claim's formula except
that the per-move cap divides by `moves_to_go` itself whenever it is positive,
falling back to 30 only when `moves_to_go ≤ 0`. -/
def amended_allocation (cfg : TimeHeuristicConfig)
    (remaining_ms increment_ms move_number moves_to_go : Int) : Int :=
  castToInt (clampQ
    (min ((remaining_ms : ℚ) * cfg.base_allocation * phase_boost_of move_number +
            (increment_ms : ℚ) * cfg.increment_bonus)
         ((remaining_ms : ℚ) / ((if moves_to_go ≤ 0 then 30 else moves_to_go : Int) : ℚ)))
    (cfg.min_time_ms : ℚ) (cfg.max_time_ms : ℚ))

/-! ### Bitboards and attack tables (bitboard.h, attacks.cpp)

`Bitboard = std::uint64_t` is modelled as a `Nat` kept below `2^64`; the
unsigned wrap of left shifts is made explicit with `&&& kMask`, and the
bitwise complement `~b` becomes `kMask ^^^ b`. -/

/-- All 64 bits set: the value of `~0ULL`. -/
def kMask : Nat := 0xffffffffffffffff

/-- `square_bb`: the bitboard with only bit `sq` set. -/
def square_bb (sq : Nat) : Nat := 1 <<< sq

/-- Bitwise complement on 64-bit words (`~b` for `b ≤ kMask`). -/
def compl64 (b : Nat) : Nat := kMask ^^^ b

/-- `file_of`: `sq & 7`. -/
def file_of (sq : Nat) : Nat := sq % 8

/-- `rank_of`: `sq >> 3`. -/
def rank_of (sq : Nat) : Nat := sq / 8

/-- `north`: shift one rank up, with 64-bit wrap. -/
def north (b : Nat) : Nat := (b <<< 8) &&& kMask

/-- `south`: shift one rank down. -/
def south (b : Nat) : Nat := b >>> 8

/-- `east`. -/
def east (b : Nat) : Nat := ((b &&& 0x7f7f7f7f7f7f7f7f) <<< 1) &&& kMask

/-- `west`. -/
def west (b : Nat) : Nat := (b &&& 0xfefefefefefefefe) >>> 1

/-- `north_east`. -/
def north_east (b : Nat) : Nat := ((b &&& 0x7f7f7f7f7f7f7f7f) <<< 9) &&& kMask

/-- `north_west`. -/
def north_west (b : Nat) : Nat := ((b &&& 0xfefefefefefefefe) <<< 7) &&& kMask

/-- `south_east`. -/
def south_east (b : Nat) : Nat := (b &&& 0x7f7f7f7f7f7f7f7f) >>> 7

/-- `south_west`. -/
def south_west (b : Nat) : Nat := (b &&& 0xfefefefefefefefe) >>> 9

/-- Helper of `mask_knight` (the `add` lambda in attacks.cpp): set the bit for
rank `r`, file `f` when both are on the board. -/
def knight_add (acc : Nat) (r f : Int) : Nat :=
  if 0 ≤ r ∧ r < 8 ∧ 0 ≤ f ∧ f < 8 then acc ||| square_bb (r * 8 + f).toNat else acc

/-- `mask_knight` from attacks.cpp. -/
def mask_knight (square : Nat) : Nat :=
  let rank : Int := square / 8
  let file : Int := square % 8
  let a := knight_add 0 (rank + 2) (file + 1)
  let a := knight_add a (rank + 2) (file - 1)
  let a := knight_add a (rank - 2) (file + 1)
  let a := knight_add a (rank - 2) (file - 1)
  let a := knight_add a (rank + 1) (file + 2)
  let a := knight_add a (rank + 1) (file - 2)
  let a := knight_add a (rank - 1) (file + 2)
  let a := knight_add a (rank - 1) (file - 2)
  a

/-- `mask_king` from attacks.cpp. -/
def mask_king (square : Nat) : Nat :=
  let b := square_bb square
  north b ||| south b ||| east b ||| west b |||
    north_east b ||| north_west b ||| south_east b ||| south_west b

/-- `mask_pawn` from attacks.cpp (color 0 = White). -/
def mask_pawn (color square : Nat) : Nat :=
  let b := square_bb square
  if color = 0 then north_east b ||| north_west b else south_east b ||| south_west b

/-- `pawn_attacks`: the precomputed per-color pawn attack table. -/
def pawn_attacks (color square : Nat) : Nat := mask_pawn color square

/-- `knight_attacks`: the precomputed knight attack table. -/
def knight_attacks (square : Nat) : Nat := mask_knight square

/-- `king_attacks`: the precomputed king attack table. -/
def king_attacks (square : Nat) : Nat := mask_king square

/-- One ray of a sliding attack: starting from rank `r`, file `f`, walk in
direction `(dr, df)`, collecting squares until the first blocker (inclusive)
or the edge of the board.  The fuel (7 in all uses) bounds the walk length;
each of the four loops in `bishop_attacks`/`rook_attacks` is an instance. -/
def ray_walk (blockers : Nat) (dr df : Int) : Nat → Int → Int → Nat
  | 0, _, _ => 0
  | fuel + 1, r, f =>
    let r' := r + dr
    let f' := f + df
    if 0 ≤ r' ∧ r' ≤ 7 ∧ 0 ≤ f' ∧ f' ≤ 7 then
      let bb := square_bb (r' * 8 + f').toNat
      if blockers &&& bb ≠ 0 then bb else bb ||| ray_walk blockers dr df fuel r' f'
    else 0

/-- `bishop_attacks` from attacks.cpp: four diagonal rays. -/
def bishop_attacks (square : Nat) (blockers : Nat) : Nat :=
  let rank : Int := square / 8
  let file : Int := square % 8
  ray_walk blockers 1 1 7 rank file ||| ray_walk blockers 1 (-1) 7 rank file |||
    ray_walk blockers (-1) 1 7 rank file ||| ray_walk blockers (-1) (-1) 7 rank file

/-- `rook_attacks` from attacks.cpp: four orthogonal rays. -/
def rook_attacks (square : Nat) (blockers : Nat) : Nat :=
  let rank : Int := square / 8
  let file : Int := square % 8
  ray_walk blockers 1 0 7 rank file ||| ray_walk blockers (-1) 0 7 rank file |||
    ray_walk blockers 0 1 7 rank file ||| ray_walk blockers 0 (-1) 7 rank file

/-- `queen_attacks` from attacks.h. -/
def queen_attacks (square : Nat) (blockers : Nat) : Nat :=
  bishop_attacks square blockers ||| rook_attacks square blockers

/-- `std::countr_zero` on a 64-bit word, written with explicit fuel
(64 in all uses); `ctz64 64 0 = 64` as for the hardware primitive. -/
def ctz64 : Nat → Nat → Nat
  | 0, _ => 0
  | fuel + 1, n => if n % 2 = 1 then 0 else 1 + ctz64 fuel (n / 2)

/-! ### Zobrist keys (zobrist.cpp)

The key tables are filled from a fixed mt19937_64 stream; every property
proved below holds for an arbitrary assignment of 64-bit keys, so the tables
are a parameter `ZTables` rather than a model of the Mersenne twister. -/

/-- The Zobrist key tables (`Zobrist::pieces_/castling_/en_passant_/side_`),
indexed the way zobrist.cpp indexes its arrays. -/
structure ZTables where
  pieces : Nat → Nat → Nat → Nat
  castling : Nat → Nat
  en_passant : Nat → Nat
  side : Nat

/-- `Zobrist::piece_key` with its guards (`PieceType::None` is code 6). -/
def ZTables.piece_key (zt : ZTables) (c pt square : Nat) : Nat :=
  if pt = 6 ∨ 64 ≤ square then 0 else zt.pieces c pt square

/-- `Zobrist::castling_key`: indexes with `rights & 0x0F`. -/
def ZTables.castling_key (zt : ZTables) (rights : Nat) : Nat :=
  zt.castling (rights % 16)

/-- `Zobrist::en_passant_key` with its file guard. -/
def ZTables.en_passant_key (zt : ZTables) (file : Nat) : Nat :=
  if 8 ≤ file then 0 else zt.en_passant file

/-!  ### Board (board.h / board.cpp)

Piece codes follow types.h: Pawn 0, Knight 1, Bishop 2, Rook 3, Queen 4,
King 5, None 6; colors are White 0, Black 1; `mailbox` codes follow
`encode_piece` with `kEmptySquare = 12`.  The `pieces_`/`occupancies_`
arrays become total functions on the index domain actually used by the
code.  `en_passant_square` is an `Int` because the C++ uses `-1` for
"none".  Squares in moves are naturals (the C++ `int` squares produced by
the move generator and FEN parsing are nonnegative). -/

/-- `kWhiteKingCastle`. -/
def kWhiteKingCastle : Nat := 1
/-- `kWhiteQueenCastle`. -/
def kWhiteQueenCastle : Nat := 2
/-- `kBlackKingCastle`. -/
def kBlackKingCastle : Nat := 4
/-- `kBlackQueenCastle`. -/
def kBlackQueenCastle : Nat := 8
/-- `kEmptySquare = kNumPieceTypes * kNumColors`. -/
def kEmptySquare : Nat := 12

/-- `encode_piece`: `type + color * kNumPieceTypes`. -/
def encode_piece (color type : Nat) : Nat := type + color * 6

/-- `decode_piece_type`. -/
def decode_piece_type (code : Nat) : Nat := if 12 ≤ code then 6 else code % 6

/-- `decode_piece_color`. -/
def decode_piece_color (code : Nat) : Nat := code / 6

/-- `opposite_color` (on color codes). -/
def opposite_color (c : Nat) : Nat := if c = 0 then 1 else 0

/-- The board state (the data members of `class Board`). -/
structure Board where
  pieces : Nat → Nat → Nat
  occupancies : Nat → Nat
  occupancy_all : Nat
  mailbox : Nat → Nat
  side_to_move : Nat
  castling_rights : Nat
  en_passant_square : Int
  halfmove_clock : Nat
  fullmove_number : Nat
  zobrist_key : Nat

/-- `Board::State`, the undo snapshot filled by `make_move`. -/
structure BState where
  castling_rights : Nat
  en_passant_square : Int
  halfmove_clock : Nat
  zobrist_key : Nat
  captured_piece : Nat
  fullmove_number : Nat
  deriving DecidableEq, Repr

/-- `Board::piece_type_at` (the C++ also rejects negative squares, which a
`Nat` square cannot be). -/
def Board.piece_type_at (b : Board) (square : Nat) : Nat :=
  if 64 ≤ square then 6
  else if b.mailbox square = kEmptySquare then 6
  else decode_piece_type (b.mailbox square)

/-- `Board::color_at`. -/
def Board.color_at (b : Board) (square : Nat) : Option Nat :=
  if 64 ≤ square then none
  else if b.mailbox square = kEmptySquare then none
  else some (decode_piece_color (b.mailbox square))

/-- `Board::place_piece`: set the square's bit in the piece, color and global
occupancy sets, write the mailbox code, and toggle the piece key. -/
def Board.place_piece (zt : ZTables) (b : Board) (color type square : Nat) : Board :=
  let bb := square_bb square
  { b with
    pieces := fun c p => if c = color ∧ p = type then b.pieces c p ||| bb else b.pieces c p
    occupancies := fun c => if c = color then b.occupancies c ||| bb else b.occupancies c
    occupancy_all := b.occupancy_all ||| bb
    mailbox := fun s => if s = square then encode_piece color type else b.mailbox s
    zobrist_key := b.zobrist_key ^^^ zt.piece_key color type square }

/-- `Board::remove_piece`: clear the square's bit everywhere, write
`kEmptySquare`, and toggle the piece key. -/
def Board.remove_piece (zt : ZTables) (b : Board) (color type square : Nat) : Board :=
  let bb := square_bb square
  { b with
    pieces := fun c p => if c = color ∧ p = type then b.pieces c p &&& compl64 bb else b.pieces c p
    occupancies := fun c => if c = color then b.occupancies c &&& compl64 bb else b.occupancies c
    occupancy_all := b.occupancy_all &&& compl64 bb
    mailbox := fun s => if s = square then kEmptySquare else b.mailbox s
    zobrist_key := b.zobrist_key ^^^ zt.piece_key color type square }

/-- `Board::is_square_attacked`: the chain of early-return checks in
board.cpp becomes a boolean disjunction in the same order. -/
def Board.is_square_attacked (b : Board) (square by_ : Nat) : Bool :=
  (pawn_attacks (opposite_color by_) square &&& b.pieces by_ 0 != 0) ||
  (knight_attacks square &&& b.pieces by_ 1 != 0) ||
  (king_attacks square &&& b.pieces by_ 5 != 0) ||
  (bishop_attacks square b.occupancy_all &&& (b.pieces by_ 2 ||| b.pieces by_ 4) != 0) ||
  (rook_attacks square b.occupancy_all &&& (b.pieces by_ 3 ||| b.pieces by_ 4) != 0)

/-- `Board::in_check`. -/
def Board.in_check (b : Board) (color : Nat) : Bool :=
  let king_bb := b.pieces color 5
  if king_bb = 0 then false
  else b.is_square_attacked (ctz64 64 king_bb) (opposite_color color)

/-! ### Moves (move.h) -/

/-- `MoveFlag` bit values. -/
def flagCapture : Nat := 1
/-- `MoveFlag::DoublePush`. -/
def flagDoublePush : Nat := 2
/-- `MoveFlag::KingCastle`. -/
def flagKingCastle : Nat := 4
/-- `MoveFlag::QueenCastle`. -/
def flagQueenCastle : Nat := 8
/-- `MoveFlag::EnPassant`. -/
def flagEnPassant : Nat := 16
/-- `MoveFlag::Promotion`. -/
def flagPromotion : Nat := 32

/-- `struct Move`: from/to squares, promotion piece code (6 = None) and the
flag bitset. -/
structure Move where
  fromSq : Nat := 0
  toSq : Nat := 0
  promotion : Nat := 6
  flags : Nat := 0
  deriving DecidableEq, Repr

/-- `Move::is_capture`. -/
def Move.is_capture (m : Move) : Bool := m.flags &&& flagCapture != 0
/-- `Move::is_double_pawn_push`. -/
def Move.is_double_pawn_push (m : Move) : Bool := m.flags &&& flagDoublePush != 0
/-- `Move::is_en_passant`. -/
def Move.is_en_passant (m : Move) : Bool := m.flags &&& flagEnPassant != 0
/-- `Move::is_castle`. -/
def Move.is_castle (m : Move) : Bool := m.flags &&& (flagKingCastle ||| flagQueenCastle) != 0
/-- `Move::is_promotion`. -/
def Move.is_promotion (m : Move) : Bool := m.flags &&& flagPromotion != 0

/-- The observable result of `Board::make_move(move, out_state)`.  The C++
signals failure by throwing after it may already have mutated `*this`; the
embedding therefore returns the board as left behind by the call together
with the error, so that partial mutation on the failing paths is visible. -/
structure MakeResult where
  err : Option String
  board : Board
  state : BState

/-- The en-passant capture square `to ± 8` (`us` is the moving side). -/
def ep_capture_square (us toSq : Nat) : Nat := if us = 0 then toSq - 8 else toSq + 8

/-- Steps of `Board::make_move` from "place the moving piece" (board.cpp line
244) to the end, shared by the en-passant, capture and quiet paths.
`captured` is 6 when nothing was captured. -/
def Board.make_move_tail (zt : ZTables) (b : Board) (m : Move) (st : BState)
    (us them moving_piece captured : Nat) : MakeResult :=
  let placed_piece := if m.is_promotion then m.promotion else moving_piece
  let b := b.place_piece zt us placed_piece m.toSq
  let b :=
    if m.is_castle then
      if m.flags &&& flagKingCastle ≠ 0 then
        let rook_from := if us = 0 then 7 else 63
        let rook_to := if us = 0 then 5 else 61
        (b.remove_piece zt us 3 rook_from).place_piece zt us 3 rook_to
      else
        let rook_from := if us = 0 then 0 else 56
        let rook_to := if us = 0 then 3 else 59
        (b.remove_piece zt us 3 rook_from).place_piece zt us 3 rook_to
    else b
  let b :=
    if moving_piece = 5 then
      { b with castling_rights :=
          b.castling_rights &&& compl64 (if us = 0 then 3 else 12) }
    else if moving_piece = 3 then
      if us = 0 then
        if m.fromSq = 0 then
          { b with castling_rights := b.castling_rights &&& compl64 kWhiteQueenCastle }
        else if m.fromSq = 7 then
          { b with castling_rights := b.castling_rights &&& compl64 kWhiteKingCastle }
        else b
      else
        if m.fromSq = 56 then
          { b with castling_rights := b.castling_rights &&& compl64 kBlackQueenCastle }
        else if m.fromSq = 63 then
          { b with castling_rights := b.castling_rights &&& compl64 kBlackKingCastle }
        else b
    else b
  let st := if captured ≠ 6 then { st with captured_piece := captured } else st
  let b :=
    if captured ≠ 6 ∧ ¬m.is_en_passant then
      let b := if m.toSq = 0 then
        { b with castling_rights := b.castling_rights &&& compl64 kWhiteQueenCastle } else b
      let b := if m.toSq = 7 then
        { b with castling_rights := b.castling_rights &&& compl64 kWhiteKingCastle } else b
      let b := if m.toSq = 56 then
        { b with castling_rights := b.castling_rights &&& compl64 kBlackQueenCastle } else b
      let b := if m.toSq = 63 then
        { b with castling_rights := b.castling_rights &&& compl64 kBlackKingCastle } else b
      b
    else b
  let b :=
    if moving_piece = 0 then
      let b := { b with halfmove_clock := 0 }
      if m.is_double_pawn_push then
        { b with en_passant_square := (((m.fromSq + m.toSq) / 2 : Nat) : Int) }
      else b
    else
      if captured ≠ 6 then { b with halfmove_clock := 0 }
      else { b with halfmove_clock := b.halfmove_clock + 1 }
  let b :=
    if b.en_passant_square ≠ (-1 : Int) then
      { b with zobrist_key :=
          b.zobrist_key ^^^ zt.en_passant_key (b.en_passant_square.toNat % 8) }
    else b
  let b := { b with zobrist_key := b.zobrist_key ^^^ zt.castling_key b.castling_rights }
  let b := { b with side_to_move := them, zobrist_key := b.zobrist_key ^^^ zt.side }
  let b := if us = 1 then { b with fullmove_number := b.fullmove_number + 1 } else b
  { err := none, board := b, state := st }

/-- `Board::make_move` from board.cpp.  Sequential mutations of the board
become shadowing `let` bindings in source order; the two `throw` statements
become error results carrying the board as mutated so far. -/
def Board.make_move (zt : ZTables) (b : Board) (m : Move) : MakeResult :=
  let st : BState :=
    { castling_rights := b.castling_rights, en_passant_square := b.en_passant_square,
      halfmove_clock := b.halfmove_clock, zobrist_key := b.zobrist_key,
      captured_piece := 6, fullmove_number := b.fullmove_number }
  let us := b.side_to_move
  let them := opposite_color us
  let moving_piece := b.piece_type_at m.fromSq
  if moving_piece = 6 then
    { err := some "Attempted to move a piece from an empty square", board := b, state := st }
  else
    let b :=
      if b.en_passant_square ≠ (-1 : Int) then
        { b with zobrist_key :=
            b.zobrist_key ^^^ zt.en_passant_key (b.en_passant_square.toNat % 8) }
      else b
    let b := { b with en_passant_square := -1 }
    let b := { b with zobrist_key := b.zobrist_key ^^^ zt.castling_key b.castling_rights }
    let b := b.remove_piece zt us moving_piece m.fromSq
    if m.is_en_passant then
      let b := b.remove_piece zt them 0 (ep_capture_square us m.toSq)
      b.make_move_tail zt m st us them moving_piece 0
    else if m.is_capture then
      let captured := b.piece_type_at m.toSq
      if captured = 6 then
        { err := some "Capture move without a target piece", board := b, state := st }
      else
        let b := b.remove_piece zt them captured m.toSq
        b.make_move_tail zt m st us them moving_piece captured
    else
      b.make_move_tail zt m st us them moving_piece 6

/-- `Board::undo_move` from board.cpp. -/
def Board.undo_move (zt : ZTables) (b : Board) (m : Move) (st : BState) : Board :=
  let them := b.side_to_move
  let us := opposite_color them
  let b := { b with side_to_move := us }
  let b :=
    if b.en_passant_square ≠ (-1 : Int) then
      { b with zobrist_key :=
          b.zobrist_key ^^^ zt.en_passant_key (b.en_passant_square.toNat % 8) }
    else b
  let b := { b with zobrist_key := b.zobrist_key ^^^ zt.castling_key b.castling_rights }
  let moved_piece := b.piece_type_at m.toSq
  let b := b.remove_piece zt us moved_piece m.toSq
  let original_piece := if m.is_promotion then 0 else moved_piece
  let b := b.place_piece zt us original_piece m.fromSq
  let b :=
    if m.is_castle then
      if m.flags &&& flagKingCastle ≠ 0 then
        let rook_from := if us = 0 then 5 else 61
        let rook_to := if us = 0 then 7 else 63
        (b.remove_piece zt us 3 rook_from).place_piece zt us 3 rook_to
      else
        let rook_from := if us = 0 then 3 else 59
        let rook_to := if us = 0 then 0 else 56
        (b.remove_piece zt us 3 rook_from).place_piece zt us 3 rook_to
    else b
  let b :=
    if st.captured_piece ≠ 6 then
      if m.is_en_passant then
        b.place_piece zt them 0 (ep_capture_square us m.toSq)
      else
        b.place_piece zt them st.captured_piece m.toSq
    else b
  { b with castling_rights := st.castling_rights,
           en_passant_square := st.en_passant_square,
           halfmove_clock := st.halfmove_clock,
           zobrist_key := st.zobrist_key,
           fullmove_number := st.fullmove_number }

/-! ### Move generation (movegen.cpp)

`pop_lsb` iteration over a bitboard visits the set bits in increasing
square order, so a `while (bb) pop_lsb` loop is embedded as iteration over
`bit_list bb`. -/

/-- The set bits of a 64-bit word, lowest first (the `pop_lsb` order). -/
def bit_list (bb : Nat) : List Nat :=
  (List.range 64).filter (fun s => bb.testBit s)

/-- `MoveGenerator::add_promotion_moves`: fan out to queen, rook, bishop,
knight, with the capture flag when requested. -/
def add_promotion_moves (frm toSq : Nat) (is_cap : Bool) : List Move :=
  [4, 3, 2, 1].map (fun promotion =>
    { fromSq := frm, toSq := toSq, promotion := promotion,
      flags := if is_cap then flagPromotion ||| flagCapture else flagPromotion })

/-- The pawn block of `generate_pseudo_legal_moves` for a single pawn on
square `frm` of side `us`. -/
def pawn_moves_from (b : Board) (us : Nat) (enemy : Nat) (frm : Nat) : List Move :=
  let rank := frm / 8
  let forward : Int := (frm : Int) + (if us = 0 then 8 else -8)
  let promotion_rank := if us = 0 then rank = 6 else rank = 1
  let pushes : List Move :=
    if 0 ≤ forward ∧ forward < 64 ∧ b.piece_type_at forward.toNat = 6 then
      if promotion_rank then add_promotion_moves frm forward.toNat false
      else
        let single : Move := { fromSq := frm, toSq := forward.toNat, flags := 0 }
        let double_forward := if us = 0 then frm + 16 else frm - 16
        let double_rank := if us = 0 then rank = 1 else rank = 6
        if double_rank ∧ b.piece_type_at double_forward = 6 then
          [single, { fromSq := frm, toSq := double_forward, flags := flagDoublePush }]
        else [single]
    else []
  let captures : List Move :=
    (bit_list (pawn_attacks us frm &&& enemy)).flatMap (fun toSq =>
      if promotion_rank then add_promotion_moves frm toSq true
      else [{ fromSq := frm, toSq := toSq, flags := flagCapture }])
  let eps : List Move :=
    if b.en_passant_square ≠ (-1 : Int) ∧
        pawn_attacks us frm &&& square_bb b.en_passant_square.toNat ≠ 0 then
      [{ fromSq := frm, toSq := b.en_passant_square.toNat,
         flags := flagCapture ||| flagEnPassant }]
    else []
  pushes ++ captures ++ eps

/-- The shared body of the knight/bishop/rook/queen/king loops: one move per
target square, with the capture flag when the target is an enemy piece. -/
def step_moves (enemy frm targets : Nat) : List Move :=
  (bit_list targets).map (fun toSq =>
    { fromSq := frm, toSq := toSq,
      flags := if enemy &&& square_bb toSq ≠ 0 then flagCapture else 0 })

/-- The castling block of `generate_pseudo_legal_moves` (the king sits on
`frm`).  Transit squares must be empty and the king's path unattacked. -/
def castle_moves (b : Board) (us them frm : Nat) : List Move :=
  if ¬ b.in_check us then
    let rights := b.castling_rights
    if us = 0 then
      (if rights &&& kWhiteKingCastle ≠ 0 ∧
          b.piece_type_at 5 = 6 ∧ b.piece_type_at 6 = 6 ∧
          ¬ b.is_square_attacked 5 them ∧ ¬ b.is_square_attacked 6 them then
        [{ fromSq := frm, toSq := 6, flags := flagKingCastle }]
      else []) ++
      (if rights &&& kWhiteQueenCastle ≠ 0 ∧
          b.piece_type_at 3 = 6 ∧ b.piece_type_at 2 = 6 ∧ b.piece_type_at 1 = 6 ∧
          ¬ b.is_square_attacked 3 them ∧ ¬ b.is_square_attacked 2 them then
        [{ fromSq := frm, toSq := 2, flags := flagQueenCastle }]
      else [])
    else
      (if rights &&& kBlackKingCastle ≠ 0 ∧
          b.piece_type_at 61 = 6 ∧ b.piece_type_at 62 = 6 ∧
          ¬ b.is_square_attacked 61 them ∧ ¬ b.is_square_attacked 62 them then
        [{ fromSq := frm, toSq := 62, flags := flagKingCastle }]
      else []) ++
      (if rights &&& kBlackQueenCastle ≠ 0 ∧
          b.piece_type_at 59 = 6 ∧ b.piece_type_at 58 = 6 ∧ b.piece_type_at 57 = 6 ∧
          ¬ b.is_square_attacked 59 them ∧ ¬ b.is_square_attacked 58 them then
        [{ fromSq := frm, toSq := 58, flags := flagQueenCastle }]
      else [])
  else []

/-- `MoveGenerator::generate_pseudo_legal_moves`. -/
def generate_pseudo_legal_moves (b : Board) : List Move :=
  let us := b.side_to_move
  let them := opposite_color us
  let friendly := b.occupancies us
  let enemy := b.occupancies them
  let occupied := b.occupancy_all
  let pawnMoves := (bit_list (b.pieces us 0)).flatMap (pawn_moves_from b us enemy)
  let knightMoves := (bit_list (b.pieces us 1)).flatMap (fun frm =>
    step_moves enemy frm (knight_attacks frm &&& compl64 friendly))
  let bishopMoves := (bit_list (b.pieces us 2)).flatMap (fun frm =>
    step_moves enemy frm (bishop_attacks frm occupied &&& compl64 friendly))
  let rookMoves := (bit_list (b.pieces us 3)).flatMap (fun frm =>
    step_moves enemy frm (rook_attacks frm occupied &&& compl64 friendly))
  let queenMoves := (bit_list (b.pieces us 4)).flatMap (fun frm =>
    step_moves enemy frm (queen_attacks frm occupied &&& compl64 friendly))
  let kingMoves :=
    match bit_list (b.pieces us 5) with
    | [] => []
    | frm :: _ =>
      step_moves enemy frm (king_attacks frm &&& compl64 friendly) ++
        castle_moves b us them frm
  pawnMoves ++ knightMoves ++ bishopMoves ++ rookMoves ++ queenMoves ++ kingMoves

/-- `MoveGenerator::generate_legal_moves`: keep the pseudo-legal moves whose
application leaves the mover's king unattacked.  The C++ makes the move on
the shared board, tests the check and undoes it; the embedding applies the
functional `make_move` and reads the check off the resulting board (claim C1
is what justifies the C++'s undo). -/
def generate_legal_moves (zt : ZTables) (b : Board) : List Move :=
  (generate_pseudo_legal_moves b).filter (fun m =>
    let r := b.make_move zt m
    ¬ r.board.in_check (opposite_color r.board.side_to_move))

/-! ### NNUE network (nnue/network.h, nnue/network.cpp)

`float` output weights and the global scale are modelled as exact
rationals.  The weight/bias vectors become total functions; a vector of
size `n` is represented by a function that the code only ever reads below
`n` (the guarded public accessors below enforce exactly that). -/

/-- `kFeatureCount = kNumColors * kNumPieceTypes * kBoardSize = 768`. -/
def kFeatureCount : Nat := 2 * 6 * 64

/-- `kDefaultHiddenSize` from network.h. -/
def kDefaultHiddenSize : Nat := 32

/-- `kActivationScale` from network.h. -/
def kActivationScale : ℚ := 512

/-- `kDefaultPieceValues` indexed by piece code. -/
def defaultPieceValue : Nat → Int
  | 0 => 100
  | 1 => 320
  | 2 => 330
  | 3 => 500
  | 4 => 900
  | 5 => 20000
  | _ => 0

/-- `feature_index(color, piece, square)` (the C++ throws on
`PieceType::None` or an out-of-range square; every call below is guarded). -/
def feature_index (color piece square : Nat) : Nat :=
  color * (6 * 64) + piece * 64 + square

/-- `weight_offset(feature, neuron)`: the neuron-major flat index. -/
def weight_offset (feature neuron : Nat) : Nat :=
  neuron * kFeatureCount + feature

/-- The NNUE `Network` data members. -/
structure Network where
  hidden_size : Nat
  input_weights : Nat → Int
  hidden_biases : Nat → Int
  output_weights : Nat → ℚ
  bias : Int
  scale : ℚ

/-- `Network::input_weight(feature, neuron)` with its bounds guards. -/
def Network.input_weight (net : Network) (feature neuron : Nat) : Int :=
  if net.hidden_size ≤ neuron ∨ kFeatureCount ≤ feature then 0
  else net.input_weights (weight_offset feature neuron)

/-- `Network::hidden_bias` with its bounds guard. -/
def Network.hidden_bias (net : Network) (neuron : Nat) : Int :=
  if net.hidden_size ≤ neuron then 0 else net.hidden_biases neuron

/-- `Network::output_weight` with its bounds guard. -/
def Network.output_weight (net : Network) (neuron : Nat) : ℚ :=
  if net.hidden_size ≤ neuron then 0 else net.output_weights neuron

/-- `Network::load_default(hidden_size)`: `ensure_storage` clamps the hidden
size to at least 1 and zero-fills the vectors, the biases stay 0, every
output weight becomes `1 / hidden_size`, and every input weight inside the
`hidden_size * 768` storage becomes the value of the piece its feature
denotes (`idx % 768` is the feature, `idx % 768 % 384 / 64` its piece code);
indices outside the storage read as the vector's fill value 0. -/
def Network.load_default (hidden_size : Nat) : Network :=
  let hs := max 1 hidden_size
  { hidden_size := hs
    input_weights := fun idx =>
      if idx < hs * kFeatureCount then defaultPieceValue (idx % kFeatureCount % 384 / 64)
      else 0
    hidden_biases := fun _ => 0
    output_weights := fun _ => (1 : ℚ) / hs
    bias := 0
    scale := 1 }

/-- `Evaluator::ensure_network_loaded`, abstracted over the outcome of
`Network::load_from_file` (disk I/O): a successful load installs the loaded
network; any failure (open error, magic/version/feature-count mismatch,
truncated read) is caught, reported, and replaced by
`load_default(kDefaultHiddenSize)`.  The error never escapes. -/
def ensure_network_loaded (load_result : Except String Network) : Network :=
  match load_result with
  | Except.ok net => net
  | Except.error _ => Network.load_default kDefaultHiddenSize

/-! ### NNUE evaluator (nnue/evaluator.h, nnue/evaluator.cpp) -/

/-- `kMaxEvaluationMagnitude` from evaluator.h. -/
def kMaxEvaluationMagnitude : Int := 30000

/-- `std::clamp` on integers. -/
def clampI (v lo hi : Int) : Int := if v < lo then lo else if hi < v then hi else v

/-- The `Accumulator` struct: one vector of summed feature weights per
color. -/
structure Accumulator where
  white : List Int
  black : List Int
  deriving DecidableEq, Repr

/-- `Accumulator::reset`. -/
def Accumulator.reset (hidden_size : Nat) : Accumulator :=
  ⟨List.replicate hidden_size 0, List.replicate hidden_size 0⟩

/-- `Evaluator::apply_feature`: add `sign` times the feature's input weights
to the mover-color vector, resizing the accumulator if it does not match the
network's hidden size. -/
def apply_feature (net : Network) (accum : Accumulator) (color piece square : Nat)
    (sign : Int) : Accumulator :=
  if piece = 6 ∨ 64 ≤ square then accum
  else
    let hidden := net.hidden_size
    let accum :=
      if accum.white.length ≠ hidden ∨ accum.black.length ≠ hidden then
        Accumulator.reset hidden
      else accum
    let feature := feature_index color piece square
    if color = 0 then
      { accum with white :=
          accum.white.mapIdx (fun neuron w => w + sign * net.input_weight feature neuron) }
    else
      { accum with black :=
          accum.black.mapIdx (fun neuron w => w + sign * net.input_weight feature neuron) }

/-- `Evaluator::update_accumulator`: copy `base`, then apply the deltas of
the move (mover, promotion, capture, castled rook); when no piece of the
side to move sits on the from-square the copy is returned unchanged. -/
def update_accumulator (net : Network) (b : Board) (m : Move) (base : Accumulator) :
    Accumulator :=
  let dest := base
  let us := b.side_to_move
  let moving_piece := b.piece_type_at m.fromSq
  if moving_piece = 6 then dest
  else
    let dest := apply_feature net dest us moving_piece m.fromSq (-1)
    let placed_piece := if m.is_promotion then m.promotion else moving_piece
    let dest := apply_feature net dest us placed_piece m.toSq 1
    let dest :=
      if m.is_capture then
        let them := opposite_color us
        let captured_piece := if m.is_en_passant then 0 else b.piece_type_at m.toSq
        let capture_square :=
          if m.is_en_passant then ep_capture_square us m.toSq else m.toSq
        apply_feature net dest them captured_piece capture_square (-1)
      else dest
    let dest :=
      if m.is_castle then
        if m.flags &&& flagKingCastle ≠ 0 then
          let rook_from := if us = 0 then 7 else 63
          let rook_to := if us = 0 then 5 else 61
          apply_feature net (apply_feature net dest us 3 rook_from (-1)) us 3 rook_to 1
        else
          let rook_from := if us = 0 then 0 else 56
          let rook_to := if us = 0 then 3 else 59
          apply_feature net (apply_feature net dest us 3 rook_from (-1)) us 3 rook_to 1
      else dest
    dest

/-- `Evaluator::evaluate`.  The two transcendental `double` operations —
`std::tanh` and `std::llround` — are parameters (`tanhQ`, `llround`) of the
embedding; everything after them (accumulator differences, biases, output
projection, scaling, the clamp to `±kMaxEvaluationMagnitude`, and the
side-to-move negation applied after the clamp) follows the source. -/
def evaluate (tanhQ : ℚ → ℚ) (llround : ℚ → Int) (net : Network) (b : Board)
    (accum : Accumulator) : Int :=
  let raw : ℚ := (List.range net.hidden_size).foldl
    (fun raw neuron =>
      let pre : Int := accum.white.getD neuron 0 - accum.black.getD neuron 0 +
        net.hidden_bias neuron
      let normalized : ℚ := (pre : ℚ) / kActivationScale
      let activation : ℚ := tanhQ normalized * kActivationScale
      raw + activation * net.output_weight neuron)
    ((net.bias : Int) : ℚ)
  let scaled : ℚ := raw * net.scale
  let score : Int := llround scaled
  let score := clampI score (-kMaxEvaluationMagnitude) kMaxEvaluationMagnitude
  if b.side_to_move = 0 then score else -score

/-! ### Concrete sample objects used by witnesses and counterexamples -/

/-- Zobrist tables with every key zero (the theorems about board mutation
hold for arbitrary tables; witnesses evaluate on this concrete choice). -/
def ztZero : ZTables := ⟨fun _ _ _ => 0, fun _ => 0, fun _ => 0, 0⟩

/-- A board holding only a white rook on a1, White to move. -/
def rookBoard : Board :=
  { pieces := fun c p => if c = 0 ∧ p = 3 then 1 else 0
    occupancies := fun c => if c = 0 then 1 else 0
    occupancy_all := 1
    mailbox := fun s => if s = 0 then 3 else 12
    side_to_move := 0
    castling_rights := 0
    en_passant_square := -1
    halfmove_clock := 0
    fullmove_number := 1
    zobrist_key := 0 }

/-- A capture move a1→b1 although b1 is empty: `make_move` rejects it. -/
def badCaptureMove : Move := { fromSq := 0, toSq := 1, promotion := 6, flags := flagCapture }

/-- A small concrete network for accessor witnesses. -/
def sampleNetwork : Network := ⟨4, fun _ => 7, fun _ => 9, fun _ => 3, 0, 1⟩

/-! ### Board invariants (spec §3) and the facts movegen guarantees

`PieceState` groups the four redundant piece-placement fields of the board;
`place_piece`/`remove_piece` act on them independently of the metadata
fields, which the coherence proofs exploit. -/

/-- The four piece-placement fields of a board. -/
structure PieceState where
  pieces : Nat → Nat → Nat
  occupancies : Nat → Nat
  occupancy_all : Nat
  mailbox : Nat → Nat

/-- Project a board onto its piece-placement fields. -/
def Board.pstate (b : Board) : PieceState :=
  ⟨b.pieces, b.occupancies, b.occupancy_all, b.mailbox⟩

/-- The piece-placement effect of `Board::place_piece`. -/
def pplace (color type square : Nat) (ps : PieceState) : PieceState :=
  let bb := square_bb square
  { pieces := fun c p => if c = color ∧ p = type then ps.pieces c p ||| bb else ps.pieces c p
    occupancies := fun c => if c = color then ps.occupancies c ||| bb else ps.occupancies c
    occupancy_all := ps.occupancy_all ||| bb
    mailbox := fun s => if s = square then encode_piece color type else ps.mailbox s }

/-- The piece-placement effect of `Board::remove_piece`. -/
def premove (color type square : Nat) (ps : PieceState) : PieceState :=
  let bb := square_bb square
  { pieces := fun c p => if c = color ∧ p = type then ps.pieces c p &&& compl64 bb else ps.pieces c p
    occupancies := fun c => if c = color then ps.occupancies c &&& compl64 bb else ps.occupancies c
    occupancy_all := ps.occupancy_all &&& compl64 bb
    mailbox := fun s => if s = square then kEmptySquare else ps.mailbox s }

/-- Coherence of the piece-placement fields (spec §3 invariants): bitboards
below `2^64`, the mailbox in code range, mailbox and piecewise bitboards in
agreement, and the cached occupancies equal to the unions. -/
def CohP (ps : PieceState) : Prop :=
  (∀ c < 2, ∀ p < 6, ps.pieces c p < 2 ^ 64) ∧
  (∀ s < 64, ps.mailbox s ≤ 12) ∧
  (∀ s < 64, ∀ c < 2, ∀ p < 6,
    ((ps.pieces c p).testBit s = true ↔ ps.mailbox s = encode_piece c p)) ∧
  (∀ c < 2, ps.occupancies c =
    ps.pieces c 0 ||| ps.pieces c 1 ||| ps.pieces c 2 ||| ps.pieces c 3 |||
      ps.pieces c 4 ||| ps.pieces c 5) ∧
  ps.occupancy_all = ps.occupancies 0 ||| ps.occupancies 1

instance (ps : PieceState) : Decidable (CohP ps) := by
  unfold CohP; infer_instance

/-- The Zobrist contribution of one square, read off a mailbox. -/
def square_key (zt : ZTables) (mb : Nat → Nat) (s : Nat) : Nat :=
  if mb s = kEmptySquare then 0
  else zt.piece_key (decode_piece_color (mb s)) (decode_piece_type (mb s)) s

/-- XOR of the piece keys of all pieces present in a mailbox. -/
def piece_xor (zt : ZTables) (mb : Nat → Nat) : Nat :=
  (List.range 64).foldr (fun s acc => square_key zt mb s ^^^ acc) 0

/-- The XOR reconstruction of the hash from scratch, exactly as
`Board::set_from_fen` builds it: piece keys for the pieces present, the
castling-rights key, the en-passant file key if set, and the side key if
Black is to move. -/
def zobristRebuild (zt : ZTables) (b : Board) : Nat :=
  piece_xor zt b.mailbox ^^^ zt.castling_key b.castling_rights ^^^
    (if b.en_passant_square ≠ (-1 : Int) then
      zt.en_passant_key (b.en_passant_square.toNat % 8) else 0) ^^^
    (if b.side_to_move = 1 then zt.side else 0)

/-- Well-formedness of a board (the spec §3 data-model invariants, which FEN
setup establishes for a legal chess position): coherent piece fields, a side
to move, in-range monotone castling rights naming an unmoved king and rook,
an en-passant square only directly behind a just-double-pushed pawn, exactly
one king per side, a side not to move that is not in check, and an
incrementally-maintained hash equal to its XOR reconstruction. -/
def WellFormed (zt : ZTables) (b : Board) : Prop :=
  CohP b.pstate ∧
  b.side_to_move < 2 ∧
  b.castling_rights < 16 ∧
  (b.castling_rights.testBit 0 → b.mailbox 4 = 5 ∧ b.mailbox 7 = 3) ∧
  (b.castling_rights.testBit 1 → b.mailbox 4 = 5 ∧ b.mailbox 0 = 3) ∧
  (b.castling_rights.testBit 2 → b.mailbox 60 = 11 ∧ b.mailbox 63 = 9) ∧
  (b.castling_rights.testBit 3 → b.mailbox 60 = 11 ∧ b.mailbox 56 = 9) ∧
  (b.en_passant_square ≠ (-1 : Int) →
    (b.side_to_move = 0 →
      40 ≤ b.en_passant_square ∧ b.en_passant_square < 48 ∧
        b.mailbox (b.en_passant_square.toNat - 8) = 6 ∧
        b.mailbox b.en_passant_square.toNat = 12) ∧
    (b.side_to_move = 1 →
      16 ≤ b.en_passant_square ∧ b.en_passant_square < 24 ∧
        b.mailbox (b.en_passant_square.toNat + 8) = 0 ∧
        b.mailbox b.en_passant_square.toNat = 12)) ∧
  (∀ c < 2, b.pieces c 5 ≠ 0 ∧ b.pieces c 5 &&& (b.pieces c 5 - 1) = 0) ∧
  b.in_check (opposite_color b.side_to_move) = false ∧
  b.zobrist_key = zobristRebuild zt b

instance (zt : ZTables) (b : Board) : Decidable (WellFormed zt b) := by
  unfold WellFormed; infer_instance

/-- The rook's origin square for a castle move. -/
def castle_rook_from (us flags : Nat) : Nat :=
  if flags &&& flagKingCastle ≠ 0 then (if us = 0 then 7 else 63)
  else (if us = 0 then 0 else 56)

/-- The rook's destination square for a castle move. -/
def castle_rook_to (us flags : Nat) : Nat :=
  if flags &&& flagKingCastle ≠ 0 then (if us = 0 then 5 else 61)
  else (if us = 0 then 3 else 59)

/-- The facts about a move that the pseudo-legal generator guarantees and
that `make_move`/`undo_move` rely on: in-range distinct squares, a flag set
from the eight combinations the generator emits, a piece of the side to move
on the from-square, and per-kind facts about the target, captured, en-passant
and castling squares (the mover is a pawn for en-passant, promotion and
double pushes, the king for castles; a non-en-passant capture never takes a
king). -/
def MoveOk (b : Board) (m : Move) : Prop :=
  b.side_to_move < 2 ∧ m.fromSq < 64 ∧ m.toSq < 64 ∧ m.fromSq ≠ m.toSq ∧
  m.flags ∈ ([0, 1, 2, 4, 8, 17, 32, 33] : List Nat) ∧
  b.mailbox m.fromSq < 12 ∧
  decode_piece_color (b.mailbox m.fromSq) = b.side_to_move ∧
  (m.is_capture = true → m.is_en_passant = false →
    b.mailbox m.toSq < 12 ∧
      decode_piece_color (b.mailbox m.toSq) = opposite_color b.side_to_move ∧
      decode_piece_type (b.mailbox m.toSq) ≠ 5) ∧
  (m.is_capture = false → b.mailbox m.toSq = 12) ∧
  (m.is_en_passant = true →
    b.mailbox m.toSq = 12 ∧
      ep_capture_square b.side_to_move m.toSq < 64 ∧
      ep_capture_square b.side_to_move m.toSq ≠ m.fromSq ∧
      ep_capture_square b.side_to_move m.toSq ≠ m.toSq ∧
      b.mailbox (ep_capture_square b.side_to_move m.toSq) =
        encode_piece (opposite_color b.side_to_move) 0 ∧
      decode_piece_type (b.mailbox m.fromSq) = 0) ∧
  (m.is_promotion = true →
    decode_piece_type (b.mailbox m.fromSq) = 0 ∧ 1 ≤ m.promotion ∧ m.promotion < 5) ∧
  (m.is_castle = true →
    decode_piece_type (b.mailbox m.fromSq) = 5 ∧
      b.mailbox (castle_rook_from b.side_to_move m.flags) =
        encode_piece b.side_to_move 3 ∧
      b.mailbox (castle_rook_to b.side_to_move m.flags) = 12 ∧
      castle_rook_from b.side_to_move m.flags ≠ m.fromSq ∧
      castle_rook_from b.side_to_move m.flags ≠ m.toSq ∧
      castle_rook_to b.side_to_move m.flags ≠ m.fromSq ∧
      castle_rook_to b.side_to_move m.flags ≠ m.toSq) ∧
  (m.is_double_pawn_push = true →
    decode_piece_type (b.mailbox m.fromSq) = 0 ∧
      (b.side_to_move = 0 →
        8 ≤ m.fromSq ∧ m.fromSq < 16 ∧ m.toSq = m.fromSq + 16 ∧
          b.mailbox (m.fromSq + 8) = 12) ∧
      (b.side_to_move = 1 →
        48 ≤ m.fromSq ∧ m.fromSq < 56 ∧ m.toSq + 16 = m.fromSq ∧
          b.mailbox (m.fromSq - 8) = 12))

set_option synthInstance.maxSize 2000 in
instance (b : Board) (m : Move) : Decidable (MoveOk b m) := by
  unfold MoveOk; infer_instance

/-- Build a board from piece-placement fields plus the metadata fields
(used to state the normal forms of `make_move`). -/
def mkBoard (ps : PieceState) (stm cast : Nat) (ep : Int) (hm fm zob : Nat) : Board :=
  { pieces := ps.pieces
    occupancies := ps.occupancies
    occupancy_all := ps.occupancy_all
    mailbox := ps.mailbox
    side_to_move := stm
    castling_rights := cast
    en_passant_square := ep
    halfmove_clock := hm
    fullmove_number := fm
    zobrist_key := zob }

/-- Boards reachable from `b0` by any sequence of legal `make_move` /
`undo_move` calls (`undo_move` consumed with the state snapshot of the
matching `make_move`, as the search and the legality filter use it). -/
inductive Reachable (zt : ZTables) : Board → Board → Prop
  | refl (b : Board) : Reachable zt b b
  | make_step {b0 b : Board} (m : Move) : Reachable zt b0 b →
      m ∈ generate_legal_moves zt b → Reachable zt b0 (b.make_move zt m).board
  | undo_step {b0 b : Board} (m : Move) : Reachable zt b0 b →
      m ∈ generate_legal_moves zt b →
      Reachable zt b0 ((b.make_move zt m).board.undo_move zt m (b.make_move zt m).state)

/-- A board with only the two kings on their home squares, White to move:
a well-formed position for the round-trip witness. -/
def kingsBoard : Board :=
  { pieces := fun c p =>
      if c = 0 ∧ p = 5 then 16 else if c = 1 ∧ p = 5 then 1152921504606846976 else 0
    occupancies := fun c => if c = 0 then 16 else 1152921504606846976
    occupancy_all := 1152921504606846992
    mailbox := fun s => if s = 4 then 5 else if s = 60 then 11 else 12
    side_to_move := 0
    castling_rights := 0
    en_passant_square := -1
    halfmove_clock := 0
    fullmove_number := 1
    zobrist_key := 0 }

/-- The empty board (every square empty), used by degenerate-case witnesses. -/
def emptyBoard : Board :=
  { pieces := fun _ _ => 0
    occupancies := fun _ => 0
    occupancy_all := 0
    mailbox := fun _ => 12
    side_to_move := 0
    castling_rights := 0
    en_passant_square := -1
    halfmove_clock := 0
    fullmove_number := 1
    zobrist_key := 0 }

end Chiron

-- ===================== Theorems =====================

/-- C7: for every integer score `s` and every ply `≥ 0`, converting to the
transposition-table representation and back is the identity:
`from_tt_score (to_tt_score s ply) ply = s`. -/
theorem C7_tt_score_roundtrip (s ply : Int) (hply : 0 ≤ ply) :
    Chiron.from_tt_score (Chiron.to_tt_score s ply) ply = s := by
  unfold Chiron.to_tt_score Chiron.from_tt_score Chiron.kMateScoreThreshold Chiron.kMateValue
  split_ifs <;> omega

/-- Witness for C7 at `s = 31600`, `ply = 3` (a winning mate score). -/
theorem C7_tt_score_roundtrip_witness :
    0 ≤ (3 : Int) ∧ Chiron.from_tt_score (Chiron.to_tt_score 31600 3) 3 = 31600 :=
  ⟨by decide, C7_tt_score_roundtrip 31600 3 (by decide)⟩

namespace Chiron

/-- The score round-trip through the table, used by the C6 proof. -/
theorem from_tt_to_tt (s ply : Int) (hply : 0 ≤ ply) :
    from_tt_score (to_tt_score s ply) ply = s :=
  by
    unfold to_tt_score from_tt_score kMateScoreThreshold kMateValue
    split_ifs <;> omega

theorem toInt16_of_fits {x : Int} (h : FitsInt16 x) : toInt16 x = x := by
  obtain ⟨h1, h2⟩ := h
  unfold toInt16
  omega

/-- If the ply-adjusted score fits in 16 bits and `0 ≤ ply`, the original
score fits as well. -/
theorem fits_of_adjusted_fits {s ply : Int} (hply : 0 ≤ ply)
    (h : FitsInt16 (to_tt_score s ply)) : FitsInt16 s := by
  unfold FitsInt16 at h ⊢
  unfold to_tt_score kMateScoreThreshold kMateValue at h
  split_ifs at h <;> omega

end Chiron

/-- C6: if the replacement policy overwrites the slot for `key` (the slot is
Empty, or the new depth is at least the stored depth, or the stored generation
differs from the current one), the stored flag is non-Empty, and `depth` and
the ply-adjusted score fit in `int16_t`, then an immediate `probe_tt` with the
same key and ply returns an entry with exactly the stored key, depth, score
(with the ply adjustment undone), move and flag. -/
theorem C6_tt_store_probe (t : Chiron.TTable) (key : Nat) (d s : Int)
    (mf mt mp mfl flag : Nat) (ply : Int)
    (hrepl : (t.entry_for_key key).flag = 0 ∨ (t.entry_for_key key).depth ≤ d ∨
      (t.entry_for_key key).age ≠ t.generation)
    (hflag : flag ≠ 0)
    (hd : Chiron.FitsInt16 d)
    (hs : Chiron.FitsInt16 (Chiron.to_tt_score s ply))
    (hply : 0 ≤ ply) :
    (t.store_tt key d s mf mt mp mfl flag ply).probe_tt key ply =
      some { key := key, depth := d, score := s, moveFrom := mf, moveTo := mt,
             movePromotion := mp, moveFlags := mfl, flag := flag,
             age := t.generation % 256 } := by
  unfold Chiron.TTable.store_tt
  rw [if_pos hrepl]
  unfold Chiron.TTable.probe_tt Chiron.TTable.entry_for_key
  simp only [eq_self_iff_true, if_true]
  rw [if_pos ⟨hflag, trivial⟩]
  rw [Chiron.toInt16_of_fits hd, Chiron.toInt16_of_fits hs,
    Chiron.from_tt_to_tt s ply hply,
    Chiron.toInt16_of_fits (Chiron.fits_of_adjusted_fits hply hs)]

/-- Witness for C6: a concrete store followed by a probe on a 4-slot table. -/
theorem C6_tt_store_probe_witness :
    let t : Chiron.TTable := ⟨4, fun _ => {}, 7⟩
    (t.store_tt 21 5 1234 12 28 6 0 1 2).probe_tt 21 2 =
      some { key := 21, depth := 5, score := 1234, moveFrom := 12, moveTo := 28,
             movePromotion := 6, moveFlags := 0, flag := 1, age := 7 } := by
  exact C6_tt_store_probe ⟨4, fun _ => {}, 7⟩ 21 5 1234 12 28 6 0 1 2
    (by left; rfl) (by decide) (by decide) (by decide) (by decide)

/-- C5 counterexample: at `remaining_ms = 3000`, `increment_ms = 0`,
`move_number = 30`, `moves_to_go = 5` (and the default fractions), the code
allocates `min(3000·0.04, 3000/5) = 120` ms while the claim's formula caps at
`3000 / max(5, 30) = 100` ms. -/
theorem C5_allocation_counterexample :
    Chiron.allocate_time_ms {} 3000 0 30 5 = 120 ∧
      Chiron.claim_allocation {} 3000 0 30 5 = 100 := by
  constructor
  · unfold Chiron.allocate_time_ms Chiron.castToInt Chiron.clampQ
    norm_num [min_def]
  · unfold Chiron.claim_allocation Chiron.phase_boost_of Chiron.castToInt Chiron.clampQ
    norm_num [min_def]

/-- C5 (amended): for positive remaining time the allocated time equals
`clamp(min(remaining·base_frac·phase_boost + increment·inc_frac,
remaining / D), 10, 2000)` truncated to an integer, where the cap divisor `D`
is `moves_to_go` itself when positive and 30 otherwise (the claim's
`max(moves_to_go, 30)` divisor is replaced by this). -/
theorem C5_allocation_formula (remaining_ms increment_ms move_number moves_to_go : Int)
    (hr : 0 < remaining_ms) :
    Chiron.allocate_time_ms {} remaining_ms increment_ms move_number moves_to_go =
      Chiron.amended_allocation {} remaining_ms increment_ms move_number moves_to_go := by
  unfold Chiron.allocate_time_ms Chiron.amended_allocation Chiron.phase_boost_of
  rw [if_neg (by omega)]

/-- Witness for C5 at the counterexample's input. -/
theorem C5_allocation_formula_witness :
    (0 : Int) < 3000 ∧
      Chiron.allocate_time_ms {} 3000 0 30 5 = Chiron.amended_allocation {} 3000 0 30 5 :=
  ⟨by decide, C5_allocation_formula 3000 0 30 5 (by decide)⟩

/-- C8: the evaluation score is clamped to `±kMaxEvaluationMagnitude = 30000`
before the side-to-move negation, so its absolute value is at most 30000 for
every network, board, accumulator and for every behaviour of the
floating-point `tanh`/`llround` steps. -/
theorem C8_evaluation_bound (tanhQ : ℚ → ℚ) (llround : ℚ → Int)
    (net : Chiron.Network) (b : Chiron.Board) (accum : Chiron.Accumulator) :
    |Chiron.evaluate tanhQ llround net b accum| ≤ Chiron.kMaxEvaluationMagnitude := by
  simp only [Chiron.evaluate, Chiron.clampI, Chiron.kMaxEvaluationMagnitude]
  split_ifs <;> rw [abs_le] <;> constructor <;> omega

/-- C9: the network parameter accessors are total: any query with a neuron
index at or above the hidden size, or (for input weights) a feature index at
or above 768, returns 0; in-range queries read the underlying storage
untouched. -/
theorem C9_network_accessor_totality (net : Chiron.Network) (feature neuron : Nat) :
    (net.hidden_size ≤ neuron →
      net.input_weight feature neuron = 0 ∧ net.hidden_bias neuron = 0 ∧
        net.output_weight neuron = 0) ∧
    (Chiron.kFeatureCount ≤ feature → net.input_weight feature neuron = 0) ∧
    (neuron < net.hidden_size → feature < Chiron.kFeatureCount →
      net.input_weight feature neuron =
          net.input_weights (Chiron.weight_offset feature neuron) ∧
        net.hidden_bias neuron = net.hidden_biases neuron ∧
        net.output_weight neuron = net.output_weights neuron) := by
  unfold Chiron.Network.input_weight Chiron.Network.hidden_bias Chiron.Network.output_weight
  refine ⟨fun h => ?_, fun h => ?_, fun h1 h2 => ?_⟩
  · rw [if_pos (Or.inl h), if_pos h, if_pos h]
    exact ⟨rfl, rfl, rfl⟩
  · rw [if_pos (Or.inr h)]
  · rw [if_neg (by omega), if_neg (by omega), if_neg (by omega)]
    exact ⟨rfl, rfl, rfl⟩

/-- Witness for C9 on a concrete network: out-of-range queries return zero
and an in-range query returns the stored values. -/
theorem C9_network_accessor_totality_witness :
    (Chiron.sampleNetwork.hidden_size ≤ 5 →
      Chiron.sampleNetwork.input_weight 800 5 = 0 ∧
        Chiron.sampleNetwork.hidden_bias 5 = 0 ∧
        Chiron.sampleNetwork.output_weight 5 = 0) ∧
    (Chiron.kFeatureCount ≤ 800 → Chiron.sampleNetwork.input_weight 800 5 = 0) ∧
    (5 < Chiron.sampleNetwork.hidden_size → 800 < Chiron.kFeatureCount →
      Chiron.sampleNetwork.input_weight 800 5 =
          Chiron.sampleNetwork.input_weights (Chiron.weight_offset 800 5) ∧
        Chiron.sampleNetwork.hidden_bias 5 = Chiron.sampleNetwork.hidden_biases 5 ∧
        Chiron.sampleNetwork.output_weight 5 = Chiron.sampleNetwork.output_weights 5) :=
  C9_network_accessor_totality Chiron.sampleNetwork 800 5

/-- C10: when the from-square of the move holds no piece (`piece_type_at`
returns None), `update_accumulator` returns the base accumulator unchanged:
the incremental update degrades to a copy. -/
theorem C10_update_accumulator_copy (net : Chiron.Network) (b : Chiron.Board)
    (m : Chiron.Move) (base : Chiron.Accumulator)
    (h : b.piece_type_at m.fromSq = 6) :
    Chiron.update_accumulator net b m base = base := by
  unfold Chiron.update_accumulator
  simp only [h, eq_self_iff_true, if_true]

/-- Witness for C10: an empty from-square on the empty board. -/
theorem C10_update_accumulator_copy_witness :
    Chiron.emptyBoard.piece_type_at (Chiron.Move.fromSq {}) = 6 ∧
      Chiron.update_accumulator Chiron.sampleNetwork Chiron.emptyBoard {} ⟨[1, 2], [3]⟩ =
        ⟨[1, 2], [3]⟩ :=
  ⟨by decide,
    C10_update_accumulator_copy Chiron.sampleNetwork Chiron.emptyBoard {} ⟨[1, 2], [3]⟩
      (by decide)⟩

/-- C4 counterexample: the evaluator's fallback path calls `load_default()`
with the default argument `kDefaultHiddenSize = 32`, so the fallback hidden
size is 32, not 1 as the claim states. -/
theorem C4_fallback_counterexample :
    (Chiron.ensure_network_loaded (Except.error "failed to open")).hidden_size = 32 ∧
      (Chiron.ensure_network_loaded (Except.error "failed to open")).hidden_size ≠ 1 := by
  constructor <;> decide

/-- C4 (amended): whatever the load error, the evaluator installs the default
piece-square network with hidden size `H = kDefaultHiddenSize = 32`; every
in-range input weight is the value of the feature's piece, hidden biases are
0, every output weight is `1/H`, the global bias is 0 and the global scale is
1.  The error is consumed (`ensure_network_loaded` is total), never
propagated. -/
theorem C4_fallback_default (e : String) (c p sq neuron : Nat)
    (hc : c < 2) (hp : p < 6) (hsq : sq < 64) (hn : neuron < 32) :
    (Chiron.ensure_network_loaded (Except.error e)).hidden_size = 32 ∧
    (Chiron.ensure_network_loaded (Except.error e)).input_weight
        (Chiron.feature_index c p sq) neuron = Chiron.defaultPieceValue p ∧
    (Chiron.ensure_network_loaded (Except.error e)).hidden_bias neuron = 0 ∧
    (Chiron.ensure_network_loaded (Except.error e)).output_weight neuron = 1 / 32 ∧
    (Chiron.ensure_network_loaded (Except.error e)).bias = 0 ∧
    (Chiron.ensure_network_loaded (Except.error e)).scale = 1 := by
  have hfe : Chiron.feature_index c p sq < Chiron.kFeatureCount := by
    unfold Chiron.feature_index Chiron.kFeatureCount
    omega
  simp only [Chiron.ensure_network_loaded, Chiron.Network.load_default,
    Chiron.kDefaultHiddenSize, Chiron.Network.input_weight, Chiron.Network.hidden_bias,
    Chiron.Network.output_weight]
  refine ⟨by trivial, ?_, ?_, ?_, by trivial, by trivial⟩
  · rw [if_neg (by omega)]
    rw [if_pos (by unfold Chiron.weight_offset Chiron.kFeatureCount at *; omega)]
    have harg : Chiron.weight_offset (Chiron.feature_index c p sq) neuron %
        Chiron.kFeatureCount % 384 / 64 = p := by
      unfold Chiron.weight_offset Chiron.feature_index Chiron.kFeatureCount
      omega
    rw [harg]
  · rw [if_neg (by omega)]
  · rw [if_neg (by omega)]
    norm_num

/-- Witness for C4 at a concrete error and feature (white knight on b1,
neuron 0). -/
theorem C4_fallback_default_witness :
    (1 : Nat) < 2 ∧ (1 : Nat) < 6 ∧ (1 : Nat) < 64 ∧ (0 : Nat) < 32 ∧
    ((Chiron.ensure_network_loaded (Except.error "magic mismatch")).hidden_size = 32 ∧
     (Chiron.ensure_network_loaded (Except.error "magic mismatch")).input_weight
        (Chiron.feature_index 0 1 1) 0 = Chiron.defaultPieceValue 1 ∧
     (Chiron.ensure_network_loaded (Except.error "magic mismatch")).hidden_bias 0 = 0 ∧
     (Chiron.ensure_network_loaded (Except.error "magic mismatch")).output_weight 0 = 1 / 32 ∧
     (Chiron.ensure_network_loaded (Except.error "magic mismatch")).bias = 0 ∧
     (Chiron.ensure_network_loaded (Except.error "magic mismatch")).scale = 1) :=
  ⟨by decide, by decide, by decide, by decide,
    C4_fallback_default "magic mismatch" 0 1 1 0 (by decide) (by decide) (by decide) (by decide)⟩

/-- C3 counterexample: a non-en-passant capture onto an empty square fails
with the error, but the board has already been mutated before the throw — the
moving rook has been removed from a1 (its mailbox entry is now empty). -/
theorem C3_failure_mutates_board :
    (Chiron.rookBoard.make_move Chiron.ztZero Chiron.badCaptureMove).err ≠ none ∧
      (Chiron.rookBoard.make_move Chiron.ztZero Chiron.badCaptureMove).board.mailbox 0 ≠
        Chiron.rookBoard.mailbox 0 := by
  constructor <;> decide

/-- Removing a piece from one square does not change `piece_type_at` on any
other square (C3 helper). -/
theorem piece_type_at_remove_other (zt : Chiron.ZTables) (b : Chiron.Board)
    (c t sq s : Nat) (h : s ≠ sq) :
    (b.remove_piece zt c t sq).piece_type_at s = b.piece_type_at s := by
  unfold Chiron.Board.remove_piece Chiron.Board.piece_type_at
  simp only [if_neg h]

/-- `piece_type_at` only depends on the mailbox (C3 helper). -/
theorem piece_type_at_congr {b b' : Chiron.Board} (h : b.mailbox = b'.mailbox) (s : Nat) :
    b.piece_type_at s = b'.piece_type_at s := by
  unfold Chiron.Board.piece_type_at
  rw [h]

/-- C3 (amended): `make_move` signals both failure modes with an error.  When
no piece sits on the from-square it leaves the board completely unchanged;
when a non-en-passant capture targets an empty square (distinct from the
from-square) it signals the error, but only after the en-passant square, the
hash and the moving piece have already been mutated. -/
theorem C3_make_move_failure (zt : Chiron.ZTables) (b : Chiron.Board) (m : Chiron.Move) :
    (b.piece_type_at m.fromSq = 6 →
      (b.make_move zt m).err ≠ none ∧ (b.make_move zt m).board = b) ∧
    (b.piece_type_at m.fromSq ≠ 6 → m.is_en_passant = false → m.is_capture = true →
      m.toSq ≠ m.fromSq → b.piece_type_at m.toSq = 6 →
      (b.make_move zt m).err ≠ none) := by
  constructor
  · intro h
    unfold Chiron.Board.make_move
    simp only [h, eq_self_iff_true, if_true]
    exact ⟨by simp, by trivial⟩
  · intro h hep hcap hne hempty
    unfold Chiron.Board.make_move
    rw [if_neg h]
    simp only [hep, hcap, Bool.false_eq_true, if_false, if_true]
    split <;>
      (split
       · simp
       · rename_i hX
         exfalso
         apply hX
         rw [piece_type_at_remove_other _ _ _ _ _ _ hne]
         exact hempty)

/-- Witness for C3's amended theorem: the missing-piece branch on the empty
board leaves it untouched, and the failing capture branch on `rookBoard`
reports its error. -/
theorem C3_make_move_failure_witness :
    (Chiron.emptyBoard.piece_type_at (Chiron.Move.fromSq {}) = 6 ∧
      ((Chiron.emptyBoard.make_move Chiron.ztZero {}).err ≠ none ∧
        (Chiron.emptyBoard.make_move Chiron.ztZero {}).board = Chiron.emptyBoard)) ∧
    ((Chiron.rookBoard.make_move Chiron.ztZero Chiron.badCaptureMove).err ≠ none) :=
  ⟨⟨by decide, (C3_make_move_failure Chiron.ztZero Chiron.emptyBoard {}).1 (by decide)⟩,
    (C3_make_move_failure Chiron.ztZero Chiron.rookBoard Chiron.badCaptureMove).2
      (by decide) (by decide) (by decide) (by decide) (by decide)⟩

namespace Chiron

/-! ### Bit-level helper lemmas for the board proofs -/

theorem square_bb_eq_pow (s : Nat) : square_bb s = 2 ^ s := Nat.one_shiftLeft s

theorem testBit_square_bb (s i : Nat) : (square_bb s).testBit i = decide (i = s) := by
  rw [square_bb_eq_pow, Nat.testBit_two_pow]
  by_cases h : i = s <;> simp [h] <;> omega

theorem testBit_kMask (i : Nat) : kMask.testBit i = decide (i < 64) := by
  have : kMask = 2 ^ 64 - 1 := by unfold kMask; norm_num
  rw [this, Nat.testBit_two_pow_sub_one]

theorem testBit_compl64 (b i : Nat) :
    (compl64 b).testBit i = (decide (i < 64) != b.testBit i) := by
  unfold compl64
  rw [Nat.testBit_xor, testBit_kMask]

theorem testBit_ne_zero {x i : Nat} (h : x.testBit i = true) : x ≠ 0 := by
  intro h0
  rw [h0, Nat.zero_testBit] at h
  exact Bool.false_ne_true h

theorem land_square_bb_ne_zero (x t : Nat) :
    x &&& square_bb t ≠ 0 ↔ x.testBit t = true := by
  constructor
  · intro h
    by_contra hbit
    apply h
    apply Nat.eq_of_testBit_eq
    intro i
    rw [Nat.testBit_and, testBit_square_bb, Nat.zero_testBit]
    by_cases hi : i = t
    · subst hi
      simp [Bool.eq_false_iff.mpr hbit]
    · simp [hi]
  · intro h
    apply testBit_ne_zero (i := t)
    rw [Nat.testBit_and, testBit_square_bb, h]
    simp

theorem land_ne_zero_of_testBit {x y i : Nat} (hx : x.testBit i = true)
    (hy : y.testBit i = true) : x &&& y ≠ 0 := by
  apply testBit_ne_zero (i := i)
  rw [Nat.testBit_and, hx, hy]
  rfl

theorem testBit_high_of_lt {x i : Nat} (hx : x < 2 ^ 64) (hi : 64 ≤ i) :
    x.testBit i = false := by
  apply Nat.testBit_lt_two_pow
  calc x < 2 ^ 64 := hx
    _ ≤ 2 ^ i := Nat.pow_le_pow_right (by norm_num) hi

/-- Clearing a set bit and setting it again is the identity. -/
theorem clear_set_bit {x s : Nat} (hx : x < 2 ^ 64) (hs : s < 64)
    (h : x.testBit s = true) :
    (x &&& compl64 (square_bb s)) ||| square_bb s = x := by
  apply Nat.eq_of_testBit_eq
  intro i
  rw [Nat.testBit_or, Nat.testBit_and, testBit_compl64, testBit_square_bb]
  by_cases hi : i = s
  · subst hi
    simp [h]
  · by_cases h64 : i < 64
    · simp [hi, h64]
    · rw [testBit_high_of_lt hx (by omega)]
      simp [hi, h64]

/-- Setting an unset bit and clearing it again is the identity. -/
theorem set_clear_bit {x s : Nat} (hx : x < 2 ^ 64) (hs : s < 64)
    (h : x.testBit s = false) :
    (x ||| square_bb s) &&& compl64 (square_bb s) = x := by
  apply Nat.eq_of_testBit_eq
  intro i
  rw [Nat.testBit_and, Nat.testBit_or, testBit_compl64, testBit_square_bb]
  by_cases hi : i = s
  · subst hi
    simp [h, hs]
  · by_cases h64 : i < 64
    · simp [hi, h64]
    · rw [testBit_high_of_lt hx (by omega)]
      simp [hi, h64]

theorem or_square_bb_lt {x s : Nat} (hx : x < 2 ^ 64) (hs : s < 64) :
    x ||| square_bb s < 2 ^ 64 := by
  apply Nat.or_lt_two_pow hx
  rw [square_bb_eq_pow]
  exact Nat.pow_lt_pow_right (by norm_num) hs

theorem and_lt_of_lt {x y : Nat} (hx : x < 2 ^ 64) : x &&& y < 2 ^ 64 :=
  Nat.lt_of_le_of_lt Nat.and_le_left hx

theorem testBit_or_square_bb (x s i : Nat) :
    (x ||| square_bb s).testBit i = (x.testBit i || decide (i = s)) := by
  rw [Nat.testBit_or, testBit_square_bb]

theorem testBit_and_compl_square_bb (x s i : Nat) (hi : i < 64) :
    (x &&& compl64 (square_bb s)).testBit i = (x.testBit i && !decide (i = s)) := by
  rw [Nat.testBit_and, testBit_compl64, testBit_square_bb]
  simp [hi]

end Chiron

namespace Chiron

/-! ### PieceState algebra -/

theorem PieceState.ext' {ps ps' : PieceState} (h1 : ps.pieces = ps'.pieces)
    (h2 : ps.occupancies = ps'.occupancies) (h3 : ps.occupancy_all = ps'.occupancy_all)
    (h4 : ps.mailbox = ps'.mailbox) : ps = ps' := by
  cases ps
  cases ps'
  simp_all

theorem pstate_place (zt : ZTables) (b : Board) (c p s : Nat) :
    (b.place_piece zt c p s).pstate = pplace c p s b.pstate := rfl

theorem pstate_remove (zt : ZTables) (b : Board) (c p s : Nat) :
    (b.remove_piece zt c p s).pstate = premove c p s b.pstate := rfl

theorem pplace_mailbox (c p s : Nat) (ps : PieceState) (s' : Nat) :
    (pplace c p s ps).mailbox s' = if s' = s then encode_piece c p else ps.mailbox s' := rfl

theorem premove_mailbox (c p s : Nat) (ps : PieceState) (s' : Nat) :
    (premove c p s ps).mailbox s' = if s' = s then kEmptySquare else ps.mailbox s' := rfl

/-- The bit of a cached occupancy is the disjunction of the piece bits. -/
theorem occ_testBit {ps : PieceState} (hc : CohP ps) {c : Nat} (hc2 : c < 2) (s : Nat) :
    (ps.occupancies c).testBit s =
      ((ps.pieces c 0).testBit s || (ps.pieces c 1).testBit s || (ps.pieces c 2).testBit s ||
        (ps.pieces c 3).testBit s || (ps.pieces c 4).testBit s || (ps.pieces c 5).testBit s) := by
  rw [hc.2.2.2.1 c hc2]
  simp [Nat.testBit_or]

/-- On an empty square no piece bit is set. -/
theorem empty_no_bit {ps : PieceState} (hc : CohP ps) {s : Nat} (hs : s < 64)
    (hm : ps.mailbox s = 12) {c p : Nat} (hc2 : c < 2) (hp : p < 6) :
    (ps.pieces c p).testBit s = false := by
  rw [Bool.eq_false_iff]
  intro hbit
  have := (hc.2.2.1 s hs c hc2 p hp).mp hbit
  unfold encode_piece at this
  omega

/-- On an empty square the cached occupancies are clear. -/
theorem empty_no_occ {ps : PieceState} (hc : CohP ps) {s : Nat} (hs : s < 64)
    (hm : ps.mailbox s = 12) {c : Nat} (hc2 : c < 2) :
    (ps.occupancies c).testBit s = false := by
  rw [occ_testBit hc hc2]
  simp [empty_no_bit hc hs hm hc2]

theorem empty_no_occ_all {ps : PieceState} (hc : CohP ps) {s : Nat} (hs : s < 64)
    (hm : ps.mailbox s = 12) : ps.occupancy_all.testBit s = false := by
  rw [hc.2.2.2.2, Nat.testBit_or]
  simp [empty_no_occ hc hs hm]

/-- A square holding `encode_piece c p` has exactly that piece bit set. -/
theorem occupied_bit {ps : PieceState} (hc : CohP ps) {s : Nat} (hs : s < 64)
    {c p : Nat} (hc2 : c < 2) (hp : p < 6) (hm : ps.mailbox s = encode_piece c p) :
    (ps.pieces c p).testBit s = true :=
  (hc.2.2.1 s hs c hc2 p hp).mpr hm

theorem occupied_occ_bit {ps : PieceState} (hc : CohP ps) {s : Nat} (hs : s < 64)
    {c p : Nat} (hc2 : c < 2) (hp : p < 6) (hm : ps.mailbox s = encode_piece c p) :
    (ps.occupancies c).testBit s = true := by
  rw [occ_testBit hc hc2]
  interval_cases p <;> simp [occupied_bit hc hs hc2 (by omega) hm]

theorem occupied_occ_all_bit {ps : PieceState} (hc : CohP ps) {s : Nat} (hs : s < 64)
    {c p : Nat} (hc2 : c < 2) (hp : p < 6) (hm : ps.mailbox s = encode_piece c p) :
    ps.occupancy_all.testBit s = true := by
  rw [hc.2.2.2.2, Nat.testBit_or]
  interval_cases c <;> simp [occupied_occ_bit hc hs (by omega) hp hm]

/-- A square holding `encode_piece c p` has no other piece bit set. -/
theorem occupied_other_bit {ps : PieceState} (hc : CohP ps) {s : Nat} (hs : s < 64)
    {c p c' p' : Nat} (hc2 : c < 2) (hp : p < 6) (hc2' : c' < 2) (hp' : p' < 6)
    (hm : ps.mailbox s = encode_piece c p) (hne : ¬(c' = c ∧ p' = p)) :
    (ps.pieces c' p').testBit s = false := by
  rw [Bool.eq_false_iff]
  intro hbit
  have := (hc.2.2.1 s hs c' hc2' p' hp').mp hbit
  rw [hm] at this
  unfold encode_piece at this
  omega

theorem occupied_other_occ {ps : PieceState} (hc : CohP ps) {s : Nat} (hs : s < 64)
    {c p c' : Nat} (hc2 : c < 2) (hp : p < 6) (hc2' : c' < 2) (hne : c' ≠ c)
    (hm : ps.mailbox s = encode_piece c p) :
    (ps.occupancies c').testBit s = false := by
  rw [occ_testBit hc hc2']
  have h0 := occupied_other_bit hc hs hc2 hp hc2' (show (0:Nat) < 6 by norm_num) hm (by tauto)
  have h1 := occupied_other_bit hc hs hc2 hp hc2' (show (1:Nat) < 6 by norm_num) hm (by tauto)
  have h2 := occupied_other_bit hc hs hc2 hp hc2' (show (2:Nat) < 6 by norm_num) hm (by tauto)
  have h3 := occupied_other_bit hc hs hc2 hp hc2' (show (3:Nat) < 6 by norm_num) hm (by tauto)
  have h4 := occupied_other_bit hc hs hc2 hp hc2' (show (4:Nat) < 6 by norm_num) hm (by tauto)
  have h5 := occupied_other_bit hc hs hc2 hp hc2' (show (5:Nat) < 6 by norm_num) hm (by tauto)
  simp [h0, h1, h2, h3, h4, h5]

end Chiron

namespace Chiron

theorem nat_or_left_comm (a b c : Nat) : a ||| (b ||| c) = b ||| (a ||| c) := by
  rw [← Nat.or_assoc, Nat.or_comm a b, Nat.or_assoc]

theorem nat_land_left_comm (a b c : Nat) : a &&& (b &&& c) = b &&& (a &&& c) := by
  rw [← Nat.land_assoc, Nat.land_comm a b, Nat.land_assoc]

theorem coh_pieces_lt {ps : PieceState} (hc : CohP ps) {c p : Nat} (hc2 : c < 2)
    (hp : p < 6) : ps.pieces c p < 2 ^ 64 := hc.1 c hc2 p hp

theorem coh_occ_lt {ps : PieceState} (hc : CohP ps) {c : Nat} (hc2 : c < 2) :
    ps.occupancies c < 2 ^ 64 := by
  rw [hc.2.2.2.1 c hc2]
  have h := hc.1 c hc2
  repeat
    apply Nat.or_lt_two_pow
  all_goals exact h _ (by norm_num)

theorem coh_occ_all_lt {ps : PieceState} (hc : CohP ps) : ps.occupancy_all < 2 ^ 64 := by
  rw [hc.2.2.2.2]
  exact Nat.or_lt_two_pow (coh_occ_lt hc (by norm_num)) (coh_occ_lt hc (by norm_num))

/-- Placing a piece on an empty square and removing it again is the
identity. -/
theorem premove_pplace_cancel {ps : PieceState} (hc : CohP ps) {c p s : Nat}
    (hs : s < 64) (hc2 : c < 2) (hp : p < 6) (hm : ps.mailbox s = 12) :
    premove c p s (pplace c p s ps) = ps := by
  apply PieceState.ext'
  · funext c2 p2
    simp only [premove, pplace]
    by_cases h1 : c2 = c ∧ p2 = p
    · obtain ⟨rfl, rfl⟩ := h1
      simp only [and_self, if_true]
      exact set_clear_bit (coh_pieces_lt hc hc2 hp) hs (empty_no_bit hc hs hm hc2 hp)
    · simp [h1]
  · funext c2
    simp only [premove, pplace]
    by_cases h1 : c2 = c
    · subst h1
      simp only [if_pos rfl]
      exact set_clear_bit (coh_occ_lt hc hc2) hs (empty_no_occ hc hs hm hc2)
    · simp [h1]
  · simp only [premove, pplace]
    exact set_clear_bit (coh_occ_all_lt hc) hs (empty_no_occ_all hc hs hm)
  · funext s2
    simp only [premove, pplace]
    by_cases h1 : s2 = s
    · subst h1
      simp [hm, kEmptySquare]
    · simp [h1]

/-- Removing a present piece and placing it back is the identity. -/
theorem pplace_premove_cancel {ps : PieceState} (hc : CohP ps) {c p s : Nat}
    (hs : s < 64) (hc2 : c < 2) (hp : p < 6) (hm : ps.mailbox s = encode_piece c p) :
    pplace c p s (premove c p s ps) = ps := by
  apply PieceState.ext'
  · funext c2 p2
    simp only [premove, pplace]
    by_cases h1 : c2 = c ∧ p2 = p
    · obtain ⟨rfl, rfl⟩ := h1
      simp only [and_self, if_true]
      exact clear_set_bit (coh_pieces_lt hc hc2 hp) hs (occupied_bit hc hs hc2 hp hm)
    · simp [h1]
  · funext c2
    simp only [premove, pplace]
    by_cases h1 : c2 = c
    · subst h1
      simp only [if_pos rfl]
      exact clear_set_bit (coh_occ_lt hc hc2) hs (occupied_occ_bit hc hs hc2 hp hm)
    · simp [h1]
  · simp only [premove, pplace]
    exact clear_set_bit (coh_occ_all_lt hc) hs (occupied_occ_all_bit hc hs hc2 hp hm)
  · funext s2
    simp only [premove, pplace]
    by_cases h1 : s2 = s
    · subst h1
      simp [hm]
    · simp [h1]

theorem pplace_pplace_comm {s s' : Nat} (hne : s ≠ s') (c p c' p' : Nat)
    (ps : PieceState) :
    pplace c p s (pplace c' p' s' ps) = pplace c' p' s' (pplace c p s ps) := by
  apply PieceState.ext'
  · funext c2 p2
    simp only [pplace]
    by_cases h1 : c2 = c ∧ p2 = p
    · obtain ⟨rfl, rfl⟩ := h1
      by_cases h2 : c2 = c' ∧ p2 = p'
      · obtain ⟨rfl, rfl⟩ := h2
        simp [Nat.or_assoc, Nat.or_comm, nat_or_left_comm]
      · simp [h2]
    · by_cases h2 : c2 = c' ∧ p2 = p'
      · obtain ⟨rfl, rfl⟩ := h2
        simp [h1]
      · simp [h1, h2]
  · funext c2
    simp only [pplace]
    by_cases h1 : c2 = c
    · subst h1
      by_cases h2 : c2 = c'
      · subst h2
        simp [Nat.or_assoc, Nat.or_comm, nat_or_left_comm]
      · simp [h2]
    · by_cases h2 : c2 = c'
      · subst h2
        simp [h1]
      · simp [h1, h2]
  · simp only [pplace]
    simp [Nat.or_assoc, Nat.or_comm, nat_or_left_comm]
  · funext s2
    simp only [pplace]
    by_cases h1 : s2 = s <;> by_cases h2 : s2 = s' <;> simp_all

theorem premove_premove_comm {s s' : Nat} (hne : s ≠ s') (c p c' p' : Nat)
    (ps : PieceState) :
    premove c p s (premove c' p' s' ps) = premove c' p' s' (premove c p s ps) := by
  apply PieceState.ext'
  · funext c2 p2
    simp only [premove]
    by_cases h1 : c2 = c ∧ p2 = p
    · obtain ⟨rfl, rfl⟩ := h1
      by_cases h2 : c2 = c' ∧ p2 = p'
      · obtain ⟨rfl, rfl⟩ := h2
        simp [Nat.land_assoc, Nat.land_comm, nat_land_left_comm]
      · simp [h2]
    · by_cases h2 : c2 = c' ∧ p2 = p'
      · obtain ⟨rfl, rfl⟩ := h2
        simp [h1]
      · simp [h1, h2]
  · funext c2
    simp only [premove]
    by_cases h1 : c2 = c
    · subst h1
      by_cases h2 : c2 = c'
      · subst h2
        simp [Nat.land_assoc, Nat.land_comm, nat_land_left_comm]
      · simp [h2]
    · by_cases h2 : c2 = c'
      · subst h2
        simp [h1]
      · simp [h1, h2]
  · simp only [premove]
    simp [Nat.land_assoc, Nat.land_comm, nat_land_left_comm]
  · funext s2
    simp only [premove]
    by_cases h1 : s2 = s <;> by_cases h2 : s2 = s' <;> simp_all

/-- A helper for the mixed commutation: set one bit, clear another. -/
theorem or_and_compl_comm {x : Nat} {s s' : Nat} (hs : s < 64) (hne : s ≠ s') :
    (x &&& compl64 (square_bb s')) ||| square_bb s =
      (x ||| square_bb s) &&& compl64 (square_bb s') := by
  apply Nat.eq_of_testBit_eq
  intro i
  rw [Nat.testBit_or, Nat.testBit_and, Nat.testBit_and, Nat.testBit_or,
    testBit_compl64, testBit_square_bb, testBit_square_bb]
  by_cases h1 : i = s <;> by_cases h2 : i = s' <;> by_cases h3 : i < 64 <;>
    simp_all <;> omega

theorem pplace_premove_comm {s s' : Nat} (hs : s < 64) (hne : s ≠ s') (c p c' p' : Nat)
    (ps : PieceState) :
    pplace c p s (premove c' p' s' ps) = premove c' p' s' (pplace c p s ps) := by
  apply PieceState.ext'
  · funext c2 p2
    simp only [pplace, premove]
    by_cases h1 : c2 = c ∧ p2 = p
    · obtain ⟨rfl, rfl⟩ := h1
      by_cases h2 : c2 = c' ∧ p2 = p'
      · obtain ⟨rfl, rfl⟩ := h2
        simp only [and_self, if_true]
        exact or_and_compl_comm hs hne
      · simp [h2]
    · by_cases h2 : c2 = c' ∧ p2 = p'
      · obtain ⟨rfl, rfl⟩ := h2
        simp [h1]
      · simp [h1, h2]
  · funext c2
    simp only [pplace, premove]
    by_cases h1 : c2 = c
    · subst h1
      by_cases h2 : c2 = c'
      · subst h2
        simp only [if_pos rfl]
        exact or_and_compl_comm hs hne
      · simp [h2]
    · by_cases h2 : c2 = c'
      · subst h2
        simp [h1]
      · simp [h1, h2]
  · simp only [pplace, premove]
    exact or_and_compl_comm hs hne
  · funext s2
    simp only [pplace, premove]
    by_cases h1 : s2 = s <;> by_cases h2 : s2 = s' <;> simp_all

end Chiron

namespace Chiron

/-- Placing a piece on an empty square preserves coherence. -/
theorem CohP_pplace {ps : PieceState} (hc : CohP ps) {c p s : Nat} (hs : s < 64)
    (hc2 : c < 2) (hp : p < 6) (hm : ps.mailbox s = 12) : CohP (pplace c p s ps) := by
  obtain ⟨hb, hmb, hagree, hocc, hoccall⟩ := hc
  have hcoh : CohP ps := ⟨hb, hmb, hagree, hocc, hoccall⟩
  refine ⟨?_, ?_, ?_, ?_, ?_⟩
  · intro c2 h2 p2 h6
    simp only [pplace]
    by_cases h : c2 = c ∧ p2 = p
    · obtain ⟨rfl, rfl⟩ := h
      simp only [and_self, if_true]
      exact or_square_bb_lt (hb _ h2 _ h6) hs
    · simp only [if_neg h]
      exact hb _ h2 _ h6
  · intro s2 h64
    simp only [pplace]
    by_cases h : s2 = s
    · simp only [if_pos h]
      unfold encode_piece
      omega
    · simp only [if_neg h]
      exact hmb _ h64
  · intro s2 h64 c2 h2 p2 h6
    simp only [pplace]
    by_cases hse : s2 = s
    · subst hse
      simp only [eq_self_iff_true, if_true]
      by_cases h : c2 = c ∧ p2 = p
      · obtain ⟨rfl, rfl⟩ := h
        simp only [and_self, if_true, testBit_or_square_bb]
        simp
      · simp only [if_neg h, ne_eq]
        rw [empty_no_bit hcoh h64 hm h2 h6]
        constructor
        · intro hf
          exact absurd hf (by simp)
        · intro henc
          exfalso
          apply h
          unfold encode_piece at henc
          omega
    · simp only [if_neg hse]
      by_cases h : c2 = c ∧ p2 = p
      · obtain ⟨rfl, rfl⟩ := h
        simp only [and_self, if_true, testBit_or_square_bb]
        rw [decide_eq_false hse]
        simp only [Bool.or_false]
        exact hagree _ h64 _ h2 _ h6
      · simp only [if_neg h]
        exact hagree _ h64 _ h2 _ h6
  · intro c2 h2
    simp only [pplace]
    by_cases h : c2 = c
    · subst h
      simp only [eq_self_iff_true, if_true, and_true]
      rw [hocc _ h2]
      apply Nat.eq_of_testBit_eq
      intro i
      interval_cases p <;>
        (by_cases hip : i = c2 <;>
          simp [Nat.testBit_or, testBit_square_bb, Nat.or_assoc, Nat.or_comm,
            nat_or_left_comm])
    · simp only [if_neg h]
      have : ∀ p2 : Nat, (c2 = c ∧ p2 = p) = False := by
        intro p2
        simp [h]
      simp only [this, if_false]
      exact hocc _ h2
  · simp only [pplace]
    have hcc : c = 0 ∨ c = 1 := by omega
    rcases hcc with rfl | rfl
    · simp only [eq_self_iff_true, if_true, if_neg (by norm_num : ¬(1 : Nat) = 0)]
      rw [hoccall]
      simp [Nat.or_assoc, Nat.or_comm, nat_or_left_comm]
    · simp only [eq_self_iff_true, if_true, if_neg (by norm_num : ¬(0 : Nat) = 1)]
      rw [hoccall]
      simp [Nat.or_assoc, Nat.or_comm, nat_or_left_comm]

end Chiron

namespace Chiron

/-- Removing the piece a square holds preserves coherence. -/
theorem CohP_premove {ps : PieceState} (hc : CohP ps) {c p s : Nat} (hs : s < 64)
    (hc2 : c < 2) (hp : p < 6) (hm : ps.mailbox s = encode_piece c p) :
    CohP (premove c p s ps) := by
  obtain ⟨hb, hmb, hagree, hocc, hoccall⟩ := hc
  have hcoh : CohP ps := ⟨hb, hmb, hagree, hocc, hoccall⟩
  refine ⟨?_, ?_, ?_, ?_, ?_⟩
  · intro c2 h2 p2 h6
    simp only [premove]
    by_cases h : c2 = c ∧ p2 = p
    · obtain ⟨rfl, rfl⟩ := h
      simp only [and_self, if_true]
      exact and_lt_of_lt (hb _ h2 _ h6)
    · simp only [if_neg h]
      exact hb _ h2 _ h6
  · intro s2 h64
    simp only [premove]
    by_cases h : s2 = s
    · simp only [if_pos h]
      unfold kEmptySquare
      omega
    · simp only [if_neg h]
      exact hmb _ h64
  · intro s2 h64 c2 h2 p2 h6
    simp only [premove]
    by_cases hse : s2 = s
    · subst hse
      simp only [eq_self_iff_true, if_true]
      constructor
      · intro hbit
        exfalso
        by_cases h : c2 = c ∧ p2 = p
        · obtain ⟨rfl, rfl⟩ := h
          rw [if_pos ⟨rfl, rfl⟩, testBit_and_compl_square_bb _ _ _ h64] at hbit
          simp at hbit
        · rw [if_neg h] at hbit
          rw [occupied_other_bit hcoh h64 hc2 hp h2 h6 hm h] at hbit
          exact Bool.false_ne_true hbit
      · intro henc
        exfalso
        unfold kEmptySquare encode_piece at henc
        omega
    · simp only [if_neg hse]
      by_cases h : c2 = c ∧ p2 = p
      · obtain ⟨rfl, rfl⟩ := h
        simp only [and_self, if_true]
        rw [testBit_and_compl_square_bb _ _ _ h64, decide_eq_false hse]
        simp only [Bool.not_false, Bool.and_true]
        exact hagree _ h64 _ h2 _ h6
      · simp only [if_neg h]
        exact hagree _ h64 _ h2 _ h6
  · intro c2 h2
    simp only [premove]
    by_cases h : c2 = c
    · subst h
      simp only [eq_self_iff_true, if_true, and_true]
      rw [hocc _ h2]
      apply Nat.eq_of_testBit_eq
      intro i
      simp only [Nat.testBit_or]
      by_cases hi64 : i < 64
      · by_cases his : i = s
        · subst his
          have hterm : ∀ p2 : Nat, p2 < 6 →
              (if True ∧ p2 = p then ps.pieces c2 p2 &&& compl64 (square_bb i)
                else ps.pieces c2 p2).testBit i = false := by
            intro p2 h6
            by_cases hp2 : p2 = p
            · subst hp2
              rw [if_pos ⟨trivial, rfl⟩, testBit_and_compl_square_bb _ _ _ hi64]
              simp
            · rw [if_neg (by tauto)]
              exact occupied_other_bit hcoh hi64 hc2 hp h2 h6 hm (by tauto)
          rw [testBit_and_compl_square_bb _ _ _ hi64,
            hterm 0 (by norm_num), hterm 1 (by norm_num), hterm 2 (by norm_num),
            hterm 3 (by norm_num), hterm 4 (by norm_num), hterm 5 (by norm_num)]
          simp
        · have hterm : ∀ p2 : Nat,
              (if True ∧ p2 = p then ps.pieces c2 p2 &&& compl64 (square_bb s)
                else ps.pieces c2 p2).testBit i = (ps.pieces c2 p2).testBit i := by
            intro p2
            by_cases hp2 : p2 = p
            · subst hp2
              rw [if_pos ⟨trivial, rfl⟩, testBit_and_compl_square_bb _ _ _ hi64]
              simp [his]
            · rw [if_neg (by tauto)]
          rw [testBit_and_compl_square_bb _ _ _ hi64,
            hterm 0, hterm 1, hterm 2, hterm 3, hterm 4, hterm 5]
          simp [his]
      · push_neg at hi64
        have hterm : ∀ p2 : Nat, p2 < 6 →
            (if True ∧ p2 = p then ps.pieces c2 p2 &&& compl64 (square_bb s)
              else ps.pieces c2 p2).testBit i = false := by
          intro p2 h6
          by_cases hp2 : p2 = p
          · subst hp2
            rw [if_pos ⟨trivial, rfl⟩]
            exact testBit_high_of_lt (and_lt_of_lt (hb _ h2 _ h6)) hi64
          · rw [if_neg (by tauto)]
            exact testBit_high_of_lt (hb _ h2 _ h6) hi64
        have hor : (ps.pieces c2 0 ||| ps.pieces c2 1 ||| ps.pieces c2 2 |||
            ps.pieces c2 3 ||| ps.pieces c2 4 ||| ps.pieces c2 5).testBit i = false := by
          simp only [Nat.testBit_or]
          rw [testBit_high_of_lt (hb _ h2 _ (by norm_num : (0:Nat) < 6)) hi64,
            testBit_high_of_lt (hb _ h2 _ (by norm_num : (1:Nat) < 6)) hi64,
            testBit_high_of_lt (hb _ h2 _ (by norm_num : (2:Nat) < 6)) hi64,
            testBit_high_of_lt (hb _ h2 _ (by norm_num : (3:Nat) < 6)) hi64,
            testBit_high_of_lt (hb _ h2 _ (by norm_num : (4:Nat) < 6)) hi64,
            testBit_high_of_lt (hb _ h2 _ (by norm_num : (5:Nat) < 6)) hi64]
          rfl
        rw [Nat.testBit_and, hor,
          hterm 0 (by norm_num), hterm 1 (by norm_num), hterm 2 (by norm_num),
          hterm 3 (by norm_num), hterm 4 (by norm_num), hterm 5 (by norm_num)]
        simp
    · simp only [if_neg h]
      have hfalse : ∀ p2 : Nat, (c2 = c ∧ p2 = p) = False := by
        intro p2
        simp [h]
      simp only [hfalse, if_false]
      exact hocc _ h2
  · simp only [premove]
    have hcc : c = 0 ∨ c = 1 := by omega
    have hother : ∀ c2, c2 < 2 → c2 ≠ c → (ps.occupancies c2).testBit s = false := by
      intro c2 h2 hne
      exact occupied_other_occ hcoh hs hc2 hp h2 hne hm
    rcases hcc with rfl | rfl
    · simp only [eq_self_iff_true, if_true, if_neg (by norm_num : ¬(1 : Nat) = 0)]
      rw [hoccall]
      apply Nat.eq_of_testBit_eq
      intro i
      by_cases hi64 : i < 64
      · rw [testBit_and_compl_square_bb _ _ _ hi64, Nat.testBit_or, Nat.testBit_or,
          testBit_and_compl_square_bb _ _ _ hi64]
        by_cases his : i = s
        · subst his
          rw [hother 1 (by norm_num) (by norm_num)]
          simp
        · simp [his]
      · push_neg at hi64
        rw [Nat.testBit_and, Nat.testBit_or, Nat.testBit_or, Nat.testBit_and]
        rw [testBit_high_of_lt (coh_occ_lt hcoh (by norm_num : (0:Nat) < 2)) hi64,
          testBit_high_of_lt (coh_occ_lt hcoh (by norm_num : (1:Nat) < 2)) hi64]
        simp
    · simp only [eq_self_iff_true, if_true, if_neg (by norm_num : ¬(0 : Nat) = 1)]
      rw [hoccall]
      apply Nat.eq_of_testBit_eq
      intro i
      by_cases hi64 : i < 64
      · rw [testBit_and_compl_square_bb _ _ _ hi64, Nat.testBit_or, Nat.testBit_or,
          testBit_and_compl_square_bb _ _ _ hi64]
        by_cases his : i = s
        · subst his
          rw [hother 0 (by norm_num) (by norm_num)]
          simp
        · simp [his]
      · push_neg at hi64
        rw [Nat.testBit_and, Nat.testBit_or, Nat.testBit_or, Nat.testBit_and]
        rw [testBit_high_of_lt (coh_occ_lt hcoh (by norm_num : (0:Nat) < 2)) hi64,
          testBit_high_of_lt (coh_occ_lt hcoh (by norm_num : (1:Nat) < 2)) hi64]
        simp

end Chiron

namespace Chiron

/-! ### Zobrist reconstruction deltas -/

theorem foldr_xor_congr {l : List Nat} {f g : Nat → Nat}
    (h : ∀ x ∈ l, f x = g x) :
    l.foldr (fun x acc => f x ^^^ acc) 0 = l.foldr (fun x acc => g x ^^^ acc) 0 := by
  induction l with
  | nil => rfl
  | cons a l ih =>
    simp only [List.foldr_cons]
    rw [h a (by simp), ih (fun x hx => h x (by simp [hx]))]

theorem nat_xor_left_comm (a b c : Nat) : a ^^^ (b ^^^ c) = b ^^^ (a ^^^ c) := by
  rw [← Nat.xor_assoc, Nat.xor_comm a b, Nat.xor_assoc]

theorem nat_xor_cancel_left (a b : Nat) : a ^^^ (a ^^^ b) = b := by
  rw [← Nat.xor_assoc, Nat.xor_self, Nat.zero_xor]

theorem foldr_xor_update {l : List Nat} {f g : Nat → Nat} {s : Nat}
    (hnd : l.Nodup) (hmem : s ∈ l) (h : ∀ x ∈ l, x ≠ s → f x = g x) :
    l.foldr (fun x acc => f x ^^^ acc) 0 =
      l.foldr (fun x acc => g x ^^^ acc) 0 ^^^ g s ^^^ f s := by
  induction l with
  | nil => cases hmem
  | cons a l ih =>
    simp only [List.foldr_cons]
    rcases List.mem_cons.mp hmem with rfl | hmem2
    · have hrest : l.foldr (fun x acc => f x ^^^ acc) 0 =
          l.foldr (fun x acc => g x ^^^ acc) 0 := by
        apply foldr_xor_congr
        intro x hx
        have hxs : x ≠ s := by
          intro hxa
          subst hxa
          exact (List.nodup_cons.mp hnd).1 hx
        exact h x (by simp [hx]) hxs
      rw [hrest]
      simp [Nat.xor_assoc, Nat.xor_comm, nat_xor_left_comm, nat_xor_cancel_left]
    · have hne : a ≠ s := by
        intro hae
        subst hae
        exact (List.nodup_cons.mp hnd).1 hmem2
      rw [h a (by simp) hne, ih (List.nodup_cons.mp hnd).2 hmem2
        (fun x hx hxs => h x (by simp [hx]) hxs)]
      simp [Nat.xor_assoc]

/-- Changing a mailbox at one square changes the piece-key XOR by the old and
new contributions of that square. -/
theorem piece_xor_update (zt : ZTables) {mb mb' : Nat → Nat} {s : Nat} (hs : s < 64)
    (h : ∀ s', s' ≠ s → mb' s' = mb s') :
    piece_xor zt mb' = piece_xor zt mb ^^^ square_key zt mb s ^^^ square_key zt mb' s := by
  unfold piece_xor
  apply foldr_xor_update (List.nodup_range 64) (by simp [hs])
  intro x _ hxs
  unfold square_key
  rw [h x hxs]

/-- The contribution of an empty square. -/
theorem square_key_empty {zt : ZTables} {mb : Nat → Nat} {s : Nat}
    (h : mb s = 12) : square_key zt mb s = 0 := by
  unfold square_key kEmptySquare
  rw [h]
  simp

/-- The contribution of a square holding `encode_piece c p`. -/
theorem square_key_piece {zt : ZTables} {mb : Nat → Nat} {s c p : Nat}
    (hs : s < 64) (hc2 : c < 2) (hp : p < 6) (h : mb s = encode_piece c p) :
    square_key zt mb s = zt.pieces c p s := by
  unfold square_key kEmptySquare ZTables.piece_key
  rw [h]
  unfold encode_piece decode_piece_color decode_piece_type
  rw [if_neg (by omega)]
  have h1 : (p + c * 6) / 6 = c := by omega
  have h2 : (if 12 ≤ p + c * 6 then 6 else (p + c * 6) % 6) = p := by
    rw [if_neg (by omega)]
    omega
  rw [h1, h2, if_neg (by omega)]

end Chiron

namespace Chiron

/-! ### Board projection helpers -/

theorem Board.ext2 {b b' : Board} (hp : b.pstate = b'.pstate)
    (h1 : b.side_to_move = b'.side_to_move)
    (h2 : b.castling_rights = b'.castling_rights)
    (h3 : b.en_passant_square = b'.en_passant_square)
    (h4 : b.halfmove_clock = b'.halfmove_clock)
    (h5 : b.fullmove_number = b'.fullmove_number)
    (h6 : b.zobrist_key = b'.zobrist_key) : b = b' := by
  have e1 := congrArg PieceState.pieces hp
  have e2 := congrArg PieceState.occupancies hp
  have e3 := congrArg PieceState.occupancy_all hp
  have e4 := congrArg PieceState.mailbox hp
  simp only [Board.pstate] at e1 e2 e3 e4
  cases b
  cases b'
  simp_all

theorem pstate_mk (pi : Nat → Nat → Nat) (oc : Nat → Nat) (al : Nat)
    (mb : Nat → Nat) (st ca : Nat) (ep : Int) (hm fm zo : Nat) :
    (Board.mk pi oc al mb st ca ep hm fm zo).pstate = ⟨pi, oc, al, mb⟩ := rfl

theorem stm_mk (pi : Nat → Nat → Nat) (oc : Nat → Nat) (al : Nat)
    (mb : Nat → Nat) (st ca : Nat) (ep : Int) (hm fm zo : Nat) :
    (Board.mk pi oc al mb st ca ep hm fm zo).side_to_move = st := rfl

/-- A mailbox code below 12 is the encoding of its decoded color and type. -/
theorem mailbox_decomp {code : Nat} (h : code < 12) :
    code = encode_piece (decode_piece_color code) (decode_piece_type code) := by
  unfold encode_piece decode_piece_color decode_piece_type
  rw [if_neg (by omega)]
  omega

theorem decode_type_lt {code : Nat} (h : code < 12) : decode_piece_type code < 6 := by
  unfold decode_piece_type
  rw [if_neg (by omega)]
  omega

/-- `piece_type_at` on an occupied square is the decoded piece type. -/
theorem pta_occupied {b : Board} {s : Nat} (hs : s < 64) (hm : b.mailbox s < 12) :
    b.piece_type_at s = decode_piece_type (b.mailbox s) := by
  unfold Board.piece_type_at kEmptySquare
  rw [if_neg (by omega), if_neg (by omega)]

theorem opposite_opposite {c : Nat} (h : c < 2) :
    opposite_color (opposite_color c) = c := by
  unfold opposite_color
  interval_cases c <;> simp

theorem opposite_lt {c : Nat} : opposite_color c < 2 := by
  unfold opposite_color
  split <;> omega

theorem opposite_ne {c : Nat} (h : c < 2) : opposite_color c ≠ c := by
  unfold opposite_color
  interval_cases c <;> simp

end Chiron

namespace Chiron

/-- The castling-rights update of `make_move` for the moving side (the
"king moved / rook moved from home" block), as a value. -/
def rights_after_move (cast us P f : Nat) : Nat :=
  if P = 5 then cast &&& compl64 (if us = 0 then 3 else 12)
  else if P = 3 then
    if us = 0 then
      if f = 0 then cast &&& compl64 kWhiteQueenCastle
      else if f = 7 then cast &&& compl64 kWhiteKingCastle
      else cast
    else
      if f = 56 then cast &&& compl64 kBlackQueenCastle
      else if f = 63 then cast &&& compl64 kBlackKingCastle
      else cast
  else cast

/-- Normal form of `make_move` for a quiet move (`flags = 0`). -/
theorem make_nf_quiet (zt : ZTables) (b : Board) (m : Move)
    (hfl : m.flags = 0) (hf64 : m.fromSq < 64) (hmf : b.mailbox m.fromSq < 12) :
    b.make_move zt m =
      { err := none
        board := mkBoard
          (pplace b.side_to_move (decode_piece_type (b.mailbox m.fromSq)) m.toSq
            (premove b.side_to_move (decode_piece_type (b.mailbox m.fromSq)) m.fromSq
              b.pstate))
          (opposite_color b.side_to_move)
          (rights_after_move b.castling_rights b.side_to_move
            (decode_piece_type (b.mailbox m.fromSq)) m.fromSq)
          (-1)
          (if decode_piece_type (b.mailbox m.fromSq) = 0 then 0 else b.halfmove_clock + 1)
          (if b.side_to_move = 1 then b.fullmove_number + 1 else b.fullmove_number)
          (b.zobrist_key ^^^
            (if b.en_passant_square ≠ (-1 : Int) then
              zt.en_passant_key (b.en_passant_square.toNat % 8) else 0) ^^^
            zt.castling_key b.castling_rights ^^^
            zt.piece_key b.side_to_move (decode_piece_type (b.mailbox m.fromSq)) m.fromSq ^^^
            zt.piece_key b.side_to_move (decode_piece_type (b.mailbox m.fromSq)) m.toSq ^^^
            zt.castling_key (rights_after_move b.castling_rights b.side_to_move
              (decode_piece_type (b.mailbox m.fromSq)) m.fromSq) ^^^
            zt.side)
        state := ⟨b.castling_rights, b.en_passant_square, b.halfmove_clock,
          b.zobrist_key, 6, b.fullmove_number⟩ } := by
  have hpta : b.piece_type_at m.fromSq = decode_piece_type (b.mailbox m.fromSq) :=
    pta_occupied hf64 hmf
  have h6 : ¬(decode_piece_type (b.mailbox m.fromSq) = 6) := by
    have := decode_type_lt hmf
    omega
  unfold Board.make_move Board.make_move_tail
  rw [hpta]
  rw [if_neg h6]
  simp only [Move.is_capture, Move.is_en_passant, Move.is_castle, Move.is_promotion,
    Move.is_double_pawn_push, hfl]
  norm_num
  unfold mkBoard rights_after_move pplace premove Board.pstate
    Board.place_piece Board.remove_piece
  by_cases hep : b.en_passant_square = (-1 : Int) <;>
    by_cases hstm1 : b.side_to_move = 1 <;>
      simp [hep, hstm1, apply_ite Board.pieces, apply_ite Board.occupancies,
        apply_ite Board.occupancy_all, apply_ite Board.mailbox,
        apply_ite Board.side_to_move, apply_ite Board.castling_rights,
        apply_ite Board.en_passant_square, apply_ite Board.halfmove_clock,
        apply_ite Board.fullmove_number, apply_ite Board.zobrist_key, ite_self]

end Chiron

namespace Chiron

theorem stm_place (zt : ZTables) (b : Board) (c p s : Nat) :
    (b.place_piece zt c p s).side_to_move = b.side_to_move := rfl

theorem stm_remove (zt : ZTables) (b : Board) (c p s : Nat) :
    (b.remove_piece zt c p s).side_to_move = b.side_to_move := rfl

theorem pstate_mkBoard (ps : PieceState) (stm cast : Nat) (ep : Int) (hm fm zob : Nat) :
    (mkBoard ps stm cast ep hm fm zob).pstate = ps := rfl

/-- Normal form of `undo_move`: its piece operations on the piece state, the
side to move flipped back, and the metadata restored from the snapshot. -/
theorem undo_nf (zt : ZTables) (B : Board) (m : Move) (st : BState) :
    B.undo_move zt m st = mkBoard
      (let us := opposite_color B.side_to_move
       let moved := B.piece_type_at m.toSq
       let orig := if m.is_promotion then 0 else moved
       let S1 := pplace us orig m.fromSq (premove us moved m.toSq B.pstate)
       let S2 :=
         if m.is_castle then
           if m.flags &&& flagKingCastle ≠ 0 then
             pplace us 3 (if us = 0 then 7 else 63)
               (premove us 3 (if us = 0 then 5 else 61) S1)
           else
             pplace us 3 (if us = 0 then 0 else 56)
               (premove us 3 (if us = 0 then 3 else 59) S1)
         else S1
       if st.captured_piece ≠ 6 then
         if m.is_en_passant then
           pplace B.side_to_move 0 (ep_capture_square us m.toSq) S2
         else pplace B.side_to_move st.captured_piece m.toSq S2
       else S2)
      (opposite_color B.side_to_move)
      st.castling_rights st.en_passant_square st.halfmove_clock st.fullmove_number
      st.zobrist_key := by
  unfold Board.undo_move mkBoard Board.piece_type_at Board.place_piece
    Board.remove_piece pplace premove Board.pstate
  by_cases hep : B.en_passant_square = (-1 : Int) <;>
    by_cases hcs : m.is_castle = true <;>
    by_cases hks : m.flags &&& flagKingCastle = 0 <;>
    by_cases hcap : st.captured_piece = 6 <;>
    by_cases hepc : m.is_en_passant = true <;>
    simp [hep, hcs, hks, hcap, hepc, apply_ite Board.pieces,
      apply_ite Board.occupancies, apply_ite Board.occupancy_all,
      apply_ite Board.mailbox, apply_ite Board.side_to_move,
      apply_ite Board.castling_rights, apply_ite Board.en_passant_square,
      apply_ite Board.halfmove_clock, apply_ite Board.fullmove_number,
      apply_ite Board.zobrist_key, ite_self]

end Chiron

namespace Chiron

/-- Decoding the type of an encoded piece recovers the type. -/
theorem decode_type_encode {c p : Nat} (hc : c < 2) (hp : p < 6) :
    decode_piece_type (encode_piece c p) = p := by
  unfold decode_piece_type encode_piece
  split <;> omega

/-- Round trip for quiet moves: `make_move` succeeds and `undo_move` restores
the original board exactly. -/
theorem rt_quiet (zt : ZTables) (b : Board) (m : Move)
    (hcoh : CohP b.pstate) (hstm : b.side_to_move < 2)
    (hfl : m.flags = 0) (hf64 : m.fromSq < 64) (ht64 : m.toSq < 64)
    (hne : m.fromSq ≠ m.toSq) (hmf : b.mailbox m.fromSq < 12)
    (hcol : decode_piece_color (b.mailbox m.fromSq) = b.side_to_move)
    (hmt : b.mailbox m.toSq = 12) :
    (b.make_move zt m).err = none ∧
      (b.make_move zt m).board.undo_move zt m (b.make_move zt m).state = b := by
  rw [make_nf_quiet zt b m hfl hf64 hmf]
  refine ⟨rfl, ?_⟩
  rw [undo_nf]
  have hPlt : decode_piece_type (b.mailbox m.fromSq) < 6 := decode_type_lt hmf
  have henc : encode_piece b.side_to_move (decode_piece_type (b.mailbox m.fromSq)) < 12 := by
    unfold encode_piece; omega
  have hne12 : encode_piece b.side_to_move (decode_piece_type (b.mailbox m.fromSq)) ≠ 12 := by
    omega
  have h64 : ¬ 64 ≤ m.toSq := by omega
  have hdte := decode_type_encode hstm hPlt
  have hmbf : b.pstate.mailbox m.fromSq =
      encode_piece b.side_to_move (decode_piece_type (b.mailbox m.fromSq)) := by
    show b.mailbox m.fromSq = _
    conv_lhs => rw [mailbox_decomp hmf]
    rw [hcol]
  have hS1coh : CohP (premove b.side_to_move (decode_piece_type (b.mailbox m.fromSq))
      m.fromSq b.pstate) := CohP_premove hcoh hf64 hstm hPlt hmbf
  have hS1mt : (premove b.side_to_move (decode_piece_type (b.mailbox m.fromSq))
      m.fromSq b.pstate).mailbox m.toSq = 12 := by
    rw [premove_mailbox, if_neg (fun h => hne h.symm)]
    exact hmt
  have hcancel1 := premove_pplace_cancel hS1coh ht64 hstm hPlt hS1mt
  have hcancel2 := pplace_premove_cancel hcoh hf64 hstm hPlt hmbf
  simp only [mkBoard, stm_mk, pstate_mk, opposite_opposite hstm, Move.is_promotion,
    Move.is_castle, Move.is_en_passant, hfl, Board.piece_type_at, pplace_mailbox,
    premove_mailbox, kEmptySquare]
  norm_num [h64, hne12, hdte]
  rw [hcancel1, hcancel2]
  apply Board.ext2 <;> rfl

end Chiron

namespace Chiron

/-- The castling-rights clearing performed when a capture lands on a rook
home square (make_move lines 281-294). -/
def rights_capture (r t : Nat) : Nat :=
  let r := if t = 0 then r &&& compl64 kWhiteQueenCastle else r
  let r := if t = 7 then r &&& compl64 kWhiteKingCastle else r
  let r := if t = 56 then r &&& compl64 kBlackQueenCastle else r
  if t = 63 then r &&& compl64 kBlackKingCastle else r

/-- Normal form of `make_move` for plain captures (flags = Capture). -/
theorem make_nf_capture (zt : ZTables) (b : Board) (m : Move)
    (hfl : m.flags = 1) (hf64 : m.fromSq < 64) (ht64 : m.toSq < 64)
    (hne : m.fromSq ≠ m.toSq)
    (hmf : b.mailbox m.fromSq < 12) (hmt : b.mailbox m.toSq < 12) :
    b.make_move zt m =
      { err := none
        board := mkBoard
          (pplace b.side_to_move (decode_piece_type (b.mailbox m.fromSq)) m.toSq
            (premove (opposite_color b.side_to_move)
              (decode_piece_type (b.mailbox m.toSq)) m.toSq
              (premove b.side_to_move (decode_piece_type (b.mailbox m.fromSq)) m.fromSq
                b.pstate)))
          (opposite_color b.side_to_move)
          (rights_capture (rights_after_move b.castling_rights b.side_to_move
            (decode_piece_type (b.mailbox m.fromSq)) m.fromSq) m.toSq)
          (-1)
          0
          (if b.side_to_move = 1 then b.fullmove_number + 1 else b.fullmove_number)
          (b.zobrist_key ^^^
            (if b.en_passant_square ≠ (-1 : Int) then
              zt.en_passant_key (b.en_passant_square.toNat % 8) else 0) ^^^
            zt.castling_key b.castling_rights ^^^
            zt.piece_key b.side_to_move (decode_piece_type (b.mailbox m.fromSq)) m.fromSq ^^^
            zt.piece_key (opposite_color b.side_to_move)
              (decode_piece_type (b.mailbox m.toSq)) m.toSq ^^^
            zt.piece_key b.side_to_move (decode_piece_type (b.mailbox m.fromSq)) m.toSq ^^^
            zt.castling_key (rights_capture (rights_after_move b.castling_rights b.side_to_move
              (decode_piece_type (b.mailbox m.fromSq)) m.fromSq) m.toSq) ^^^
            zt.side)
        state := ⟨b.castling_rights, b.en_passant_square, b.halfmove_clock,
          b.zobrist_key, decode_piece_type (b.mailbox m.toSq), b.fullmove_number⟩ } := by
  have hpta : b.piece_type_at m.fromSq = decode_piece_type (b.mailbox m.fromSq) :=
    pta_occupied hf64 hmf
  have h6 : ¬(decode_piece_type (b.mailbox m.fromSq) = 6) := by
    have := decode_type_lt hmf
    omega
  have h6t : ¬(decode_piece_type (b.mailbox m.toSq) = 6) := by
    have := decode_type_lt hmt
    omega
  have h64t : ¬ 64 ≤ m.toSq := by omega
  have hne12t : ¬(b.mailbox m.toSq = 12) := by omega
  have hnetf : ¬(m.toSq = m.fromSq) := fun h => hne h.symm
  unfold Board.make_move Board.make_move_tail
  rw [hpta]
  rw [if_neg h6]
  simp only [Move.is_capture, Move.is_en_passant, Move.is_castle, Move.is_promotion,
    Move.is_double_pawn_push, hfl, flagCapture, flagDoublePush, flagKingCastle,
    flagQueenCastle, flagEnPassant, flagPromotion]
  norm_num
  unfold Board.piece_type_at kEmptySquare Board.place_piece Board.remove_piece
    mkBoard rights_after_move rights_capture pplace premove Board.pstate
  by_cases hep : b.en_passant_square = (-1 : Int) <;>
    by_cases hstm1 : b.side_to_move = 1 <;>
      simp [hep, hstm1, hnetf, hne12t, h64t, h6t, apply_ite Board.pieces,
        apply_ite Board.occupancies, apply_ite Board.occupancy_all,
        apply_ite Board.mailbox, apply_ite Board.side_to_move,
        apply_ite Board.castling_rights, apply_ite Board.en_passant_square,
        apply_ite Board.halfmove_clock, apply_ite Board.fullmove_number,
        apply_ite Board.zobrist_key, ite_self]

end Chiron

namespace Chiron

/-- Round trip for plain captures: `make_move` succeeds and `undo_move`
restores the original board exactly. -/
theorem rt_capture (zt : ZTables) (b : Board) (m : Move)
    (hcoh : CohP b.pstate) (hstm : b.side_to_move < 2)
    (hfl : m.flags = 1) (hf64 : m.fromSq < 64) (ht64 : m.toSq < 64)
    (hne : m.fromSq ≠ m.toSq) (hmf : b.mailbox m.fromSq < 12)
    (hcol : decode_piece_color (b.mailbox m.fromSq) = b.side_to_move)
    (hmt : b.mailbox m.toSq < 12)
    (hcolt : decode_piece_color (b.mailbox m.toSq) = opposite_color b.side_to_move) :
    (b.make_move zt m).err = none ∧
      (b.make_move zt m).board.undo_move zt m (b.make_move zt m).state = b := by
  rw [make_nf_capture zt b m hfl hf64 ht64 hne hmf hmt]
  refine ⟨rfl, ?_⟩
  rw [undo_nf]
  have hPlt : decode_piece_type (b.mailbox m.fromSq) < 6 := decode_type_lt hmf
  have hClt : decode_piece_type (b.mailbox m.toSq) < 6 := decode_type_lt hmt
  have hthem : opposite_color b.side_to_move < 2 := opposite_lt
  have henc : encode_piece b.side_to_move (decode_piece_type (b.mailbox m.fromSq)) < 12 := by
    unfold encode_piece; omega
  have hne12 : encode_piece b.side_to_move (decode_piece_type (b.mailbox m.fromSq)) ≠ 12 := by
    omega
  have h64 : ¬ 64 ≤ m.toSq := by omega
  have h6C : decode_piece_type (b.mailbox m.toSq) ≠ 6 := by omega
  have hdte := decode_type_encode hstm hPlt
  have hnetf : m.toSq ≠ m.fromSq := fun h => hne h.symm
  have hmbf : b.pstate.mailbox m.fromSq =
      encode_piece b.side_to_move (decode_piece_type (b.mailbox m.fromSq)) := by
    show b.mailbox m.fromSq = _
    conv_lhs => rw [mailbox_decomp hmf]
    rw [hcol]
  have hmbt : b.pstate.mailbox m.toSq =
      encode_piece (opposite_color b.side_to_move)
        (decode_piece_type (b.mailbox m.toSq)) := by
    show b.mailbox m.toSq = _
    conv_lhs => rw [mailbox_decomp hmt]
    rw [hcolt]
  have hS1coh : CohP (premove b.side_to_move (decode_piece_type (b.mailbox m.fromSq))
      m.fromSq b.pstate) := CohP_premove hcoh hf64 hstm hPlt hmbf
  have hS1mt : (premove b.side_to_move (decode_piece_type (b.mailbox m.fromSq))
      m.fromSq b.pstate).mailbox m.toSq =
      encode_piece (opposite_color b.side_to_move)
        (decode_piece_type (b.mailbox m.toSq)) := by
    rw [premove_mailbox, if_neg hnetf]
    exact hmbt
  have hXcoh : CohP (premove (opposite_color b.side_to_move)
      (decode_piece_type (b.mailbox m.toSq)) m.toSq
      (premove b.side_to_move (decode_piece_type (b.mailbox m.fromSq))
        m.fromSq b.pstate)) := CohP_premove hS1coh ht64 hthem hClt hS1mt
  have hXmt : (premove (opposite_color b.side_to_move)
      (decode_piece_type (b.mailbox m.toSq)) m.toSq
      (premove b.side_to_move (decode_piece_type (b.mailbox m.fromSq))
        m.fromSq b.pstate)).mailbox m.toSq = 12 := by
    rw [premove_mailbox, if_pos rfl]
    rfl
  have hcancel1 := premove_pplace_cancel hXcoh ht64 hstm hPlt hXmt
  have hcomm := pplace_premove_comm hf64 hne b.side_to_move
    (decode_piece_type (b.mailbox m.fromSq)) (opposite_color b.side_to_move)
    (decode_piece_type (b.mailbox m.toSq))
    (premove b.side_to_move (decode_piece_type (b.mailbox m.fromSq)) m.fromSq b.pstate)
  have hcancel2 := pplace_premove_cancel hcoh hf64 hstm hPlt hmbf
  have hcancel3 := pplace_premove_cancel hcoh ht64 hthem hClt hmbt
  simp only [mkBoard, stm_mk, pstate_mk, opposite_opposite hstm, Move.is_promotion,
    Move.is_castle, Move.is_en_passant, hfl, Board.piece_type_at, pplace_mailbox,
    premove_mailbox, kEmptySquare, flagCapture, flagKingCastle, flagQueenCastle,
    flagEnPassant, flagPromotion]
  norm_num [h64, hne12, hdte, h6C]
  rw [hcancel1, hcomm, hcancel2, hcancel3]
  apply Board.ext2 <;> rfl

end Chiron

namespace Chiron

/-- Normal form of `make_move` for double pawn pushes (flags = DoublePush,
with a pawn on the from-square). -/
theorem make_nf_double (zt : ZTables) (b : Board) (m : Move)
    (hfl : m.flags = 2) (hf64 : m.fromSq < 64) (hmf : b.mailbox m.fromSq < 12)
    (hP0 : decode_piece_type (b.mailbox m.fromSq) = 0) :
    b.make_move zt m =
      { err := none
        board := mkBoard
          (pplace b.side_to_move 0 m.toSq (premove b.side_to_move 0 m.fromSq b.pstate))
          (opposite_color b.side_to_move)
          b.castling_rights
          (((m.fromSq + m.toSq) / 2 : Nat) : Int)
          0
          (if b.side_to_move = 1 then b.fullmove_number + 1 else b.fullmove_number)
          (b.zobrist_key ^^^
            (if b.en_passant_square ≠ (-1 : Int) then
              zt.en_passant_key (b.en_passant_square.toNat % 8) else 0) ^^^
            zt.castling_key b.castling_rights ^^^
            zt.piece_key b.side_to_move 0 m.fromSq ^^^
            zt.piece_key b.side_to_move 0 m.toSq ^^^
            zt.en_passant_key ((m.fromSq + m.toSq) / 2 % 8) ^^^
            zt.castling_key b.castling_rights ^^^
            zt.side)
        state := ⟨b.castling_rights, b.en_passant_square, b.halfmove_clock,
          b.zobrist_key, 6, b.fullmove_number⟩ } := by
  have hpta : b.piece_type_at m.fromSq = decode_piece_type (b.mailbox m.fromSq) :=
    pta_occupied hf64 hmf
  have hepnn : ¬((((m.fromSq + m.toSq) / 2 : Nat) : Int) = (-1 : Int)) := by omega
  have hepnn' : ¬(((m.fromSq : Int) + (m.toSq : Int)) / 2 = (-1 : Int)) := by omega
  have htn : (((m.fromSq : Int) + (m.toSq : Int)) / 2).toNat = (m.fromSq + m.toSq) / 2 := by
    omega
  unfold Board.make_move Board.make_move_tail
  rw [hpta, hP0]
  norm_num
  simp only [Move.is_capture, Move.is_en_passant, Move.is_castle, Move.is_promotion,
    Move.is_double_pawn_push, hfl, flagCapture, flagDoublePush, flagKingCastle,
    flagQueenCastle, flagEnPassant, flagPromotion]
  norm_num [show (2 : Nat) &&& 1 = 0 from by decide, show (2 : Nat) &&& 16 = 0 from by decide,
    show (2 : Nat) &&& 12 = 0 from by decide, show (2 : Nat) &&& 4 = 0 from by decide,
    show (2 : Nat) &&& 32 = 0 from by decide, show (2 : Nat) &&& 2 = 2 from by decide]
  unfold mkBoard pplace premove Board.pstate Board.place_piece Board.remove_piece
  by_cases hep : b.en_passant_square = (-1 : Int) <;>
    by_cases hstm1 : b.side_to_move = 1 <;>
      simp [hep, hstm1, hepnn, hepnn', htn, Int.toNat_natCast,
        show (2 : Nat) &&& 1 = 0 from by decide, show (2 : Nat) &&& 16 = 0 from by decide,
        show (2 : Nat) &&& 12 = 0 from by decide, show (2 : Nat) &&& 4 = 0 from by decide,
        show (2 : Nat) &&& 32 = 0 from by decide, show (2 : Nat) &&& 2 = 2 from by decide,
        apply_ite Board.pieces,
        apply_ite Board.occupancies, apply_ite Board.occupancy_all,
        apply_ite Board.mailbox, apply_ite Board.side_to_move,
        apply_ite Board.castling_rights, apply_ite Board.en_passant_square,
        apply_ite Board.halfmove_clock, apply_ite Board.fullmove_number,
        apply_ite Board.zobrist_key, ite_self]

end Chiron

namespace Chiron

/-- Round trip for double pawn pushes: `make_move` succeeds and `undo_move`
restores the original board exactly. -/
theorem rt_double (zt : ZTables) (b : Board) (m : Move)
    (hcoh : CohP b.pstate) (hstm : b.side_to_move < 2)
    (hfl : m.flags = 2) (hf64 : m.fromSq < 64) (ht64 : m.toSq < 64)
    (hne : m.fromSq ≠ m.toSq) (hmf : b.mailbox m.fromSq < 12)
    (hP0 : decode_piece_type (b.mailbox m.fromSq) = 0)
    (hcol : decode_piece_color (b.mailbox m.fromSq) = b.side_to_move)
    (hmt : b.mailbox m.toSq = 12) :
    (b.make_move zt m).err = none ∧
      (b.make_move zt m).board.undo_move zt m (b.make_move zt m).state = b := by
  rw [make_nf_double zt b m hfl hf64 hmf hP0]
  refine ⟨rfl, ?_⟩
  rw [undo_nf]
  have henc : encode_piece b.side_to_move 0 < 12 := by
    unfold encode_piece; omega
  have hne12 : encode_piece b.side_to_move 0 ≠ 12 := by omega
  have h64 : ¬ 64 ≤ m.toSq := by omega
  have hdte := decode_type_encode hstm (show (0 : Nat) < 6 by omega)
  have hmbf : b.pstate.mailbox m.fromSq = encode_piece b.side_to_move 0 := by
    show b.mailbox m.fromSq = _
    conv_lhs => rw [mailbox_decomp hmf]
    rw [hcol, hP0]
  have hS1coh : CohP (premove b.side_to_move 0 m.fromSq b.pstate) :=
    CohP_premove hcoh hf64 hstm (by omega) hmbf
  have hS1mt : (premove b.side_to_move 0 m.fromSq b.pstate).mailbox m.toSq = 12 := by
    rw [premove_mailbox, if_neg (fun h => hne h.symm)]
    exact hmt
  have hcancel1 := premove_pplace_cancel hS1coh ht64 hstm (show (0 : Nat) < 6 by omega) hS1mt
  have hcancel2 := pplace_premove_cancel hcoh hf64 hstm (show (0 : Nat) < 6 by omega) hmbf
  simp only [mkBoard, stm_mk, pstate_mk, opposite_opposite hstm, Move.is_promotion,
    Move.is_castle, Move.is_en_passant, hfl, Board.piece_type_at, pplace_mailbox,
    premove_mailbox, kEmptySquare, flagKingCastle, flagQueenCastle,
    flagEnPassant, flagPromotion]
  norm_num [h64, hne12, hdte,
    show (2 : Nat) &&& 16 = 0 from by decide, show (2 : Nat) &&& 12 = 0 from by decide,
    show (2 : Nat) &&& 4 = 0 from by decide, show (2 : Nat) &&& 32 = 0 from by decide]
  rw [hcancel1, hcancel2]
  apply Board.ext2 <;> rfl

end Chiron

namespace Chiron

/-- Normal form of `make_move` for en-passant captures
(flags = Capture|EnPassant, with a pawn on the from-square). -/
theorem make_nf_ep (zt : ZTables) (b : Board) (m : Move)
    (hfl : m.flags = 17) (hf64 : m.fromSq < 64) (hmf : b.mailbox m.fromSq < 12)
    (hP0 : decode_piece_type (b.mailbox m.fromSq) = 0) :
    b.make_move zt m =
      { err := none
        board := mkBoard
          (pplace b.side_to_move 0 m.toSq
            (premove (opposite_color b.side_to_move) 0
              (ep_capture_square b.side_to_move m.toSq)
              (premove b.side_to_move 0 m.fromSq b.pstate)))
          (opposite_color b.side_to_move)
          b.castling_rights
          (-1)
          0
          (if b.side_to_move = 1 then b.fullmove_number + 1 else b.fullmove_number)
          (b.zobrist_key ^^^
            (if b.en_passant_square ≠ (-1 : Int) then
              zt.en_passant_key (b.en_passant_square.toNat % 8) else 0) ^^^
            zt.castling_key b.castling_rights ^^^
            zt.piece_key b.side_to_move 0 m.fromSq ^^^
            zt.piece_key (opposite_color b.side_to_move) 0
              (ep_capture_square b.side_to_move m.toSq) ^^^
            zt.piece_key b.side_to_move 0 m.toSq ^^^
            zt.castling_key b.castling_rights ^^^
            zt.side)
        state := ⟨b.castling_rights, b.en_passant_square, b.halfmove_clock,
          b.zobrist_key, 0, b.fullmove_number⟩ } := by
  have hpta : b.piece_type_at m.fromSq = decode_piece_type (b.mailbox m.fromSq) :=
    pta_occupied hf64 hmf
  unfold Board.make_move Board.make_move_tail
  rw [hpta, hP0]
  norm_num
  simp only [Move.is_capture, Move.is_en_passant, Move.is_castle, Move.is_promotion,
    Move.is_double_pawn_push, hfl, flagCapture, flagDoublePush, flagKingCastle,
    flagQueenCastle, flagEnPassant, flagPromotion]
  norm_num [show (17 : Nat) &&& 16 = 16 from by decide,
    show (17 : Nat) &&& 12 = 0 from by decide, show (17 : Nat) &&& 4 = 0 from by decide,
    show (17 : Nat) &&& 32 = 0 from by decide, show (17 : Nat) &&& 2 = 0 from by decide]
  unfold mkBoard pplace premove Board.pstate Board.place_piece Board.remove_piece
  by_cases hep : b.en_passant_square = (-1 : Int) <;>
    by_cases hstm1 : b.side_to_move = 1 <;>
      simp [hep, hstm1,
        show (17 : Nat) &&& 16 = 16 from by decide,
        show (17 : Nat) &&& 12 = 0 from by decide, show (17 : Nat) &&& 4 = 0 from by decide,
        show (17 : Nat) &&& 32 = 0 from by decide, show (17 : Nat) &&& 2 = 0 from by decide,
        apply_ite Board.pieces,
        apply_ite Board.occupancies, apply_ite Board.occupancy_all,
        apply_ite Board.mailbox, apply_ite Board.side_to_move,
        apply_ite Board.castling_rights, apply_ite Board.en_passant_square,
        apply_ite Board.halfmove_clock, apply_ite Board.fullmove_number,
        apply_ite Board.zobrist_key, ite_self]

end Chiron

namespace Chiron

/-- Round trip for en-passant captures: `make_move` succeeds and `undo_move`
restores the original board exactly. -/
theorem rt_ep (zt : ZTables) (b : Board) (m : Move)
    (hcoh : CohP b.pstate) (hstm : b.side_to_move < 2)
    (hfl : m.flags = 17) (hf64 : m.fromSq < 64) (ht64 : m.toSq < 64)
    (hcsq64 : ep_capture_square b.side_to_move m.toSq < 64)
    (hne : m.fromSq ≠ m.toSq)
    (hnecf : ep_capture_square b.side_to_move m.toSq ≠ m.fromSq)
    (hnect : ep_capture_square b.side_to_move m.toSq ≠ m.toSq)
    (hmf : b.mailbox m.fromSq < 12)
    (hP0 : decode_piece_type (b.mailbox m.fromSq) = 0)
    (hcol : decode_piece_color (b.mailbox m.fromSq) = b.side_to_move)
    (hmt : b.mailbox m.toSq = 12)
    (hmcsq : b.mailbox (ep_capture_square b.side_to_move m.toSq) =
      encode_piece (opposite_color b.side_to_move) 0) :
    (b.make_move zt m).err = none ∧
      (b.make_move zt m).board.undo_move zt m (b.make_move zt m).state = b := by
  rw [make_nf_ep zt b m hfl hf64 hmf hP0]
  refine ⟨rfl, ?_⟩
  rw [undo_nf]
  have hthem : opposite_color b.side_to_move < 2 := opposite_lt
  have henc : encode_piece b.side_to_move 0 < 12 := by
    unfold encode_piece; omega
  have hne12 : encode_piece b.side_to_move 0 ≠ 12 := by omega
  have h64 : ¬ 64 ≤ m.toSq := by omega
  have hdte := decode_type_encode hstm (show (0 : Nat) < 6 by omega)
  have hmbf : b.pstate.mailbox m.fromSq = encode_piece b.side_to_move 0 := by
    show b.mailbox m.fromSq = _
    conv_lhs => rw [mailbox_decomp hmf]
    rw [hcol, hP0]
  have hmcsq' : b.pstate.mailbox (ep_capture_square b.side_to_move m.toSq) =
      encode_piece (opposite_color b.side_to_move) 0 := hmcsq
  have hS1coh : CohP (premove b.side_to_move 0 m.fromSq b.pstate) :=
    CohP_premove hcoh hf64 hstm (by omega) hmbf
  have hS1mcsq : (premove b.side_to_move 0 m.fromSq b.pstate).mailbox
      (ep_capture_square b.side_to_move m.toSq) =
      encode_piece (opposite_color b.side_to_move) 0 := by
    rw [premove_mailbox, if_neg hnecf]
    exact hmcsq'
  have hXcoh : CohP (premove (opposite_color b.side_to_move) 0
      (ep_capture_square b.side_to_move m.toSq)
      (premove b.side_to_move 0 m.fromSq b.pstate)) :=
    CohP_premove hS1coh hcsq64 hthem (by omega) hS1mcsq
  have hXmt : (premove (opposite_color b.side_to_move) 0
      (ep_capture_square b.side_to_move m.toSq)
      (premove b.side_to_move 0 m.fromSq b.pstate)).mailbox m.toSq = 12 := by
    rw [premove_mailbox, if_neg (fun h => hnect h.symm),
      premove_mailbox, if_neg (fun h => hne h.symm)]
    exact hmt
  have hcancel1 := premove_pplace_cancel hXcoh ht64 hstm (show (0 : Nat) < 6 by omega) hXmt
  have hcomm := pplace_premove_comm hf64 (fun h => hnecf h.symm) b.side_to_move 0
    (opposite_color b.side_to_move) 0
    (premove b.side_to_move 0 m.fromSq b.pstate)
  have hcancel2 := pplace_premove_cancel hcoh hf64 hstm (show (0 : Nat) < 6 by omega) hmbf
  have hcancel3 := pplace_premove_cancel hcoh hcsq64 hthem (show (0 : Nat) < 6 by omega) hmcsq'
  simp only [mkBoard, stm_mk, pstate_mk, opposite_opposite hstm, Move.is_promotion,
    Move.is_castle, Move.is_en_passant, hfl, Board.piece_type_at, pplace_mailbox,
    premove_mailbox, kEmptySquare, flagKingCastle, flagQueenCastle,
    flagEnPassant, flagPromotion]
  norm_num [h64, hne12, hdte,
    show (17 : Nat) &&& 16 = 16 from by decide, show (17 : Nat) &&& 12 = 0 from by decide,
    show (17 : Nat) &&& (4 ||| 8) = 0 from by decide,
    show (17 : Nat) &&& 4 = 0 from by decide, show (17 : Nat) &&& 32 = 0 from by decide]
  rw [hcancel1, hcomm, hcancel2, hcancel3]
  apply Board.ext2 <;> rfl

end Chiron

namespace Chiron

/-- Normal form of `make_move` for quiet promotions (flags = Promotion,
with a pawn on the from-square). -/
theorem make_nf_promo (zt : ZTables) (b : Board) (m : Move)
    (hfl : m.flags = 32) (hf64 : m.fromSq < 64) (hmf : b.mailbox m.fromSq < 12)
    (hP0 : decode_piece_type (b.mailbox m.fromSq) = 0) :
    b.make_move zt m =
      { err := none
        board := mkBoard
          (pplace b.side_to_move m.promotion m.toSq
            (premove b.side_to_move 0 m.fromSq b.pstate))
          (opposite_color b.side_to_move)
          b.castling_rights
          (-1)
          0
          (if b.side_to_move = 1 then b.fullmove_number + 1 else b.fullmove_number)
          (b.zobrist_key ^^^
            (if b.en_passant_square ≠ (-1 : Int) then
              zt.en_passant_key (b.en_passant_square.toNat % 8) else 0) ^^^
            zt.castling_key b.castling_rights ^^^
            zt.piece_key b.side_to_move 0 m.fromSq ^^^
            zt.piece_key b.side_to_move m.promotion m.toSq ^^^
            zt.castling_key b.castling_rights ^^^
            zt.side)
        state := ⟨b.castling_rights, b.en_passant_square, b.halfmove_clock,
          b.zobrist_key, 6, b.fullmove_number⟩ } := by
  have hpta : b.piece_type_at m.fromSq = decode_piece_type (b.mailbox m.fromSq) :=
    pta_occupied hf64 hmf
  unfold Board.make_move Board.make_move_tail
  rw [hpta, hP0]
  norm_num
  simp only [Move.is_capture, Move.is_en_passant, Move.is_castle, Move.is_promotion,
    Move.is_double_pawn_push, hfl, flagCapture, flagDoublePush, flagKingCastle,
    flagQueenCastle, flagEnPassant, flagPromotion]
  norm_num [show (32 : Nat) &&& 16 = 0 from by decide,
    show (32 : Nat) &&& 12 = 0 from by decide, show (32 : Nat) &&& (4 ||| 8) = 0 from by decide,
      show (32 : Nat) &&& 12 = 0 from by decide,
    show (32 : Nat) &&& 4 = 0 from by decide, show (32 : Nat) &&& 32 = 32 from by decide,
    show (32 : Nat) &&& 2 = 0 from by decide, show (32 : Nat) &&& 1 = 0 from by decide]
  unfold mkBoard pplace premove Board.pstate Board.place_piece Board.remove_piece
  by_cases hep : b.en_passant_square = (-1 : Int) <;>
    by_cases hstm1 : b.side_to_move = 1 <;>
      simp [hep, hstm1, apply_ite Board.pieces,
        apply_ite Board.occupancies, apply_ite Board.occupancy_all,
        apply_ite Board.mailbox, apply_ite Board.side_to_move,
        apply_ite Board.castling_rights, apply_ite Board.en_passant_square,
        apply_ite Board.halfmove_clock, apply_ite Board.fullmove_number,
        apply_ite Board.zobrist_key, ite_self]

end Chiron

namespace Chiron

/-- Round trip for quiet promotions: `make_move` succeeds and `undo_move`
restores the original board exactly. -/
theorem rt_promo (zt : ZTables) (b : Board) (m : Move)
    (hcoh : CohP b.pstate) (hstm : b.side_to_move < 2)
    (hfl : m.flags = 32) (hf64 : m.fromSq < 64) (ht64 : m.toSq < 64)
    (hne : m.fromSq ≠ m.toSq) (hmf : b.mailbox m.fromSq < 12)
    (hP0 : decode_piece_type (b.mailbox m.fromSq) = 0)
    (hcol : decode_piece_color (b.mailbox m.fromSq) = b.side_to_move)
    (hpr : m.promotion < 6)
    (hmt : b.mailbox m.toSq = 12) :
    (b.make_move zt m).err = none ∧
      (b.make_move zt m).board.undo_move zt m (b.make_move zt m).state = b := by
  rw [make_nf_promo zt b m hfl hf64 hmf hP0]
  refine ⟨rfl, ?_⟩
  rw [undo_nf]
  have henc : encode_piece b.side_to_move m.promotion < 12 := by
    unfold encode_piece; omega
  have hne12 : encode_piece b.side_to_move m.promotion ≠ 12 := by omega
  have h64 : ¬ 64 ≤ m.toSq := by omega
  have hdte := decode_type_encode hstm hpr
  have hmbf : b.pstate.mailbox m.fromSq = encode_piece b.side_to_move 0 := by
    show b.mailbox m.fromSq = _
    conv_lhs => rw [mailbox_decomp hmf]
    rw [hcol, hP0]
  have hS1coh : CohP (premove b.side_to_move 0 m.fromSq b.pstate) :=
    CohP_premove hcoh hf64 hstm (by omega) hmbf
  have hS1mt : (premove b.side_to_move 0 m.fromSq b.pstate).mailbox m.toSq = 12 := by
    rw [premove_mailbox, if_neg (fun h => hne h.symm)]
    exact hmt
  have hcancel1 := premove_pplace_cancel hS1coh ht64 hstm hpr hS1mt
  have hcancel2 := pplace_premove_cancel hcoh hf64 hstm (show (0 : Nat) < 6 by omega) hmbf
  simp only [mkBoard, stm_mk, pstate_mk, opposite_opposite hstm, Move.is_promotion,
    Move.is_castle, Move.is_en_passant, hfl, Board.piece_type_at, pplace_mailbox,
    premove_mailbox, kEmptySquare, flagKingCastle, flagQueenCastle,
    flagEnPassant, flagPromotion]
  norm_num [h64, hne12, hdte,
    show (32 : Nat) &&& 16 = 0 from by decide, show (32 : Nat) &&& (4 ||| 8) = 0 from by decide,
      show (32 : Nat) &&& 12 = 0 from by decide,
    show (32 : Nat) &&& 4 = 0 from by decide, show (32 : Nat) &&& 32 = 32 from by decide]
  rw [hcancel1, hcancel2]
  apply Board.ext2 <;> rfl

end Chiron

namespace Chiron

/-- Normal form of `make_move` for capturing promotions
(flags = Capture|Promotion, with a pawn on the from-square). -/
theorem make_nf_promo_capture (zt : ZTables) (b : Board) (m : Move)
    (hfl : m.flags = 33) (hf64 : m.fromSq < 64) (ht64 : m.toSq < 64)
    (hne : m.fromSq ≠ m.toSq)
    (hmf : b.mailbox m.fromSq < 12) (hmt : b.mailbox m.toSq < 12)
    (hP0 : decode_piece_type (b.mailbox m.fromSq) = 0) :
    b.make_move zt m =
      { err := none
        board := mkBoard
          (pplace b.side_to_move m.promotion m.toSq
            (premove (opposite_color b.side_to_move)
              (decode_piece_type (b.mailbox m.toSq)) m.toSq
              (premove b.side_to_move 0 m.fromSq b.pstate)))
          (opposite_color b.side_to_move)
          (rights_capture b.castling_rights m.toSq)
          (-1)
          0
          (if b.side_to_move = 1 then b.fullmove_number + 1 else b.fullmove_number)
          (b.zobrist_key ^^^
            (if b.en_passant_square ≠ (-1 : Int) then
              zt.en_passant_key (b.en_passant_square.toNat % 8) else 0) ^^^
            zt.castling_key b.castling_rights ^^^
            zt.piece_key b.side_to_move 0 m.fromSq ^^^
            zt.piece_key (opposite_color b.side_to_move)
              (decode_piece_type (b.mailbox m.toSq)) m.toSq ^^^
            zt.piece_key b.side_to_move m.promotion m.toSq ^^^
            zt.castling_key (rights_capture b.castling_rights m.toSq) ^^^
            zt.side)
        state := ⟨b.castling_rights, b.en_passant_square, b.halfmove_clock,
          b.zobrist_key, decode_piece_type (b.mailbox m.toSq), b.fullmove_number⟩ } := by
  have hpta : b.piece_type_at m.fromSq = decode_piece_type (b.mailbox m.fromSq) :=
    pta_occupied hf64 hmf
  have h6t : ¬(decode_piece_type (b.mailbox m.toSq) = 6) := by
    have := decode_type_lt hmt
    omega
  have h64t : ¬ 64 ≤ m.toSq := by omega
  have hne12t : ¬(b.mailbox m.toSq = 12) := by omega
  have hnetf : ¬(m.toSq = m.fromSq) := fun h => hne h.symm
  unfold Board.make_move Board.make_move_tail
  rw [hpta, hP0]
  norm_num
  simp only [Move.is_capture, Move.is_en_passant, Move.is_castle, Move.is_promotion,
    Move.is_double_pawn_push, hfl, flagCapture, flagDoublePush, flagKingCastle,
    flagQueenCastle, flagEnPassant, flagPromotion]
  norm_num [show (33 : Nat) &&& 16 = 0 from by decide,
    show (33 : Nat) &&& 12 = 0 from by decide, show (33 : Nat) &&& (4 ||| 8) = 0 from by decide,
    show (33 : Nat) &&& 4 = 0 from by decide, show (33 : Nat) &&& 32 = 32 from by decide,
    show (33 : Nat) &&& 2 = 0 from by decide, show (33 : Nat) &&& 1 = 1 from by decide]
  unfold Board.piece_type_at kEmptySquare Board.place_piece Board.remove_piece
    mkBoard rights_capture pplace premove Board.pstate
  by_cases hep : b.en_passant_square = (-1 : Int) <;>
    by_cases hstm1 : b.side_to_move = 1 <;>
      simp [hep, hstm1, hnetf, hne12t, h64t, h6t, apply_ite Board.pieces,
        apply_ite Board.occupancies, apply_ite Board.occupancy_all,
        apply_ite Board.mailbox, apply_ite Board.side_to_move,
        apply_ite Board.castling_rights, apply_ite Board.en_passant_square,
        apply_ite Board.halfmove_clock, apply_ite Board.fullmove_number,
        apply_ite Board.zobrist_key, ite_self]

end Chiron

namespace Chiron

/-- Round trip for capturing promotions: `make_move` succeeds and `undo_move`
restores the original board exactly. -/
theorem rt_promo_capture (zt : ZTables) (b : Board) (m : Move)
    (hcoh : CohP b.pstate) (hstm : b.side_to_move < 2)
    (hfl : m.flags = 33) (hf64 : m.fromSq < 64) (ht64 : m.toSq < 64)
    (hne : m.fromSq ≠ m.toSq) (hmf : b.mailbox m.fromSq < 12)
    (hP0 : decode_piece_type (b.mailbox m.fromSq) = 0)
    (hcol : decode_piece_color (b.mailbox m.fromSq) = b.side_to_move)
    (hpr : m.promotion < 6)
    (hmt : b.mailbox m.toSq < 12)
    (hcolt : decode_piece_color (b.mailbox m.toSq) = opposite_color b.side_to_move) :
    (b.make_move zt m).err = none ∧
      (b.make_move zt m).board.undo_move zt m (b.make_move zt m).state = b := by
  rw [make_nf_promo_capture zt b m hfl hf64 ht64 hne hmf hmt hP0]
  refine ⟨rfl, ?_⟩
  rw [undo_nf]
  have hClt : decode_piece_type (b.mailbox m.toSq) < 6 := decode_type_lt hmt
  have hthem : opposite_color b.side_to_move < 2 := opposite_lt
  have henc : encode_piece b.side_to_move m.promotion < 12 := by
    unfold encode_piece; omega
  have hne12 : encode_piece b.side_to_move m.promotion ≠ 12 := by omega
  have h64 : ¬ 64 ≤ m.toSq := by omega
  have h6C : decode_piece_type (b.mailbox m.toSq) ≠ 6 := by omega
  have hdte := decode_type_encode hstm hpr
  have hnetf : m.toSq ≠ m.fromSq := fun h => hne h.symm
  have hmbf : b.pstate.mailbox m.fromSq = encode_piece b.side_to_move 0 := by
    show b.mailbox m.fromSq = _
    conv_lhs => rw [mailbox_decomp hmf]
    rw [hcol, hP0]
  have hmbt : b.pstate.mailbox m.toSq =
      encode_piece (opposite_color b.side_to_move)
        (decode_piece_type (b.mailbox m.toSq)) := by
    show b.mailbox m.toSq = _
    conv_lhs => rw [mailbox_decomp hmt]
    rw [hcolt]
  have hS1coh : CohP (premove b.side_to_move 0 m.fromSq b.pstate) :=
    CohP_premove hcoh hf64 hstm (by omega) hmbf
  have hS1mt : (premove b.side_to_move 0 m.fromSq b.pstate).mailbox m.toSq =
      encode_piece (opposite_color b.side_to_move)
        (decode_piece_type (b.mailbox m.toSq)) := by
    rw [premove_mailbox, if_neg hnetf]
    exact hmbt
  have hXcoh : CohP (premove (opposite_color b.side_to_move)
      (decode_piece_type (b.mailbox m.toSq)) m.toSq
      (premove b.side_to_move 0 m.fromSq b.pstate)) :=
    CohP_premove hS1coh ht64 hthem hClt hS1mt
  have hXmt : (premove (opposite_color b.side_to_move)
      (decode_piece_type (b.mailbox m.toSq)) m.toSq
      (premove b.side_to_move 0 m.fromSq b.pstate)).mailbox m.toSq = 12 := by
    rw [premove_mailbox, if_pos rfl]
    rfl
  have hcancel1 := premove_pplace_cancel hXcoh ht64 hstm hpr hXmt
  have hcomm := pplace_premove_comm hf64 hne b.side_to_move 0
    (opposite_color b.side_to_move) (decode_piece_type (b.mailbox m.toSq))
    (premove b.side_to_move 0 m.fromSq b.pstate)
  have hcancel2 := pplace_premove_cancel hcoh hf64 hstm (show (0 : Nat) < 6 by omega) hmbf
  have hcancel3 := pplace_premove_cancel hcoh ht64 hthem hClt hmbt
  simp only [mkBoard, stm_mk, pstate_mk, opposite_opposite hstm, Move.is_promotion,
    Move.is_castle, Move.is_en_passant, hfl, Board.piece_type_at, pplace_mailbox,
    premove_mailbox, kEmptySquare, flagCapture, flagKingCastle, flagQueenCastle,
    flagEnPassant, flagPromotion]
  norm_num [h64, hne12, hdte, h6C,
    show (33 : Nat) &&& 16 = 0 from by decide, show (33 : Nat) &&& (4 ||| 8) = 0 from by decide,
    show (33 : Nat) &&& 4 = 0 from by decide, show (33 : Nat) &&& 32 = 32 from by decide,
    show (33 : Nat) &&& 1 = 1 from by decide]
  rw [hcancel1, hcomm, hcancel2, hcancel3]
  apply Board.ext2 <;> rfl

end Chiron

namespace Chiron

/-- Normal form of `make_move` for kingside castling (flags = KingCastle,
with the king on the from-square). -/
theorem make_nf_castle_k (zt : ZTables) (b : Board) (m : Move)
    (hfl : m.flags = 4) (hf64 : m.fromSq < 64) (hmf : b.mailbox m.fromSq < 12)
    (hP5 : decode_piece_type (b.mailbox m.fromSq) = 5) :
    b.make_move zt m =
      { err := none
        board := mkBoard
          (pplace b.side_to_move 3 (if b.side_to_move = 0 then 5 else 61)
            (premove b.side_to_move 3 (if b.side_to_move = 0 then 7 else 63)
              (pplace b.side_to_move 5 m.toSq
                (premove b.side_to_move 5 m.fromSq b.pstate))))
          (opposite_color b.side_to_move)
          (b.castling_rights &&& compl64 (if b.side_to_move = 0 then 3 else 12))
          (-1)
          (b.halfmove_clock + 1)
          (if b.side_to_move = 1 then b.fullmove_number + 1 else b.fullmove_number)
          (b.zobrist_key ^^^
            (if b.en_passant_square ≠ (-1 : Int) then
              zt.en_passant_key (b.en_passant_square.toNat % 8) else 0) ^^^
            zt.castling_key b.castling_rights ^^^
            zt.piece_key b.side_to_move 5 m.fromSq ^^^
            zt.piece_key b.side_to_move 5 m.toSq ^^^
            zt.piece_key b.side_to_move 3 (if b.side_to_move = 0 then 7 else 63) ^^^
            zt.piece_key b.side_to_move 3 (if b.side_to_move = 0 then 5 else 61) ^^^
            zt.castling_key
              (b.castling_rights &&& compl64 (if b.side_to_move = 0 then 3 else 12)) ^^^
            zt.side)
        state := ⟨b.castling_rights, b.en_passant_square, b.halfmove_clock,
          b.zobrist_key, 6, b.fullmove_number⟩ } := by
  have hpta : b.piece_type_at m.fromSq = decode_piece_type (b.mailbox m.fromSq) :=
    pta_occupied hf64 hmf
  unfold Board.make_move Board.make_move_tail
  rw [hpta, hP5]
  norm_num
  simp only [Move.is_capture, Move.is_en_passant, Move.is_castle, Move.is_promotion,
    Move.is_double_pawn_push, hfl, flagCapture, flagDoublePush, flagKingCastle,
    flagQueenCastle, flagEnPassant, flagPromotion]
  norm_num [show (4 : Nat) &&& 16 = 0 from by decide,
    show (4 : Nat) &&& (4 ||| 8) = 4 from by decide,
    show (4 : Nat) &&& 4 = 4 from by decide, show (4 : Nat) &&& 32 = 0 from by decide,
    show (4 : Nat) &&& 2 = 0 from by decide, show (4 : Nat) &&& 1 = 0 from by decide]
  unfold mkBoard pplace premove Board.pstate Board.place_piece Board.remove_piece
  by_cases hep : b.en_passant_square = (-1 : Int) <;>
    by_cases hstm1 : b.side_to_move = 1 <;>
      simp [hep, hstm1, apply_ite Board.pieces,
        apply_ite Board.occupancies, apply_ite Board.occupancy_all,
        apply_ite Board.mailbox, apply_ite Board.side_to_move,
        apply_ite Board.castling_rights, apply_ite Board.en_passant_square,
        apply_ite Board.halfmove_clock, apply_ite Board.fullmove_number,
        apply_ite Board.zobrist_key, ite_self]

end Chiron

namespace Chiron

/-- Round trip for kingside castling: `make_move` succeeds and `undo_move`
restores the original board exactly. -/
theorem rt_castle_k (zt : ZTables) (b : Board) (m : Move)
    (hcoh : CohP b.pstate) (hstm : b.side_to_move < 2)
    (hfl : m.flags = 4) (hf64 : m.fromSq < 64) (ht64 : m.toSq < 64)
    (hne : m.fromSq ≠ m.toSq)
    (hTRF : m.toSq ≠ (if b.side_to_move = 0 then 7 else 63))
    (hTRT : m.toSq ≠ (if b.side_to_move = 0 then 5 else 61))
    (hFRF : m.fromSq ≠ (if b.side_to_move = 0 then 7 else 63))
    (hFRT : m.fromSq ≠ (if b.side_to_move = 0 then 5 else 61))
    (hmf : b.mailbox m.fromSq < 12)
    (hP5 : decode_piece_type (b.mailbox m.fromSq) = 5)
    (hcol : decode_piece_color (b.mailbox m.fromSq) = b.side_to_move)
    (hmt : b.mailbox m.toSq = 12)
    (hmrf : b.mailbox (if b.side_to_move = 0 then 7 else 63) =
      encode_piece b.side_to_move 3)
    (hmrt : b.mailbox (if b.side_to_move = 0 then 5 else 61) = 12) :
    (b.make_move zt m).err = none ∧
      (b.make_move zt m).board.undo_move zt m (b.make_move zt m).state = b := by
  rw [make_nf_castle_k zt b m hfl hf64 hmf hP5]
  refine ⟨rfl, ?_⟩
  rw [undo_nf]
  have hrf64 : (if b.side_to_move = 0 then 7 else 63) < 64 := by split <;> omega
  have hrt64 : (if b.side_to_move = 0 then 5 else 61) < 64 := by split <;> omega
  have hRTRF : (if b.side_to_move = 0 then 5 else 61) ≠
      (if b.side_to_move = 0 then 7 else 63) := by split <;> omega
  have henc : encode_piece b.side_to_move 5 < 12 := by
    unfold encode_piece; omega
  have hne12 : encode_piece b.side_to_move 5 ≠ 12 := by omega
  have h64 : ¬ 64 ≤ m.toSq := by omega
  have hdte := decode_type_encode hstm (show (5 : Nat) < 6 by omega)
  have hmbf : b.pstate.mailbox m.fromSq = encode_piece b.side_to_move 5 := by
    show b.mailbox m.fromSq = _
    conv_lhs => rw [mailbox_decomp hmf]
    rw [hcol, hP5]
  have hmrf' : b.pstate.mailbox (if b.side_to_move = 0 then 7 else 63) =
      encode_piece b.side_to_move 3 := hmrf
  have hYcoh : CohP (premove b.side_to_move 5 m.fromSq b.pstate) :=
    CohP_premove hcoh hf64 hstm (by omega) hmbf
  have hYmt : (premove b.side_to_move 5 m.fromSq b.pstate).mailbox m.toSq = 12 := by
    rw [premove_mailbox, if_neg (fun h => hne h.symm)]
    exact hmt
  have hZcoh : CohP (premove b.side_to_move 3 (if b.side_to_move = 0 then 7 else 63)
      b.pstate) := CohP_premove hcoh hrf64 hstm (by omega) hmrf'
  have hZmrt : (premove b.side_to_move 3 (if b.side_to_move = 0 then 7 else 63)
      b.pstate).mailbox (if b.side_to_move = 0 then 5 else 61) = 12 := by
    rw [premove_mailbox, if_neg hRTRF]
    exact hmrt
  have c1 := (pplace_premove_comm hrt64 (fun h => hTRT h.symm) b.side_to_move 3
    b.side_to_move 5
    (premove b.side_to_move 3 (if b.side_to_move = 0 then 7 else 63)
      (pplace b.side_to_move 5 m.toSq
        (premove b.side_to_move 5 m.fromSq b.pstate)))).symm
  have c2 := premove_premove_comm hTRF b.side_to_move 5 b.side_to_move 3
    (pplace b.side_to_move 5 m.toSq (premove b.side_to_move 5 m.fromSq b.pstate))
  have c3 := premove_pplace_cancel hYcoh ht64 hstm (show (5 : Nat) < 6 by omega) hYmt
  have c4 := pplace_pplace_comm hFRT b.side_to_move 5 b.side_to_move 3
    (premove b.side_to_move 3 (if b.side_to_move = 0 then 7 else 63)
      (premove b.side_to_move 5 m.fromSq b.pstate))
  have c5 := pplace_premove_comm hf64 hFRF b.side_to_move 5 b.side_to_move 3
    (premove b.side_to_move 5 m.fromSq b.pstate)
  have c6 := pplace_premove_cancel hcoh hf64 hstm (show (5 : Nat) < 6 by omega) hmbf
  have c7 := premove_pplace_cancel hZcoh hrt64 hstm (show (3 : Nat) < 6 by omega) hZmrt
  have c8 := pplace_premove_cancel hcoh hrf64 hstm (show (3 : Nat) < 6 by omega) hmrf'
  simp only [mkBoard, stm_mk, pstate_mk, opposite_opposite hstm, Move.is_promotion,
    Move.is_castle, Move.is_en_passant, hfl, Board.piece_type_at, pplace_mailbox,
    premove_mailbox, kEmptySquare, flagCapture, flagKingCastle, flagQueenCastle,
    flagEnPassant, flagPromotion]
  norm_num [h64, hne12, hdte, hTRF, hTRT,
    show (4 : Nat) &&& 16 = 0 from by decide, show (4 : Nat) &&& (4 ||| 8) = 4 from by decide,
    show (4 : Nat) &&& 4 = 4 from by decide, show (4 : Nat) &&& 32 = 0 from by decide]
  rw [c1, c2, c3, c4, c5, c6, c7, c8]
  apply Board.ext2 <;> rfl

end Chiron

namespace Chiron

/-- Normal form of `make_move` for queenside castling (flags = QueenCastle,
with the king on the from-square). -/
theorem make_nf_castle_q (zt : ZTables) (b : Board) (m : Move)
    (hfl : m.flags = 8) (hf64 : m.fromSq < 64) (hmf : b.mailbox m.fromSq < 12)
    (hP5 : decode_piece_type (b.mailbox m.fromSq) = 5) :
    b.make_move zt m =
      { err := none
        board := mkBoard
          (pplace b.side_to_move 3 (if b.side_to_move = 0 then 3 else 59)
            (premove b.side_to_move 3 (if b.side_to_move = 0 then 0 else 56)
              (pplace b.side_to_move 5 m.toSq
                (premove b.side_to_move 5 m.fromSq b.pstate))))
          (opposite_color b.side_to_move)
          (b.castling_rights &&& compl64 (if b.side_to_move = 0 then 3 else 12))
          (-1)
          (b.halfmove_clock + 1)
          (if b.side_to_move = 1 then b.fullmove_number + 1 else b.fullmove_number)
          (b.zobrist_key ^^^
            (if b.en_passant_square ≠ (-1 : Int) then
              zt.en_passant_key (b.en_passant_square.toNat % 8) else 0) ^^^
            zt.castling_key b.castling_rights ^^^
            zt.piece_key b.side_to_move 5 m.fromSq ^^^
            zt.piece_key b.side_to_move 5 m.toSq ^^^
            zt.piece_key b.side_to_move 3 (if b.side_to_move = 0 then 0 else 56) ^^^
            zt.piece_key b.side_to_move 3 (if b.side_to_move = 0 then 3 else 59) ^^^
            zt.castling_key
              (b.castling_rights &&& compl64 (if b.side_to_move = 0 then 3 else 12)) ^^^
            zt.side)
        state := ⟨b.castling_rights, b.en_passant_square, b.halfmove_clock,
          b.zobrist_key, 6, b.fullmove_number⟩ } := by
  have hpta : b.piece_type_at m.fromSq = decode_piece_type (b.mailbox m.fromSq) :=
    pta_occupied hf64 hmf
  unfold Board.make_move Board.make_move_tail
  rw [hpta, hP5]
  norm_num
  simp only [Move.is_capture, Move.is_en_passant, Move.is_castle, Move.is_promotion,
    Move.is_double_pawn_push, hfl, flagCapture, flagDoublePush, flagKingCastle,
    flagQueenCastle, flagEnPassant, flagPromotion]
  norm_num [show (8 : Nat) &&& 16 = 0 from by decide,
    show (8 : Nat) &&& (4 ||| 8) = 8 from by decide,
    show (8 : Nat) &&& 4 = 0 from by decide, show (8 : Nat) &&& 32 = 0 from by decide,
    show (8 : Nat) &&& 2 = 0 from by decide, show (8 : Nat) &&& 1 = 0 from by decide]
  unfold mkBoard pplace premove Board.pstate Board.place_piece Board.remove_piece
  by_cases hep : b.en_passant_square = (-1 : Int) <;>
    by_cases hstm1 : b.side_to_move = 1 <;>
      simp [hep, hstm1, apply_ite Board.pieces,
        apply_ite Board.occupancies, apply_ite Board.occupancy_all,
        apply_ite Board.mailbox, apply_ite Board.side_to_move,
        apply_ite Board.castling_rights, apply_ite Board.en_passant_square,
        apply_ite Board.halfmove_clock, apply_ite Board.fullmove_number,
        apply_ite Board.zobrist_key, ite_self]

end Chiron

namespace Chiron

/-- Round trip for queenside castling: `make_move` succeeds and `undo_move`
restores the original board exactly. -/
theorem rt_castle_q (zt : ZTables) (b : Board) (m : Move)
    (hcoh : CohP b.pstate) (hstm : b.side_to_move < 2)
    (hfl : m.flags = 8) (hf64 : m.fromSq < 64) (ht64 : m.toSq < 64)
    (hne : m.fromSq ≠ m.toSq)
    (hTRF : m.toSq ≠ (if b.side_to_move = 0 then 0 else 56))
    (hTRT : m.toSq ≠ (if b.side_to_move = 0 then 3 else 59))
    (hFRF : m.fromSq ≠ (if b.side_to_move = 0 then 0 else 56))
    (hFRT : m.fromSq ≠ (if b.side_to_move = 0 then 3 else 59))
    (hmf : b.mailbox m.fromSq < 12)
    (hP5 : decode_piece_type (b.mailbox m.fromSq) = 5)
    (hcol : decode_piece_color (b.mailbox m.fromSq) = b.side_to_move)
    (hmt : b.mailbox m.toSq = 12)
    (hmrf : b.mailbox (if b.side_to_move = 0 then 0 else 56) =
      encode_piece b.side_to_move 3)
    (hmrt : b.mailbox (if b.side_to_move = 0 then 3 else 59) = 12) :
    (b.make_move zt m).err = none ∧
      (b.make_move zt m).board.undo_move zt m (b.make_move zt m).state = b := by
  rw [make_nf_castle_q zt b m hfl hf64 hmf hP5]
  refine ⟨rfl, ?_⟩
  rw [undo_nf]
  have hrf64 : (if b.side_to_move = 0 then 0 else 56) < 64 := by split <;> omega
  have hrt64 : (if b.side_to_move = 0 then 3 else 59) < 64 := by split <;> omega
  have hRTRF : (if b.side_to_move = 0 then 3 else 59) ≠
      (if b.side_to_move = 0 then 0 else 56) := by split <;> omega
  have henc : encode_piece b.side_to_move 5 < 12 := by
    unfold encode_piece; omega
  have hne12 : encode_piece b.side_to_move 5 ≠ 12 := by omega
  have h64 : ¬ 64 ≤ m.toSq := by omega
  have hdte := decode_type_encode hstm (show (5 : Nat) < 6 by omega)
  have hmbf : b.pstate.mailbox m.fromSq = encode_piece b.side_to_move 5 := by
    show b.mailbox m.fromSq = _
    conv_lhs => rw [mailbox_decomp hmf]
    rw [hcol, hP5]
  have hmrf' : b.pstate.mailbox (if b.side_to_move = 0 then 0 else 56) =
      encode_piece b.side_to_move 3 := hmrf
  have hYcoh : CohP (premove b.side_to_move 5 m.fromSq b.pstate) :=
    CohP_premove hcoh hf64 hstm (by omega) hmbf
  have hYmt : (premove b.side_to_move 5 m.fromSq b.pstate).mailbox m.toSq = 12 := by
    rw [premove_mailbox, if_neg (fun h => hne h.symm)]
    exact hmt
  have hZcoh : CohP (premove b.side_to_move 3 (if b.side_to_move = 0 then 0 else 56)
      b.pstate) := CohP_premove hcoh hrf64 hstm (by omega) hmrf'
  have hZmrt : (premove b.side_to_move 3 (if b.side_to_move = 0 then 0 else 56)
      b.pstate).mailbox (if b.side_to_move = 0 then 3 else 59) = 12 := by
    rw [premove_mailbox, if_neg hRTRF]
    exact hmrt
  have c1 := (pplace_premove_comm hrt64 (fun h => hTRT h.symm) b.side_to_move 3
    b.side_to_move 5
    (premove b.side_to_move 3 (if b.side_to_move = 0 then 0 else 56)
      (pplace b.side_to_move 5 m.toSq
        (premove b.side_to_move 5 m.fromSq b.pstate)))).symm
  have c2 := premove_premove_comm hTRF b.side_to_move 5 b.side_to_move 3
    (pplace b.side_to_move 5 m.toSq (premove b.side_to_move 5 m.fromSq b.pstate))
  have c3 := premove_pplace_cancel hYcoh ht64 hstm (show (5 : Nat) < 6 by omega) hYmt
  have c4 := pplace_pplace_comm hFRT b.side_to_move 5 b.side_to_move 3
    (premove b.side_to_move 3 (if b.side_to_move = 0 then 0 else 56)
      (premove b.side_to_move 5 m.fromSq b.pstate))
  have c5 := pplace_premove_comm hf64 hFRF b.side_to_move 5 b.side_to_move 3
    (premove b.side_to_move 5 m.fromSq b.pstate)
  have c6 := pplace_premove_cancel hcoh hf64 hstm (show (5 : Nat) < 6 by omega) hmbf
  have c7 := premove_pplace_cancel hZcoh hrt64 hstm (show (3 : Nat) < 6 by omega) hZmrt
  have c8 := pplace_premove_cancel hcoh hrf64 hstm (show (3 : Nat) < 6 by omega) hmrf'
  simp only [mkBoard, stm_mk, pstate_mk, opposite_opposite hstm, Move.is_promotion,
    Move.is_castle, Move.is_en_passant, hfl, Board.piece_type_at, pplace_mailbox,
    premove_mailbox, kEmptySquare, flagCapture, flagKingCastle, flagQueenCastle,
    flagEnPassant, flagPromotion]
  norm_num [h64, hne12, hdte, hTRF, hTRT,
    show (8 : Nat) &&& 16 = 0 from by decide, show (8 : Nat) &&& (4 ||| 8) = 8 from by decide,
    show (8 : Nat) &&& 4 = 0 from by decide, show (8 : Nat) &&& 32 = 0 from by decide]
  rw [c1, c2, c3, c4, c5, c6, c7, c8]
  apply Board.ext2 <;> rfl

end Chiron

namespace Chiron

/-- Decoding the color of an encoded piece recovers the color. -/
theorem decode_color_encode {c p : Nat} (hc : c < 2) (hp : p < 6) :
    decode_piece_color (encode_piece c p) = c := by
  unfold decode_piece_color encode_piece
  omega

/-- `piece_type_at` returning None on an on-board square means the square is
empty in the mailbox. -/
theorem pta_empty {b : Board} {s : Nat} (hs : s < 64) (hmb : b.mailbox s ≤ 12)
    (h : b.piece_type_at s = 6) : b.mailbox s = 12 := by
  unfold Board.piece_type_at kEmptySquare at h
  rw [if_neg (by omega)] at h
  by_cases hm : b.mailbox s = 12
  · exact hm
  · rw [if_neg hm] at h
    unfold decode_piece_type at h
    split at h <;> omega

/-- An occupancy bit comes from one of the six piece bitboards. -/
theorem occ_bit_decomp {ps : PieceState} (hc : CohP ps) {c s : Nat} (hc2 : c < 2)
    (h : (ps.occupancies c).testBit s = true) :
    ∃ p, p < 6 ∧ (ps.pieces c p).testBit s = true := by
  rw [hc.2.2.2.1 c hc2] at h
  simp only [Nat.testBit_or, Bool.or_eq_true] at h
  rcases h with ((((h | h) | h) | h) | h) | h
  · exact ⟨0, by omega, h⟩
  · exact ⟨1, by omega, h⟩
  · exact ⟨2, by omega, h⟩
  · exact ⟨3, by omega, h⟩
  · exact ⟨4, by omega, h⟩
  · exact ⟨5, by omega, h⟩

/-- A set occupancy bit determines an occupied mailbox square of that color. -/
theorem mailbox_of_occ_bit {ps : PieceState} (hc : CohP ps) {c s : Nat}
    (hc2 : c < 2) (hs : s < 64) (h : (ps.occupancies c).testBit s = true) :
    ps.mailbox s < 12 ∧ decode_piece_color (ps.mailbox s) = c := by
  obtain ⟨p, hp, hbit⟩ := occ_bit_decomp hc hc2 h
  have hm := (hc.2.2.1 s hs c hc2 p hp).mp hbit
  constructor
  · rw [hm]; unfold encode_piece; omega
  · rw [hm]; exact decode_color_encode hc2 hp

/-- Every nonzero word has a set bit. -/
theorem exists_testBit {n : Nat} (h : n ≠ 0) : ∃ j, n.testBit j = true := by
  by_contra hall
  push_neg at hall
  apply h
  apply Nat.eq_of_testBit_eq
  intro i
  rw [Nat.zero_testBit]
  exact Bool.eq_false_iff.mpr (fun hb => (hall i) hb)

/-- A word with no two set bits and a set bit `t` is exactly `2 ^ t`. -/
theorem single_bit : ∀ t : Nat, ∀ bb : Nat, bb.testBit t = true →
    bb &&& (bb - 1) = 0 → bb = 2 ^ t := by
  intro t
  induction t with
  | zero =>
    intro bb h1 h2
    have hodd : bb % 2 = 1 := by
      rw [Nat.testBit_zero] at h1
      simpa using h1
    obtain ⟨k, hk⟩ : ∃ k, bb = 2 * k + 1 := ⟨bb / 2, by omega⟩
    have hk0 : k = 0 := by
      by_contra hkne
      obtain ⟨j, hj⟩ := exists_testBit hkne
      apply land_ne_zero_of_testBit (i := j + 1)
        (show bb.testBit (j + 1) = true by
          rw [Nat.testBit_succ]
          have : bb / 2 = k := by omega
          rw [this]; exact hj)
        (show (bb - 1).testBit (j + 1) = true by
          rw [Nat.testBit_succ]
          have : (bb - 1) / 2 = k := by omega
          rw [this]; exact hj)
      exact h2
    omega
  | succ t ih =>
    intro bb h1 h2
    have hbbne : bb ≠ 0 := testBit_ne_zero h1
    have heven : bb % 2 = 0 := by
      by_contra hodd
      have hb0 : bb.testBit 0 = true := by
        rw [Nat.testBit_zero]
        simp only [decide_eq_true_eq]
        omega
      have hkbit : (bb / 2).testBit t = true := by
        have := h1
        rwa [Nat.testBit_succ] at this
      apply land_ne_zero_of_testBit (i := t + 1) h1
        (show (bb - 1).testBit (t + 1) = true by
          rw [Nat.testBit_succ]
          have : (bb - 1) / 2 = bb / 2 := by omega
          rw [this]; exact hkbit)
      exact h2
    obtain ⟨k, hk⟩ : ∃ k, bb = 2 * k := ⟨bb / 2, by omega⟩
    have hkne : k ≠ 0 := by omega
    have hkbit : k.testBit t = true := by
      have := h1
      rw [Nat.testBit_succ] at this
      have hdiv : bb / 2 = k := by omega
      rwa [hdiv] at this
    have hkand : k &&& (k - 1) = 0 := by
      apply Nat.eq_of_testBit_eq
      intro j
      rw [Nat.zero_testBit, Nat.testBit_and]
      have hstep : (bb &&& (bb - 1)).testBit (j + 1) = false := by
        rw [h2, Nat.zero_testBit]
      rw [Nat.testBit_and] at hstep
      rw [Nat.testBit_succ, Nat.testBit_succ] at hstep
      have hd1 : bb / 2 = k := by omega
      have hd2 : (bb - 1) / 2 = k - 1 := by omega
      rwa [hd1, hd2] at hstep
    have hk2 : k = 2 ^ t := ih k hkbit hkand
    rw [hk, hk2]
    ring

/-- `countr_zero` of a one-bit word is the bit's index. -/
theorem ctz64_two_pow : ∀ t < 64, ctz64 64 (2 ^ t) = t := by decide

set_option maxRecDepth 10000 in
/-- Knight attacks are symmetric. -/
theorem knight_attacks_symm : ∀ f < 64, ∀ t < 64,
    (knight_attacks f).testBit t = (knight_attacks t).testBit f := by decide

set_option maxRecDepth 10000 in
/-- King attacks are symmetric. -/
theorem king_attacks_symm : ∀ f < 64, ∀ t < 64,
    (king_attacks f).testBit t = (king_attacks t).testBit f := by decide

set_option maxRecDepth 10000 in
/-- Pawn attacks are symmetric between the two colors. -/
theorem pawn_attacks_symm : ∀ c < 2, ∀ f < 64, ∀ t < 64,
    (pawn_attacks c f).testBit t = (pawn_attacks (opposite_color c) t).testBit f := by
  decide

end Chiron

namespace Chiron

/-- Completeness of `ray_walk`: a square `k` steps along the ray, on the
board and with all strictly earlier steps on the board and free of blockers,
gets its bit set. -/
theorem ray_walk_intro (blockers : Nat) (dr df : Int) :
    ∀ fuel k : Nat, ∀ r f : Int, 1 ≤ k → k ≤ fuel →
    (0 ≤ r + k * dr ∧ r + k * dr ≤ 7 ∧ 0 ≤ f + k * df ∧ f + k * df ≤ 7) →
    (∀ j : Nat, 1 ≤ j → j < k →
      (0 ≤ r + j * dr ∧ r + j * dr ≤ 7 ∧ 0 ≤ f + j * df ∧ f + j * df ≤ 7) ∧
      blockers &&& square_bb ((r + j * dr) * 8 + (f + j * df)).toNat = 0) →
    (ray_walk blockers dr df fuel r f).testBit
      ((r + k * dr) * 8 + (f + k * df)).toNat = true := by
  intro fuel
  induction fuel with
  | zero => intro k r f hk hkf; omega
  | succ fuel ih =>
    intro k r f hk hkf hend hmid
    rcases Nat.lt_or_ge k 2 with hk1 | hk2
    · have hkeq : k = 1 := by omega
      subst hkeq
      have hend' : 0 ≤ r + dr ∧ r + dr ≤ 7 ∧ 0 ≤ f + df ∧ f + df ≤ 7 := by
        push_cast at hend
        constructor
        · linarith [hend.1]
        constructor
        · linarith [hend.2.1]
        constructor
        · linarith [hend.2.2.1]
        · linarith [hend.2.2.2]
      have hsq : ((r + (1 : Nat) * dr) * 8 + (f + (1 : Nat) * df)).toNat =
          ((r + dr) * 8 + (f + df)).toNat := by
        push_cast
        ring_nf
      rw [hsq]
      simp only [ray_walk, if_pos hend']
      by_cases hb : blockers &&& square_bb ((r + dr) * 8 + (f + df)).toNat ≠ 0
      · rw [if_pos hb, testBit_square_bb]
        simp
      · rw [if_neg hb, Nat.testBit_or, testBit_square_bb]
        simp
    · have h1 := hmid 1 (by omega) (by omega)
      have hend1 : 0 ≤ r + dr ∧ r + dr ≤ 7 ∧ 0 ≤ f + df ∧ f + df ≤ 7 := by
        have := h1.1
        push_cast at this
        constructor
        · linarith [this.1]
        constructor
        · linarith [this.2.1]
        constructor
        · linarith [this.2.2.1]
        · linarith [this.2.2.2]
      have hclear1 : blockers &&& square_bb ((r + dr) * 8 + (f + df)).toNat = 0 := by
        have := h1.2
        have hsq : ((r + (1 : Nat) * dr) * 8 + (f + (1 : Nat) * df)).toNat =
            ((r + dr) * 8 + (f + df)).toNat := by
          push_cast
          ring_nf
        rwa [hsq] at this
      simp only [ray_walk, if_pos hend1, if_neg (not_not_intro hclear1)]
      rw [Nat.testBit_or]
      have hrec := ih (k - 1) (r + dr) (f + df) (by omega) (by omega)
        (by
          have hc : ((k - 1 : Nat) : Int) = (k : Int) - 1 := by omega
          rw [hc]
          constructor
          · have := hend.1; push_cast at this ⊢; linarith
          constructor
          · have := hend.2.1; push_cast at this ⊢; linarith
          constructor
          · have := hend.2.2.1; push_cast at this ⊢; linarith
          · have := hend.2.2.2; push_cast at this ⊢; linarith)
        (by
          intro j hj1 hjk
          have hj := hmid (j + 1) (by omega) (by omega)
          have hcoord1 : r + dr + (j : Int) * dr = r + ((j + 1 : Nat) : Int) * dr := by
            push_cast
            ring
          have hcoord2 : f + df + (j : Int) * df = f + ((j + 1 : Nat) : Int) * df := by
            push_cast
            ring
          rw [hcoord1, hcoord2]
          exact hj)
      have hcoordk : r + dr + ((k - 1 : Nat) : Int) * dr = r + (k : Int) * dr := by
        have hc : ((k - 1 : Nat) : Int) = (k : Int) - 1 := by omega
        rw [hc]
        ring
      have hcoordk2 : f + df + ((k - 1 : Nat) : Int) * df = f + (k : Int) * df := by
        have hc : ((k - 1 : Nat) : Int) = (k : Int) - 1 := by omega
        rw [hc]
        ring
      rw [hcoordk, hcoordk2] at hrec
      rw [hrec]
      simp

end Chiron

namespace Chiron

/-- Soundness of `ray_walk`: a set bit lies `k` steps along the ray, on the
board, with all strictly earlier steps on the board and free of blockers. -/
theorem ray_walk_elim (blockers : Nat) (dr df : Int) :
    ∀ fuel : Nat, ∀ r f : Int, ∀ t : Nat,
    (ray_walk blockers dr df fuel r f).testBit t = true →
    ∃ k : Nat, 1 ≤ k ∧ k ≤ fuel ∧
      (0 ≤ r + k * dr ∧ r + k * dr ≤ 7 ∧ 0 ≤ f + k * df ∧ f + k * df ≤ 7) ∧
      t = ((r + k * dr) * 8 + (f + k * df)).toNat ∧
      (∀ j : Nat, 1 ≤ j → j < k →
        (0 ≤ r + j * dr ∧ r + j * dr ≤ 7 ∧ 0 ≤ f + j * df ∧ f + j * df ≤ 7) ∧
        blockers &&& square_bb ((r + j * dr) * 8 + (f + j * df)).toNat = 0) := by
  intro fuel
  induction fuel with
  | zero =>
    intro r f t h
    rw [show ray_walk blockers dr df 0 r f = 0 from rfl, Nat.zero_testBit] at h
    exact absurd h (by simp)
  | succ fuel ih =>
    intro r f t h
    by_cases hb : 0 ≤ r + dr ∧ r + dr ≤ 7 ∧ 0 ≤ f + df ∧ f + df ≤ 7
    · simp only [ray_walk, if_pos hb] at h
      by_cases hblk : blockers &&& square_bb ((r + dr) * 8 + (f + df)).toNat ≠ 0
      · rw [if_pos hblk, testBit_square_bb, decide_eq_true_eq] at h
        refine ⟨1, by omega, by omega, ?_, ?_, by omega⟩
        · push_cast
          constructor
          · linarith [hb.1]
          constructor
          · linarith [hb.2.1]
          constructor
          · linarith [hb.2.2.1]
          · linarith [hb.2.2.2]
        · rw [h]
          congr 1 <;> push_cast <;> ring_nf
      · rw [if_neg hblk, Nat.testBit_or, Bool.or_eq_true] at h
        push_neg at hblk
        rcases h with h | h
        · rw [testBit_square_bb, decide_eq_true_eq] at h
          refine ⟨1, by omega, by omega, ?_, ?_, by omega⟩
          · push_cast
            constructor
            · linarith [hb.1]
            constructor
            · linarith [hb.2.1]
            constructor
            · linarith [hb.2.2.1]
            · linarith [hb.2.2.2]
          · rw [h]
            congr 1 <;> push_cast <;> ring_nf
        · obtain ⟨k, hk1, hkf, hkend, hkt, hkmid⟩ := ih (r + dr) (f + df) t h
          refine ⟨k + 1, by omega, by omega, ?_, ?_, ?_⟩
          · have hc : r + ((k + 1 : Nat) : Int) * dr = r + dr + (k : Int) * dr := by
              push_cast
              ring
            have hc2 : f + ((k + 1 : Nat) : Int) * df = f + df + (k : Int) * df := by
              push_cast
              ring
            rw [hc, hc2]
            exact hkend
          · have hc : r + ((k + 1 : Nat) : Int) * dr = r + dr + (k : Int) * dr := by
              push_cast
              ring
            have hc2 : f + ((k + 1 : Nat) : Int) * df = f + df + (k : Int) * df := by
              push_cast
              ring
            rw [hc, hc2]
            exact hkt
          · intro j hj1 hjk
            rcases Nat.lt_or_ge j 2 with hj2 | hj2
            · have hjeq : j = 1 := by omega
              subst hjeq
              constructor
              · push_cast
                constructor
                · linarith [hb.1]
                constructor
                · linarith [hb.2.1]
                constructor
                · linarith [hb.2.2.1]
                · linarith [hb.2.2.2]
              · have hsq : ((r + ((1 : Nat) : Int) * dr) * 8 +
                    (f + ((1 : Nat) : Int) * df)).toNat =
                    ((r + dr) * 8 + (f + df)).toNat := by
                  congr 1
                  push_cast
                  ring_nf
                rw [hsq]
                exact hblk
            · have hj := hkmid (j - 1) (by omega) (by omega)
              have hc : r + dr + ((j - 1 : Nat) : Int) * dr = r + (j : Int) * dr := by
                have : ((j - 1 : Nat) : Int) = (j : Int) - 1 := by omega
                rw [this]
                ring
              have hc2 : f + df + ((j - 1 : Nat) : Int) * df = f + (j : Int) * df := by
                have : ((j - 1 : Nat) : Int) = (j : Int) - 1 := by omega
                rw [this]
                ring
              rw [hc, hc2] at hj
              exact hj
    · simp only [ray_walk, if_neg hb] at h
      rw [Nat.zero_testBit] at h
      exact absurd h (by simp)

end Chiron

namespace Chiron

/-- Ray symmetry: a bit set by a ray from `fsq` sets the bit of `fsq` on the
opposite ray from the target, under the same blockers. -/
theorem ray_symm (blockers : Nat) (dr df : Int) {fsq tsq : Nat}
    (hf : fsq < 64) (ht : tsq < 64)
    (h : (ray_walk blockers dr df 7 ((fsq : Int) / 8) ((fsq : Int) % 8)).testBit tsq
      = true) :
    (ray_walk blockers (-dr) (-df) 7 ((tsq : Int) / 8) ((tsq : Int) % 8)).testBit fsq
      = true := by
  obtain ⟨k, hk1, hk7, hend, hteq, hmid⟩ := ray_walk_elim blockers dr df 7 _ _ tsq h
  have htint : (tsq : Int) = ((fsq : Int) / 8 + k * dr) * 8 + ((fsq : Int) % 8 + k * df) := by
    omega
  have htr : (tsq : Int) / 8 = (fsq : Int) / 8 + k * dr := by omega
  have htf : (tsq : Int) % 8 = (fsq : Int) % 8 + k * df := by omega
  have hres := ray_walk_intro blockers (-dr) (-df) 7 k ((tsq : Int) / 8) ((tsq : Int) % 8)
    hk1 hk7
    (by
      rw [htr, htf]
      constructor
      · have : (fsq : Int) / 8 + ↑k * dr + ↑k * -dr = (fsq : Int) / 8 := by ring
        rw [this]; omega
      constructor
      · have : (fsq : Int) / 8 + ↑k * dr + ↑k * -dr = (fsq : Int) / 8 := by ring
        rw [this]; omega
      constructor
      · have : (fsq : Int) % 8 + ↑k * df + ↑k * -df = (fsq : Int) % 8 := by ring
        rw [this]; omega
      · have : (fsq : Int) % 8 + ↑k * df + ↑k * -df = (fsq : Int) % 8 := by ring
        rw [this]; omega)
    (by
      intro j hj1 hjk
      have hmj := hmid (k - j) (by omega) (by omega)
      have hkj : ((k - j : Nat) : Int) = (k : Int) - (j : Int) := by omega
      rw [hkj] at hmj
      have hc1 : (tsq : Int) / 8 + (j : Int) * -dr =
          (fsq : Int) / 8 + ((k : Int) - (j : Int)) * dr := by
        rw [htr]; ring
      have hc2 : (tsq : Int) % 8 + (j : Int) * -df =
          (fsq : Int) % 8 + ((k : Int) - (j : Int)) * df := by
        rw [htf]; ring
      rw [hc1, hc2]
      exact hmj)
  have hc1 : (tsq : Int) / 8 + (k : Int) * -dr = (fsq : Int) / 8 := by
    rw [htr]; ring
  have hc2 : (tsq : Int) % 8 + (k : Int) * -df = (fsq : Int) % 8 := by
    rw [htf]; ring
  rw [hc1, hc2] at hres
  have hsq : (((fsq : Int) / 8) * 8 + (fsq : Int) % 8).toNat = fsq := by omega
  rwa [hsq] at hres

end Chiron

namespace Chiron

/-- Bishop attacks are symmetric under a fixed occupancy. -/
theorem bishop_attacks_symm {fsq tsq : Nat} (hf : fsq < 64) (ht : tsq < 64)
    (occ : Nat) (h : (bishop_attacks fsq occ).testBit tsq = true) :
    (bishop_attacks tsq occ).testBit fsq = true := by
  unfold bishop_attacks at h ⊢
  simp only [Nat.testBit_or, Bool.or_eq_true] at h ⊢
  rcases h with ((h | h) | h) | h
  · have := ray_symm occ 1 1 hf ht h
    simp only [neg_neg] at this
    tauto
  · have := ray_symm occ 1 (-1) hf ht h
    simp only [neg_neg] at this
    tauto
  · have := ray_symm occ (-1) 1 hf ht h
    simp only [neg_neg] at this
    tauto
  · have := ray_symm occ (-1) (-1) hf ht h
    simp only [neg_neg] at this
    tauto

/-- Rook attacks are symmetric under a fixed occupancy. -/
theorem rook_attacks_symm {fsq tsq : Nat} (hf : fsq < 64) (ht : tsq < 64)
    (occ : Nat) (h : (rook_attacks fsq occ).testBit tsq = true) :
    (rook_attacks tsq occ).testBit fsq = true := by
  unfold rook_attacks at h ⊢
  simp only [Nat.testBit_or, Bool.or_eq_true] at h ⊢
  rcases h with ((h | h) | h) | h
  · have := ray_symm occ 1 0 hf ht h
    simp only [neg_neg, neg_zero] at this
    tauto
  · have := ray_symm occ (-1) 0 hf ht h
    simp only [neg_neg, neg_zero] at this
    tauto
  · have := ray_symm occ 0 1 hf ht h
    simp only [neg_neg, neg_zero] at this
    tauto
  · have := ray_symm occ 0 (-1) hf ht h
    simp only [neg_neg, neg_zero] at this
    tauto

end Chiron

namespace Chiron

theorem mem_bit_list {bb s : Nat} : s ∈ bit_list bb ↔ s < 64 ∧ bb.testBit s = true := by
  unfold bit_list
  simp [List.mem_filter, List.mem_range]

theorem decode_color_lt {code : Nat} (h : code < 12) : decode_piece_color code < 2 := by
  unfold decode_piece_color
  omega

/-- A square with neither occupancy bit set is empty in the mailbox. -/
theorem mailbox_empty_of_no_occ {ps : PieceState} (hc : CohP ps) {s : Nat}
    (hs : s < 64) (h0 : (ps.occupancies 0).testBit s = false)
    (h1 : (ps.occupancies 1).testBit s = false) : ps.mailbox s = 12 := by
  by_contra hne
  have hle := hc.2.1 s hs
  have hlt : ps.mailbox s < 12 := by omega
  have hcol := decode_color_lt hlt
  have htyp := decode_type_lt hlt
  have hm := mailbox_decomp hlt
  have hbit := occupied_occ_bit hc hs hcol htyp hm
  have hcases : decode_piece_color (ps.mailbox s) = 0 ∨
      decode_piece_color (ps.mailbox s) = 1 := by omega
  rcases hcases with h | h
  · rw [h] at hbit
    rw [hbit] at h0
    exact absurd h0 (by simp)
  · rw [h] at hbit
    rw [hbit] at h1
    exact absurd h1 (by simp)

end Chiron

namespace Chiron

theorem attacked_pawn {b : Board} {us f t : Nat} (hus : us < 2) (hf : f < 64)
    (ht : t < 64) (hbit : (b.pieces us 0).testBit f = true)
    (hatk : (pawn_attacks us f).testBit t = true) :
    b.is_square_attacked t us = true := by
  have hsym := pawn_attacks_symm us hus f hf t ht
  rw [hsym] at hatk
  have h1 : pawn_attacks (opposite_color us) t &&& b.pieces us 0 ≠ 0 :=
    land_ne_zero_of_testBit hatk hbit
  unfold Board.is_square_attacked
  simp [h1]

theorem attacked_knight {b : Board} {us f t : Nat} (hf : f < 64) (ht : t < 64)
    (hbit : (b.pieces us 1).testBit f = true)
    (hatk : (knight_attacks f).testBit t = true) :
    b.is_square_attacked t us = true := by
  have hsym := knight_attacks_symm f hf t ht
  rw [hsym] at hatk
  have h1 : knight_attacks t &&& b.pieces us 1 ≠ 0 :=
    land_ne_zero_of_testBit hatk hbit
  unfold Board.is_square_attacked
  simp [h1]

theorem attacked_king {b : Board} {us f t : Nat} (hf : f < 64) (ht : t < 64)
    (hbit : (b.pieces us 5).testBit f = true)
    (hatk : (king_attacks f).testBit t = true) :
    b.is_square_attacked t us = true := by
  have hsym := king_attacks_symm f hf t ht
  rw [hsym] at hatk
  have h1 : king_attacks t &&& b.pieces us 5 ≠ 0 :=
    land_ne_zero_of_testBit hatk hbit
  unfold Board.is_square_attacked
  simp [h1]

theorem attacked_bishopish {b : Board} {us f t : Nat} (hf : f < 64) (ht : t < 64)
    (hbit : ((b.pieces us 2 ||| b.pieces us 4)).testBit f = true)
    (hatk : (bishop_attacks f b.occupancy_all).testBit t = true) :
    b.is_square_attacked t us = true := by
  have hatk' := bishop_attacks_symm hf ht b.occupancy_all hatk
  have h1 : bishop_attacks t b.occupancy_all &&& (b.pieces us 2 ||| b.pieces us 4) ≠ 0 :=
    land_ne_zero_of_testBit hatk' hbit
  unfold Board.is_square_attacked
  simp [h1]

theorem attacked_rookish {b : Board} {us f t : Nat} (hf : f < 64) (ht : t < 64)
    (hbit : ((b.pieces us 3 ||| b.pieces us 4)).testBit f = true)
    (hatk : (rook_attacks f b.occupancy_all).testBit t = true) :
    b.is_square_attacked t us = true := by
  have hatk' := rook_attacks_symm hf ht b.occupancy_all hatk
  have h1 : rook_attacks t b.occupancy_all &&& (b.pieces us 3 ||| b.pieces us 4) ≠ 0 :=
    land_ne_zero_of_testBit hatk' hbit
  unfold Board.is_square_attacked
  simp [h1]

/-- A pseudo-legal attack on the enemy king square contradicts the
well-formedness invariant that the side not to move is never in check. -/
theorem no_king_target {zt : ZTables} {b : Board} (hwf : WellFormed zt b)
    {t : Nat} (ht : t < 64)
    (hatk : b.is_square_attacked t b.side_to_move = true)
    (hk : (b.pieces (opposite_color b.side_to_move) 5).testBit t = true) : False := by
  obtain ⟨hcoh, hstm, hcast, hw1, hw2, hw3, hw4, hep, hkings, hchk, hz⟩ := hwf
  have hkk := hkings (opposite_color b.side_to_move) opposite_lt
  have hpow := single_bit t _ hk hkk.2
  unfold Board.in_check at hchk
  rw [hpow] at hchk
  have hne : (2 : Nat) ^ t ≠ 0 := by positivity
  rw [if_neg hne, ctz64_two_pow t ht, opposite_opposite hstm] at hchk
  rw [hatk] at hchk
  exact absurd hchk (by simp)

end Chiron

namespace Chiron

/-- Soundness of the shared knight/bishop/rook/queen/king move loop: every
emitted move satisfies `MoveOk`, given that the attack set cannot cover the
enemy king square (discharged per piece via attack symmetry). -/
theorem step_sound (zt : ZTables) {b : Board} (hwf : WellFormed zt b)
    {pt frm atk : Nat} {m : Move} (hpt : pt < 6)
    (hfr : frm ∈ bit_list (b.pieces b.side_to_move pt))
    (hm : m ∈ step_moves (b.occupancies (opposite_color b.side_to_move)) frm
      (atk &&& compl64 (b.occupancies b.side_to_move)))
    (hksym : ∀ t, t < 64 → atk.testBit t = true →
      (b.pieces (opposite_color b.side_to_move) 5).testBit t = true → False) :
    MoveOk b m := by
  have hcoh : CohP b.pstate := hwf.1
  have hstm : b.side_to_move < 2 := hwf.2.1
  rw [mem_bit_list] at hfr
  obtain ⟨hf64, hfbit⟩ := hfr
  unfold step_moves at hm
  rw [List.mem_map] at hm
  obtain ⟨t, htmem, hmeq⟩ := hm
  rw [mem_bit_list] at htmem
  obtain ⟨ht64, htbit⟩ := htmem
  rw [Nat.testBit_and, Bool.and_eq_true] at htbit
  obtain ⟨hatkbit, hcompl⟩ := htbit
  have hnofriend : (b.occupancies b.side_to_move).testBit t = false := by
    rw [testBit_compl64] at hcompl
    rcases Bool.eq_false_or_eq_true ((b.occupancies b.side_to_move).testBit t) with h | h
    · rw [h, decide_eq_true ht64] at hcompl
      exact absurd hcompl (by simp)
    · exact h
  have hmbf : b.pstate.mailbox frm = encode_piece b.side_to_move pt :=
    (hcoh.2.2.1 frm hf64 b.side_to_move hstm pt hpt).mp hfbit
  have hoccf : (b.pstate.occupancies b.side_to_move).testBit frm = true :=
    occupied_occ_bit hcoh hf64 hstm hpt hmbf
  have hneft : frm ≠ t := by
    intro h
    rw [h] at hoccf
    rw [show (b.pstate.occupancies b.side_to_move) = b.occupancies b.side_to_move
      from rfl, hnofriend] at hoccf
    exact absurd hoccf (by simp)
  have hmflt : b.mailbox frm < 12 := by
    have := hmbf
    rw [show b.pstate.mailbox frm = b.mailbox frm from rfl] at this
    rw [this]
    unfold encode_piece
    omega
  have hmfcol : decode_piece_color (b.mailbox frm) = b.side_to_move := by
    have := hmbf
    rw [show b.pstate.mailbox frm = b.mailbox frm from rfl] at this
    rw [this]
    exact decode_color_encode hstm hpt
  by_cases hcapt : b.occupancies (opposite_color b.side_to_move) &&& square_bb t ≠ 0
  · rw [if_pos hcapt] at hmeq
    subst hmeq
    have henemy : (b.occupancies (opposite_color b.side_to_move)).testBit t = true :=
      (land_square_bb_ne_zero _ t).mp hcapt
    obtain ⟨hmt12, hcolt⟩ := mailbox_of_occ_bit hcoh opposite_lt ht64 henemy
    have hmt12' : b.mailbox t < 12 := hmt12
    have hcolt' : decode_piece_color (b.mailbox t) = opposite_color b.side_to_move :=
      hcolt
    have htyp5 : decode_piece_type (b.mailbox t) ≠ 5 := by
      intro h5
      have hmt : b.pstate.mailbox t =
          encode_piece (opposite_color b.side_to_move) 5 := by
        show b.mailbox t = _
        conv_lhs => rw [mailbox_decomp hmt12']
        rw [hcolt', h5]
      have hk := occupied_bit hcoh ht64 opposite_lt (by omega) hmt
      exact hksym t ht64 hatkbit hk
    refine ⟨hstm, hf64, ht64, hneft, by simp [flagCapture], hmflt, hmfcol,
      ?_, ?_, ?_, ?_, ?_, ?_⟩
    · intro _ _
      exact ⟨hmt12', hcolt', htyp5⟩
    · intro h
      simp [Move.is_capture, flagCapture] at h
    · intro h
      simp [Move.is_en_passant, flagEnPassant, flagCapture] at h
    · intro h
      simp [Move.is_promotion, flagPromotion, flagCapture] at h
    · intro h
      simp [Move.is_castle, flagKingCastle, flagQueenCastle, flagCapture] at h
    · intro h
      simp [Move.is_double_pawn_push, flagDoublePush, flagCapture] at h
  · rw [if_neg hcapt] at hmeq
    subst hmeq
    have henemy : (b.occupancies (opposite_color b.side_to_move)).testBit t = false := by
      rcases Bool.eq_false_or_eq_true
        ((b.occupancies (opposite_color b.side_to_move)).testBit t) with h | h
      · exact absurd ((land_square_bb_ne_zero _ t).mpr h) hcapt
      · exact h
    have hmt12 : b.mailbox t = 12 := by
      have h0 : (b.pstate.occupancies 0).testBit t = false := by
        rcases (show b.side_to_move = 0 ∨ b.side_to_move = 1 by omega) with h | h
        · rw [show (0 : Nat) = b.side_to_move from h.symm]
          exact hnofriend
        · rw [show (0 : Nat) = opposite_color b.side_to_move by
            rw [h]; rfl]
          exact henemy
      have h1 : (b.pstate.occupancies 1).testBit t = false := by
        rcases (show b.side_to_move = 0 ∨ b.side_to_move = 1 by omega) with h | h
        · rw [show (1 : Nat) = opposite_color b.side_to_move by
            rw [h]; rfl]
          exact henemy
        · rw [show (1 : Nat) = b.side_to_move from h.symm]
          exact hnofriend
      exact mailbox_empty_of_no_occ hcoh ht64 h0 h1
    refine ⟨hstm, hf64, ht64, hneft, by simp, hmflt, hmfcol, ?_, ?_, ?_, ?_, ?_, ?_⟩
    · intro h
      simp [Move.is_capture, flagCapture] at h
    · intro _
      exact hmt12
    · intro h
      simp [Move.is_en_passant, flagEnPassant] at h
    · intro h
      simp [Move.is_promotion, flagPromotion] at h
    · intro h
      simp [Move.is_castle, flagKingCastle, flagQueenCastle] at h
    · intro h
      simp [Move.is_double_pawn_push, flagDoublePush] at h

end Chiron

namespace Chiron

/-- `MoveOk` for the non-en-passant pawn capture targets. -/
theorem pawn_capture_target_sound (zt : ZTables) {b : Board} (hwf : WellFormed zt b)
    {frm t : Nat} (hf64 : frm < 64)
    (hfbit : (b.pieces b.side_to_move 0).testBit frm = true)
    (htmem : t ∈ bit_list (pawn_attacks b.side_to_move frm &&&
      b.occupancies (opposite_color b.side_to_move))) :
    t < 64 ∧ frm ≠ t ∧ b.mailbox t < 12 ∧
      decode_piece_color (b.mailbox t) = opposite_color b.side_to_move ∧
      decode_piece_type (b.mailbox t) ≠ 5 := by
  have hcoh : CohP b.pstate := hwf.1
  have hstm : b.side_to_move < 2 := hwf.2.1
  rw [mem_bit_list, Nat.testBit_and, Bool.and_eq_true] at htmem
  obtain ⟨ht64, hatkbit, henemy⟩ := htmem
  obtain ⟨hmt12, hcolt⟩ := mailbox_of_occ_bit hcoh opposite_lt ht64 henemy
  have hmt12' : b.mailbox t < 12 := hmt12
  have hcolt' : decode_piece_color (b.mailbox t) = opposite_color b.side_to_move := hcolt
  have hmbf : b.pstate.mailbox frm = encode_piece b.side_to_move 0 :=
    (hcoh.2.2.1 frm hf64 b.side_to_move hstm 0 (by omega)).mp hfbit
  refine ⟨ht64, ?_, hmt12', hcolt', ?_⟩
  · intro h
    have : decode_piece_color (b.mailbox t) = b.side_to_move := by
      rw [← h]
      show decode_piece_color (b.pstate.mailbox frm) = _
      rw [hmbf]
      exact decode_color_encode hstm (by omega)
    rw [hcolt'] at this
    exact opposite_ne hstm this
  · intro h5
    have hmt : b.pstate.mailbox t = encode_piece (opposite_color b.side_to_move) 5 := by
      show b.mailbox t = _
      conv_lhs => rw [mailbox_decomp hmt12']
      rw [hcolt', h5]
    have hk := occupied_bit hcoh ht64 opposite_lt (by omega) hmt
    exact no_king_target hwf ht64
      (attacked_pawn hstm hf64 ht64 hfbit hatkbit) hk

end Chiron

namespace Chiron

/-- `MoveOk` assembly for a quiet pawn push. -/
theorem moveok_quiet (b : Board) {frm T : Nat} (hstm : b.side_to_move < 2)
    (hf64 : frm < 64) (hT64 : T < 64) (hne : frm ≠ T)
    (hmflt : b.mailbox frm < 12)
    (hmfcol : decode_piece_color (b.mailbox frm) = b.side_to_move)
    (hmte : b.mailbox T = 12) :
    MoveOk b { fromSq := frm, toSq := T, promotion := 6, flags := 0 } := by
  refine ⟨hstm, hf64, hT64, hne, by simp, hmflt, hmfcol, ?_, ?_, ?_, ?_, ?_, ?_⟩
  · intro h _
    simp [Move.is_capture, flagCapture] at h
  · intro _
    exact hmte
  · intro h
    simp [Move.is_en_passant, flagEnPassant] at h
  · intro h
    simp [Move.is_promotion, flagPromotion] at h
  · intro h
    simp [Move.is_castle, flagKingCastle, flagQueenCastle] at h
  · intro h
    simp [Move.is_double_pawn_push, flagDoublePush] at h

/-- `MoveOk` assembly for a quiet promotion. -/
theorem moveok_promo (b : Board) {frm T p : Nat} (hstm : b.side_to_move < 2)
    (hf64 : frm < 64) (hT64 : T < 64) (hne : frm ≠ T)
    (hmflt : b.mailbox frm < 12)
    (hmfcol : decode_piece_color (b.mailbox frm) = b.side_to_move)
    (htype0 : decode_piece_type (b.mailbox frm) = 0)
    (hp : 1 ≤ p ∧ p < 5)
    (hmte : b.mailbox T = 12) :
    MoveOk b { fromSq := frm, toSq := T, promotion := p, flags := flagPromotion } := by
  refine ⟨hstm, hf64, hT64, hne, by simp [flagPromotion], hmflt, hmfcol,
    ?_, ?_, ?_, ?_, ?_, ?_⟩
  · intro h _
    simp [Move.is_capture, flagCapture, flagPromotion,
      show (32 : Nat) &&& 1 = 0 from by decide] at h
  · intro _
    exact hmte
  · intro h
    simp [Move.is_en_passant, flagEnPassant, flagPromotion,
      show (32 : Nat) &&& 16 = 0 from by decide] at h
  · intro _
    exact ⟨htype0, hp.1, hp.2⟩
  · intro h
    simp [Move.is_castle, flagKingCastle, flagQueenCastle, flagPromotion,
      show (32 : Nat) &&& (4 ||| 8) = 0 from by decide,
      show (32 : Nat) &&& 12 = 0 from by decide] at h
  · intro h
    simp [Move.is_double_pawn_push, flagDoublePush, flagPromotion,
      show (32 : Nat) &&& 2 = 0 from by decide] at h

/-- `MoveOk` assembly for a pawn capture. -/
theorem moveok_pawn_capture (b : Board) {frm T : Nat} (hstm : b.side_to_move < 2)
    (hf64 : frm < 64) (hT64 : T < 64) (hne : frm ≠ T)
    (hmflt : b.mailbox frm < 12)
    (hmfcol : decode_piece_color (b.mailbox frm) = b.side_to_move)
    (hmt12 : b.mailbox T < 12)
    (hcolt : decode_piece_color (b.mailbox T) = opposite_color b.side_to_move)
    (htyp5 : decode_piece_type (b.mailbox T) ≠ 5) :
    MoveOk b { fromSq := frm, toSq := T, promotion := 6, flags := flagCapture } := by
  refine ⟨hstm, hf64, hT64, hne, by simp [flagCapture], hmflt, hmfcol,
    ?_, ?_, ?_, ?_, ?_, ?_⟩
  · intro _ _
    exact ⟨hmt12, hcolt, htyp5⟩
  · intro h
    simp [Move.is_capture, flagCapture] at h
  · intro h
    simp [Move.is_en_passant, flagEnPassant, flagCapture] at h
  · intro h
    simp [Move.is_promotion, flagPromotion, flagCapture] at h
  · intro h
    simp [Move.is_castle, flagKingCastle, flagQueenCastle, flagCapture] at h
  · intro h
    simp [Move.is_double_pawn_push, flagDoublePush, flagCapture] at h

/-- `MoveOk` assembly for a capturing promotion. -/
theorem moveok_promo_capture (b : Board) {frm T p : Nat} (hstm : b.side_to_move < 2)
    (hf64 : frm < 64) (hT64 : T < 64) (hne : frm ≠ T)
    (hmflt : b.mailbox frm < 12)
    (hmfcol : decode_piece_color (b.mailbox frm) = b.side_to_move)
    (htype0 : decode_piece_type (b.mailbox frm) = 0)
    (hp : 1 ≤ p ∧ p < 5)
    (hmt12 : b.mailbox T < 12)
    (hcolt : decode_piece_color (b.mailbox T) = opposite_color b.side_to_move)
    (htyp5 : decode_piece_type (b.mailbox T) ≠ 5) :
    MoveOk b
      { fromSq := frm, toSq := T, promotion := p,
        flags := flagPromotion ||| flagCapture } := by
  refine ⟨hstm, hf64, hT64, hne, by simp [flagPromotion, flagCapture], hmflt, hmfcol,
    ?_, ?_, ?_, ?_, ?_, ?_⟩
  · intro _ _
    exact ⟨hmt12, hcolt, htyp5⟩
  · intro h
    simp [Move.is_capture, flagCapture, flagPromotion,
      show ((32 ||| 1 : Nat)) &&& 1 = 1 from by decide,
      show (33 : Nat) &&& 1 = 1 from by decide] at h
  · intro h
    simp [Move.is_en_passant, flagEnPassant, flagCapture, flagPromotion,
      show ((32 ||| 1 : Nat)) &&& 16 = 0 from by decide,
      show (33 : Nat) &&& 16 = 0 from by decide] at h
  · intro _
    exact ⟨htype0, hp.1, hp.2⟩
  · intro h
    simp [Move.is_castle, flagKingCastle, flagQueenCastle, flagCapture,
      flagPromotion, show ((32 ||| 1 : Nat)) &&& (4 ||| 8) = 0 from by decide,
      show (33 : Nat) &&& 12 = 0 from by decide] at h
  · intro h
    simp [Move.is_double_pawn_push, flagDoublePush, flagCapture, flagPromotion,
      show ((32 ||| 1 : Nat)) &&& 2 = 0 from by decide,
      show (33 : Nat) &&& 2 = 0 from by decide] at h

end Chiron

namespace Chiron

/-- `MoveOk` assembly for a double pawn push. -/
theorem moveok_double (b : Board) {frm T : Nat} (hstm : b.side_to_move < 2)
    (hf64 : frm < 64) (hT64 : T < 64) (hne : frm ≠ T)
    (hmflt : b.mailbox frm < 12)
    (hmfcol : decode_piece_color (b.mailbox frm) = b.side_to_move)
    (htype0 : decode_piece_type (b.mailbox frm) = 0)
    (hmte : b.mailbox T = 12)
    (hw : b.side_to_move = 0 →
      8 ≤ frm ∧ frm < 16 ∧ T = frm + 16 ∧ b.mailbox (frm + 8) = 12)
    (hb : b.side_to_move = 1 →
      48 ≤ frm ∧ frm < 56 ∧ T + 16 = frm ∧ b.mailbox (frm - 8) = 12) :
    MoveOk b { fromSq := frm, toSq := T, promotion := 6, flags := flagDoublePush } := by
  refine ⟨hstm, hf64, hT64, hne, by simp [flagDoublePush], hmflt, hmfcol,
    ?_, ?_, ?_, ?_, ?_, ?_⟩
  · intro h _
    simp [Move.is_capture, flagCapture, flagDoublePush,
      show (2 : Nat) &&& 1 = 0 from by decide] at h
  · intro _
    exact hmte
  · intro h
    simp [Move.is_en_passant, flagEnPassant, flagDoublePush,
      show (2 : Nat) &&& 16 = 0 from by decide] at h
  · intro h
    simp [Move.is_promotion, flagPromotion, flagDoublePush,
      show (2 : Nat) &&& 32 = 0 from by decide] at h
  · intro h
    simp [Move.is_castle, flagKingCastle, flagQueenCastle, flagDoublePush,
      show (2 : Nat) &&& (4 ||| 8) = 0 from by decide,
      show (2 : Nat) &&& 12 = 0 from by decide] at h
  · intro _
    exact ⟨htype0, hw, hb⟩

/-- `MoveOk` assembly for an en-passant capture. -/
theorem moveok_ep (b : Board) {frm T : Nat} (hstm : b.side_to_move < 2)
    (hf64 : frm < 64) (hT64 : T < 64) (hne : frm ≠ T)
    (hmflt : b.mailbox frm < 12)
    (hmfcol : decode_piece_color (b.mailbox frm) = b.side_to_move)
    (htype0 : decode_piece_type (b.mailbox frm) = 0)
    (hmte : b.mailbox T = 12)
    (hcsq64 : ep_capture_square b.side_to_move T < 64)
    (hcsqf : ep_capture_square b.side_to_move T ≠ frm)
    (hcsqt : ep_capture_square b.side_to_move T ≠ T)
    (hcsqmb : b.mailbox (ep_capture_square b.side_to_move T) =
      encode_piece (opposite_color b.side_to_move) 0) :
    MoveOk b
      { fromSq := frm, toSq := T, promotion := 6,
        flags := flagCapture ||| flagEnPassant } := by
  refine ⟨hstm, hf64, hT64, hne, by simp [flagCapture, flagEnPassant], hmflt, hmfcol,
    ?_, ?_, ?_, ?_, ?_, ?_⟩
  · intro _ h2
    simp [Move.is_en_passant, flagEnPassant, flagCapture,
      show ((1 ||| 16 : Nat)) &&& 16 = 16 from by decide,
      show (17 : Nat) &&& 16 = 16 from by decide] at h2
  · intro h
    simp [Move.is_capture, flagCapture, flagEnPassant,
      show ((1 ||| 16 : Nat)) &&& 1 = 1 from by decide,
      show (17 : Nat) &&& 1 = 1 from by decide] at h
  · intro _
    exact ⟨hmte, hcsq64, hcsqf, hcsqt, hcsqmb, htype0⟩
  · intro h
    simp [Move.is_promotion, flagPromotion, flagCapture, flagEnPassant,
      show ((1 ||| 16 : Nat)) &&& 32 = 0 from by decide,
      show (17 : Nat) &&& 32 = 0 from by decide] at h
  · intro h
    simp [Move.is_castle, flagKingCastle, flagQueenCastle, flagCapture, flagEnPassant,
      show ((1 ||| 16 : Nat)) &&& (4 ||| 8) = 0 from by decide,
      show (17 : Nat) &&& 12 = 0 from by decide] at h
  · intro h
    simp [Move.is_double_pawn_push, flagDoublePush, flagCapture, flagEnPassant,
      show ((1 ||| 16 : Nat)) &&& 2 = 0 from by decide,
      show (17 : Nat) &&& 2 = 0 from by decide] at h

end Chiron

namespace Chiron

/-- Soundness of the pawn block of the pseudo-legal generator. -/
theorem pawn_sound (zt : ZTables) {b : Board} (hwf : WellFormed zt b)
    {frm : Nat} {m : Move}
    (hfr : frm ∈ bit_list (b.pieces b.side_to_move 0))
    (hm : m ∈ pawn_moves_from b b.side_to_move
      (b.occupancies (opposite_color b.side_to_move)) frm) :
    MoveOk b m := by
  have hcoh : CohP b.pstate := hwf.1
  have hstm : b.side_to_move < 2 := hwf.2.1
  obtain ⟨_, _, _, _, _, _, _, hepwf, _, _, _⟩ := id hwf
  rw [mem_bit_list] at hfr
  obtain ⟨hf64, hfbit⟩ := hfr
  have hmbf : b.pstate.mailbox frm = encode_piece b.side_to_move 0 :=
    (hcoh.2.2.1 frm hf64 b.side_to_move hstm 0 (by omega)).mp hfbit
  have hmflt : b.mailbox frm < 12 := by
    show b.pstate.mailbox frm < 12
    rw [hmbf]
    unfold encode_piece
    omega
  have hmfcol : decode_piece_color (b.mailbox frm) = b.side_to_move := by
    show decode_piece_color (b.pstate.mailbox frm) = _
    rw [hmbf]
    exact decode_color_encode hstm (by omega)
  have htype0 : decode_piece_type (b.mailbox frm) = 0 := by
    show decode_piece_type (b.pstate.mailbox frm) = 0
    rw [hmbf]
    exact decode_type_encode hstm (by omega)
  unfold pawn_moves_from at hm
  rcases (show b.side_to_move = 0 ∨ b.side_to_move = 1 by omega) with hus | hus
  · rw [hus] at hm
    norm_num [opposite_color] at hm
    rcases hm with ⟨⟨hge, hlt, hpta⟩, hpush⟩ | ⟨a, hamem, hcap⟩ | ⟨⟨hepne, hepatk⟩, hmeq⟩
    · have hT : ((frm : Int) + 8).toNat = frm + 8 := by omega
      rw [hT] at hpush hpta
      have hT64 : frm + 8 < 64 := by omega
      have hmte : b.mailbox (frm + 8) = 12 :=
        pta_empty hT64 (hcoh.2.1 _ hT64) hpta
      by_cases hpr : frm / 8 = 6
      · rw [if_pos hpr] at hpush
        unfold add_promotion_moves at hpush
        rw [List.mem_map] at hpush
        obtain ⟨p, hpmem, rfl⟩ := hpush
        simp at hpmem
        exact moveok_promo b hstm hf64 hT64 (by omega) hmflt hmfcol htype0
          ⟨by rcases hpmem with rfl | rfl | rfl | rfl <;> omega,
           by rcases hpmem with rfl | rfl | rfl | rfl <;> omega⟩ hmte
      · rw [if_neg hpr] at hpush
        by_cases hdb : frm / 8 = 1 ∧ b.piece_type_at (frm + 16) = 6
        · rw [if_pos hdb] at hpush
          simp at hpush
          rcases hpush with rfl | rfl
          · exact moveok_quiet b hstm hf64 hT64 (by omega) hmflt hmfcol hmte
          · have hd64 : frm + 16 < 64 := by omega
            have hmte2 : b.mailbox (frm + 16) = 12 :=
              pta_empty hd64 (hcoh.2.1 _ hd64) hdb.2
            exact moveok_double b hstm hf64 hd64 (by omega) hmflt hmfcol htype0 hmte2
              (fun _ => ⟨by omega, by omega, rfl, hmte⟩)
              (fun h1 => by omega)
        · rw [if_neg hdb] at hpush
          simp at hpush
          subst hpush
          exact moveok_quiet b hstm hf64 hT64 (by omega) hmflt hmfcol hmte
    · have hamem' : a ∈ bit_list (pawn_attacks b.side_to_move frm &&&
          b.occupancies (opposite_color b.side_to_move)) := by
        rw [hus]
        exact hamem
      obtain ⟨ht64, hneft, hmt12, hcolt, htyp5⟩ :=
        pawn_capture_target_sound zt hwf hf64 hfbit hamem'
      by_cases hpr : frm / 8 = 6
      · rw [if_pos hpr] at hcap
        unfold add_promotion_moves at hcap
        rw [List.mem_map] at hcap
        obtain ⟨p, hpmem, rfl⟩ := hcap
        simp at hpmem
        exact moveok_promo_capture b hstm hf64 ht64 hneft hmflt hmfcol htype0
          ⟨by rcases hpmem with rfl | rfl | rfl | rfl <;> omega,
           by rcases hpmem with rfl | rfl | rfl | rfl <;> omega⟩ hmt12 hcolt htyp5
      · rw [if_neg hpr] at hcap
        simp at hcap
        subst hcap
        exact moveok_pawn_capture b hstm hf64 ht64 hneft hmflt hmfcol hmt12 hcolt htyp5
    · subst hmeq
      obtain ⟨h40, h48, hcsqmb6, htmb⟩ := (hepwf hepne).1 hus
      have hT64 : b.en_passant_square.toNat < 64 := by omega
      have hne : frm ≠ b.en_passant_square.toNat := by
        intro h
        rw [h, htmb] at hmflt
        omega
      have hcsq : ep_capture_square b.side_to_move b.en_passant_square.toNat =
          b.en_passant_square.toNat - 8 := by
        rw [hus]
        rfl
      have hmbf0 : b.mailbox frm = 0 := by
        have := hmbf
        rw [hus] at this
        exact this
      exact moveok_ep b hstm hf64 hT64 hne hmflt hmfcol htype0 htmb
        (by rw [hcsq]; omega)
        (by
          rw [hcsq]
          intro h
          rw [h, hmbf0] at hcsqmb6
          omega)
        (by rw [hcsq]; omega)
        (by
          rw [hcsq, hus]
          exact hcsqmb6)
  · rw [hus] at hm
    norm_num [opposite_color] at hm
    rcases hm with ⟨⟨hge, hlt, hpta⟩, hpush⟩ | ⟨a, hamem, hcap⟩ | ⟨⟨hepne, hepatk⟩, hmeq⟩
    · have hT : ((frm : Int) + -8).toNat = frm - 8 := by omega
      rw [hT] at hpush hpta
      have hT64 : frm - 8 < 64 := by omega
      have hmte : b.mailbox (frm - 8) = 12 :=
        pta_empty hT64 (hcoh.2.1 _ hT64) hpta
      by_cases hpr : frm / 8 = 1
      · rw [if_pos hpr] at hpush
        unfold add_promotion_moves at hpush
        rw [List.mem_map] at hpush
        obtain ⟨p, hpmem, rfl⟩ := hpush
        simp at hpmem
        exact moveok_promo b hstm hf64 hT64 (by omega) hmflt hmfcol htype0
          ⟨by rcases hpmem with rfl | rfl | rfl | rfl <;> omega,
           by rcases hpmem with rfl | rfl | rfl | rfl <;> omega⟩ hmte
      · rw [if_neg hpr] at hpush
        by_cases hdb : frm / 8 = 6 ∧ b.piece_type_at (frm - 16) = 6
        · rw [if_pos hdb] at hpush
          simp at hpush
          rcases hpush with rfl | rfl
          · exact moveok_quiet b hstm hf64 hT64 (by omega) hmflt hmfcol hmte
          · have hd64 : frm - 16 < 64 := by omega
            have hmte2 : b.mailbox (frm - 16) = 12 :=
              pta_empty hd64 (hcoh.2.1 _ hd64) hdb.2
            exact moveok_double b hstm hf64 hd64 (by omega) hmflt hmfcol htype0 hmte2
              (fun h0 => by omega)
              (fun _ => ⟨by omega, by omega, by omega, hmte⟩)
        · rw [if_neg hdb] at hpush
          simp at hpush
          subst hpush
          exact moveok_quiet b hstm hf64 hT64 (by omega) hmflt hmfcol hmte
    · have hamem' : a ∈ bit_list (pawn_attacks b.side_to_move frm &&&
          b.occupancies (opposite_color b.side_to_move)) := by
        rw [hus]
        exact hamem
      obtain ⟨ht64, hneft, hmt12, hcolt, htyp5⟩ :=
        pawn_capture_target_sound zt hwf hf64 hfbit hamem'
      by_cases hpr : frm / 8 = 1
      · rw [if_pos hpr] at hcap
        unfold add_promotion_moves at hcap
        rw [List.mem_map] at hcap
        obtain ⟨p, hpmem, rfl⟩ := hcap
        simp at hpmem
        exact moveok_promo_capture b hstm hf64 ht64 hneft hmflt hmfcol htype0
          ⟨by rcases hpmem with rfl | rfl | rfl | rfl <;> omega,
           by rcases hpmem with rfl | rfl | rfl | rfl <;> omega⟩ hmt12 hcolt htyp5
      · rw [if_neg hpr] at hcap
        simp at hcap
        subst hcap
        exact moveok_pawn_capture b hstm hf64 ht64 hneft hmflt hmfcol hmt12 hcolt htyp5
    · subst hmeq
      obtain ⟨h16, h24, hcsqmb0, htmb⟩ := (hepwf hepne).2 hus
      have hT64 : b.en_passant_square.toNat < 64 := by omega
      have hne : frm ≠ b.en_passant_square.toNat := by
        intro h
        rw [h, htmb] at hmflt
        omega
      have hcsq : ep_capture_square b.side_to_move b.en_passant_square.toNat =
          b.en_passant_square.toNat + 8 := by
        rw [hus]
        rfl
      have hmbf6 : b.mailbox frm = 6 := by
        have := hmbf
        rw [hus] at this
        exact this
      exact moveok_ep b hstm hf64 hT64 hne hmflt hmfcol htype0 htmb
        (by rw [hcsq]; omega)
        (by
          rw [hcsq]
          intro h
          rw [h, hmbf6] at hcsqmb0
          omega)
        (by rw [hcsq]; omega)
        (by
          rw [hcsq, hus]
          exact hcsqmb0)

end Chiron

namespace Chiron

/-- `MoveOk` assembly for a castling move. -/
theorem moveok_castle (b : Board) {frm T fl : Nat} (hstm : b.side_to_move < 2)
    (hf64 : frm < 64) (hT64 : T < 64) (hne : frm ≠ T)
    (hfl : fl = flagKingCastle ∨ fl = flagQueenCastle)
    (hmflt : b.mailbox frm < 12)
    (hmfcol : decode_piece_color (b.mailbox frm) = b.side_to_move)
    (htype5 : decode_piece_type (b.mailbox frm) = 5)
    (hmte : b.mailbox T = 12)
    (hrf : b.mailbox (castle_rook_from b.side_to_move fl) =
      encode_piece b.side_to_move 3)
    (hrt : b.mailbox (castle_rook_to b.side_to_move fl) = 12)
    (hne1 : castle_rook_from b.side_to_move fl ≠ frm)
    (hne2 : castle_rook_from b.side_to_move fl ≠ T)
    (hne3 : castle_rook_to b.side_to_move fl ≠ frm)
    (hne4 : castle_rook_to b.side_to_move fl ≠ T) :
    MoveOk b { fromSq := frm, toSq := T, promotion := 6, flags := fl } := by
  rcases hfl with rfl | rfl
  · refine ⟨hstm, hf64, hT64, hne, by simp [flagKingCastle], hmflt, hmfcol,
      ?_, ?_, ?_, ?_, ?_, ?_⟩
    · intro h _
      simp [Move.is_capture, flagCapture, flagKingCastle,
        show (4 : Nat) &&& 1 = 0 from by decide] at h
    · intro _
      exact hmte
    · intro h
      simp [Move.is_en_passant, flagEnPassant, flagKingCastle,
        show (4 : Nat) &&& 16 = 0 from by decide] at h
    · intro h
      simp [Move.is_promotion, flagPromotion, flagKingCastle,
        show (4 : Nat) &&& 32 = 0 from by decide] at h
    · intro _
      exact ⟨htype5, hrf, hrt, hne1, hne2, hne3, hne4⟩
    · intro h
      simp [Move.is_double_pawn_push, flagDoublePush, flagKingCastle,
        show (4 : Nat) &&& 2 = 0 from by decide] at h
  · refine ⟨hstm, hf64, hT64, hne, by simp [flagQueenCastle], hmflt, hmfcol,
      ?_, ?_, ?_, ?_, ?_, ?_⟩
    · intro h _
      simp [Move.is_capture, flagCapture, flagQueenCastle,
        show (8 : Nat) &&& 1 = 0 from by decide] at h
    · intro _
      exact hmte
    · intro h
      simp [Move.is_en_passant, flagEnPassant, flagQueenCastle,
        show (8 : Nat) &&& 16 = 0 from by decide] at h
    · intro h
      simp [Move.is_promotion, flagPromotion, flagQueenCastle,
        show (8 : Nat) &&& 32 = 0 from by decide] at h
    · intro _
      exact ⟨htype5, hrf, hrt, hne1, hne2, hne3, hne4⟩
    · intro h
      simp [Move.is_double_pawn_push, flagDoublePush, flagQueenCastle,
        show (8 : Nat) &&& 2 = 0 from by decide] at h

end Chiron

namespace Chiron

/-- Soundness of the castling block of the pseudo-legal generator. -/
theorem castle_sound (zt : ZTables) {b : Board} (hwf : WellFormed zt b)
    {frm : Nat} {m : Move}
    (hfr : frm ∈ bit_list (b.pieces b.side_to_move 5))
    (hm : m ∈ castle_moves b b.side_to_move (opposite_color b.side_to_move) frm) :
    MoveOk b m := by
  have hcoh : CohP b.pstate := hwf.1
  have hstm : b.side_to_move < 2 := hwf.2.1
  obtain ⟨_, _, _, hw1, hw2, hw3, hw4, _, hkings, _, _⟩ := id hwf
  rw [mem_bit_list] at hfr
  obtain ⟨hf64, hfbit⟩ := hfr
  unfold castle_moves at hm
  by_cases hchk : b.in_check b.side_to_move = true
  · rw [if_neg (not_not_intro hchk)] at hm
    simp at hm
  · rw [if_pos hchk] at hm
    rcases (show b.side_to_move = 0 ∨ b.side_to_move = 1 by omega) with hus | hus
    · rw [hus] at hm
      rw [if_pos rfl, List.mem_append] at hm
      have hk4 : (b.pieces 0 5).testBit 4 = true → b.pieces 0 5 = 2 ^ 4 :=
        fun h => single_bit 4 _ h (hkings 0 (by omega)).2
      rcases hm with hmk | hmq
      · by_cases hck : b.castling_rights &&& kWhiteKingCastle ≠ 0 ∧
            b.piece_type_at 5 = 6 ∧ b.piece_type_at 6 = 6 ∧
            ¬ b.is_square_attacked 5 (opposite_color 0) = true ∧
            ¬ b.is_square_attacked 6 (opposite_color 0) = true
        · rw [if_pos hck] at hmk
          simp at hmk
          subst hmk
          obtain ⟨hr, hpta5, hpta6, _, _⟩ := hck
          have hrbit : b.castling_rights.testBit 0 = true := by
            apply (land_square_bb_ne_zero b.castling_rights 0).mp
            rwa [show square_bb 0 = kWhiteKingCastle from by decide]
          obtain ⟨hmb4, hmb7⟩ := hw1 hrbit
          have hbit4 : (b.pieces 0 5).testBit 4 = true :=
            occupied_bit hcoh (by omega) (by omega) (by omega)
              (show b.pstate.mailbox 4 = encode_piece 0 5 from hmb4)
          have hpow := hk4 hbit4
          have hfrm4 : frm = 4 := by
            have := hfbit
            rw [hus, hpow, Nat.testBit_two_pow] at this
            simp at this
            omega
          subst hfrm4
          refine moveok_castle b hstm (by omega) (by omega) (by omega)
            (Or.inl rfl) ?_ ?_ ?_ ?_ ?_ ?_ ?_ ?_ ?_ ?_
          · rw [hmb4]
            omega
          · rw [hmb4, hus]
            decide
          · rw [hmb4]
            decide
          · exact pta_empty (by omega) (hcoh.2.1 6 (by omega)) hpta6
          · rw [hus]
            exact hmb7
          · rw [hus]
            exact pta_empty (by decide) (hcoh.2.1 _ (by decide)) hpta5
          · rw [hus]
            decide
          · rw [hus]
            decide
          · rw [hus]
            decide
          · rw [hus]
            decide
        · rw [if_neg hck] at hmk
          simp at hmk
      · by_cases hck : b.castling_rights &&& kWhiteQueenCastle ≠ 0 ∧
            b.piece_type_at 3 = 6 ∧ b.piece_type_at 2 = 6 ∧ b.piece_type_at 1 = 6 ∧
            ¬ b.is_square_attacked 3 (opposite_color 0) = true ∧
            ¬ b.is_square_attacked 2 (opposite_color 0) = true
        · rw [if_pos hck] at hmq
          simp at hmq
          subst hmq
          obtain ⟨hr, hpta3, hpta2, hpta1, _, _⟩ := hck
          have hrbit : b.castling_rights.testBit 1 = true := by
            apply (land_square_bb_ne_zero b.castling_rights 1).mp
            rwa [show square_bb 1 = kWhiteQueenCastle from by decide]
          obtain ⟨hmb4, hmb0⟩ := hw2 hrbit
          have hbit4 : (b.pieces 0 5).testBit 4 = true :=
            occupied_bit hcoh (by omega) (by omega) (by omega)
              (show b.pstate.mailbox 4 = encode_piece 0 5 from hmb4)
          have hpow := hk4 hbit4
          have hfrm4 : frm = 4 := by
            have := hfbit
            rw [hus, hpow, Nat.testBit_two_pow] at this
            simp at this
            omega
          subst hfrm4
          refine moveok_castle b hstm (by omega) (by omega) (by omega)
            (Or.inr rfl) ?_ ?_ ?_ ?_ ?_ ?_ ?_ ?_ ?_ ?_
          · rw [hmb4]
            omega
          · rw [hmb4, hus]
            decide
          · rw [hmb4]
            decide
          · exact pta_empty (by omega) (hcoh.2.1 2 (by omega)) hpta2
          · rw [hus]
            exact hmb0
          · rw [hus]
            exact pta_empty (by decide) (hcoh.2.1 _ (by decide)) hpta3
          · rw [hus]
            decide
          · rw [hus]
            decide
          · rw [hus]
            decide
          · rw [hus]
            decide
        · rw [if_neg hck] at hmq
          simp at hmq
    · rw [hus] at hm
      rw [if_neg (by omega), List.mem_append] at hm
      have hk60 : (b.pieces 1 5).testBit 60 = true → b.pieces 1 5 = 2 ^ 60 :=
        fun h => single_bit 60 _ h (hkings 1 (by omega)).2
      rcases hm with hmk | hmq
      · by_cases hck : b.castling_rights &&& kBlackKingCastle ≠ 0 ∧
            b.piece_type_at 61 = 6 ∧ b.piece_type_at 62 = 6 ∧
            ¬ b.is_square_attacked 61 (opposite_color 1) = true ∧
            ¬ b.is_square_attacked 62 (opposite_color 1) = true
        · rw [if_pos hck] at hmk
          simp at hmk
          subst hmk
          obtain ⟨hr, hpta61, hpta62, _, _⟩ := hck
          have hrbit : b.castling_rights.testBit 2 = true := by
            apply (land_square_bb_ne_zero b.castling_rights 2).mp
            rwa [show square_bb 2 = kBlackKingCastle from by decide]
          obtain ⟨hmb60, hmb63⟩ := hw3 hrbit
          have hbit60 : (b.pieces 1 5).testBit 60 = true :=
            occupied_bit hcoh (by omega) (by omega) (by omega)
              (show b.pstate.mailbox 60 = encode_piece 1 5 from hmb60)
          have hpow := hk60 hbit60
          have hfrm60 : frm = 60 := by
            have := hfbit
            rw [hus, hpow, Nat.testBit_two_pow] at this
            simp at this
            omega
          subst hfrm60
          refine moveok_castle b hstm (by omega) (by omega) (by omega)
            (Or.inl rfl) ?_ ?_ ?_ ?_ ?_ ?_ ?_ ?_ ?_ ?_
          · rw [hmb60]
            omega
          · rw [hmb60, hus]
            decide
          · rw [hmb60]
            decide
          · exact pta_empty (by omega) (hcoh.2.1 62 (by omega)) hpta62
          · rw [hus]
            exact hmb63
          · rw [hus]
            exact pta_empty (by decide) (hcoh.2.1 _ (by decide)) hpta61
          · rw [hus]
            decide
          · rw [hus]
            decide
          · rw [hus]
            decide
          · rw [hus]
            decide
        · rw [if_neg hck] at hmk
          simp at hmk
      · by_cases hck : b.castling_rights &&& kBlackQueenCastle ≠ 0 ∧
            b.piece_type_at 59 = 6 ∧ b.piece_type_at 58 = 6 ∧ b.piece_type_at 57 = 6 ∧
            ¬ b.is_square_attacked 59 (opposite_color 1) = true ∧
            ¬ b.is_square_attacked 58 (opposite_color 1) = true
        · rw [if_pos hck] at hmq
          simp at hmq
          subst hmq
          obtain ⟨hr, hpta59, hpta58, hpta57, _, _⟩ := hck
          have hrbit : b.castling_rights.testBit 3 = true := by
            apply (land_square_bb_ne_zero b.castling_rights 3).mp
            rwa [show square_bb 3 = kBlackQueenCastle from by decide]
          obtain ⟨hmb60, hmb56⟩ := hw4 hrbit
          have hbit60 : (b.pieces 1 5).testBit 60 = true :=
            occupied_bit hcoh (by omega) (by omega) (by omega)
              (show b.pstate.mailbox 60 = encode_piece 1 5 from hmb60)
          have hpow := hk60 hbit60
          have hfrm60 : frm = 60 := by
            have := hfbit
            rw [hus, hpow, Nat.testBit_two_pow] at this
            simp at this
            omega
          subst hfrm60
          refine moveok_castle b hstm (by omega) (by omega) (by omega)
            (Or.inr rfl) ?_ ?_ ?_ ?_ ?_ ?_ ?_ ?_ ?_ ?_
          · rw [hmb60]
            omega
          · rw [hmb60, hus]
            decide
          · rw [hmb60]
            decide
          · exact pta_empty (by omega) (hcoh.2.1 58 (by omega)) hpta58
          · rw [hus]
            exact hmb56
          · rw [hus]
            exact pta_empty (by decide) (hcoh.2.1 _ (by decide)) hpta59
          · rw [hus]
            decide
          · rw [hus]
            decide
          · rw [hus]
            decide
          · rw [hus]
            decide
        · rw [if_neg hck] at hmq
          simp at hmq

end Chiron
